import Mathlib

/-!
# Visualine: colour codec, distance metric, token matcher and tree scanner

A shallow embedding of `src/code.js` and of `escapeHtml` in
`src/ui/scripts.js`.

Conventions of the embedding.

* A JavaScript string is a Lean `String`; the functions below work on its list
  of characters (`String.data`).  Every string that passes `hexRegex` is ASCII,
  so counting characters and counting UTF-16 code units agree where it matters.
* `try { ... } catch` blocks are kept: the body of a function is a definition
  returning `Except JSError _`, and the function itself is the body followed by
  the handler.
* `calculateColorDistance` returns `Math.sqrt(n)` for a natural number `n`, or
  `Infinity`.  The value `Math.sqrt(n)` is represented by its radicand `n`
  (`Distance.sqrt n`); the comparison `<` of two such values is the comparison
  of the radicands, which is what IEEE square root (correctly rounded, hence
  monotone, and injective on integers below `2^52`) gives.
* A colour channel is an IEEE double; a finite one is represented by its exact
  rational value.  The result of an arithmetic operation on doubles is the
  exact result rounded to a double (`toDouble`): `color.r * 255` is the exact
  product rounded to the nearest double, ties to even.
* The module-level variable `baselineData` is passed as an argument.
* An array entry that is `null` or `undefined` is `none`; reading a property of
  it throws.  A function that can end with an exception after it has appended
  to `scannedItems` or `errors` returns the arrays together with the exception.
* The messages posted with `figma.ui.postMessage` during a scan are collected,
  in order, in the state of the loop.
-/

namespace Visualine

/-! ## JavaScript values -/

/-- An exception object: only its `message` is ever read by the program. -/
structure JSError where
  message : String
  deriving DecidableEq, Repr

/-- The result of `calculateColorDistance` and the content of `minDistance`:
`Math.sqrt(n)` for an integer `n ≥ 0`, `Infinity`, or `NaN`. -/
inductive Distance where
  | sqrt (radicand : Nat)
  | infinity
  | nan
  deriving DecidableEq, Repr

namespace Distance

/-- JavaScript `a < b` on the values above: every comparison with `NaN` is
false, `Infinity` is above every `Math.sqrt(n)` and not below itself. -/
def lt : Distance → Distance → Bool
  | sqrt a, sqrt b => decide (a < b)
  | sqrt _, infinity => true
  | _, _ => false

/-- JavaScript `isFinite`: neither `Infinity` nor `NaN`. -/
def isFinite : Distance → Bool
  | sqrt _ => true
  | _ => false

/-- The real number a distance value stands for: `d.IsReal x` says that `d` is
`Math.sqrt(n)` and `x = √n`. -/
def IsReal : Distance → ℝ → Prop
  | sqrt n, x => x = Real.sqrt n
  | _, _ => False

end Distance

/-! ## Distance metric (`calculateColorDistance`, lines 228-260) -/

/-- The character class `[A-Fa-f0-9]`. -/
def isHexDigit (c : Char) : Bool :=
  decide (('A' ≤ c ∧ c ≤ 'F') ∨ ('a' ≤ c ∧ c ≤ 'f') ∨ ('0' ≤ c ∧ c ≤ '9'))

/-- The test `hexRegex.test(s)` for
`hexRegex = /^#([A-Fa-f0-9]{6}|[A-Fa-f0-9]{3})$/`: a `#`, then six or three
characters of the class, then the end of the input. -/
def hexRegexTest (s : String) : Bool :=
  match s.data with
  | '#' :: ds => (ds.length == 6 || ds.length == 3) && ds.all isHexDigit
  | _ => false

/-- The local function `normalizeHex`: a string of length 4 is rebuilt as
`'#' + hex[1] + hex[1] + hex[2] + hex[2] + hex[3] + hex[3]`, any other string
is returned as it is. -/
def normalizeHex (hex : List Char) : List Char :=
  match hex with
  | [_, x, y, z] => ['#', x, x, y, y, z, z]
  | _ => hex

/-- The substring `s.slice(i, j)` for `0 ≤ i ≤ j`. -/
def slice (s : List Char) (i j : Nat) : List Char :=
  (s.drop i).take (j - i)

/-- The value of one character as a digit in radix 16, if it is one. -/
def hexDigitValue (c : Char) : Option Nat :=
  if '0' ≤ c ∧ c ≤ '9' then some (c.toNat - '0'.toNat)
  else if 'a' ≤ c ∧ c ≤ 'f' then some (c.toNat - 'a'.toNat + 10)
  else if 'A' ≤ c ∧ c ≤ 'F' then some (c.toNat - 'A'.toNat + 10)
  else none

/-- The digit-reading loop of `parseInt(_, 16)`: reads digits while there are
some, accumulating the value; the Boolean records whether a digit was read. -/
def parseDigits16 : List Char → Nat → Bool → Nat × Bool
  | [], acc, seen => (acc, seen)
  | c :: cs, acc, seen =>
    match hexDigitValue c with
    | some d => parseDigits16 cs (16 * acc + d) true
    | none => (acc, seen)

/-- The call `parseInt(s, 16)` on a string without leading white space, sign or `0x`
prefix (none of which a character of the class `[A-Fa-f0-9]` can start): the
value of the longest prefix of digits, `none` (`NaN`) when that prefix is
empty. -/
def parseInt16 (s : List Char) : Option Nat :=
  match parseDigits16 s 0 false with
  | (v, true) => some v
  | (_, false) => none

/-- The value `Math.sqrt((r1 - r2) ** 2 + (g1 - g2) ** 2 + (b1 - b2) ** 2)`, where each
operand is an integer or `NaN` (`none`); `NaN` propagates through `-`, `**`,
`+` and `Math.sqrt`. -/
def euclid (r1 g1 b1 r2 g2 b2 : Option Nat) : Distance :=
  match r1, g1, b1, r2, g2, b2 with
  | some r1, some g1, some b1, some r2, some g2, some b2 =>
    Distance.sqrt (((r1 : Int) - r2) ^ 2 + ((g1 : Int) - g2) ^ 2 + ((b1 : Int) - b2) ^ 2).toNat
  | _, _, _, _, _, _ => Distance.nan

/-- The `try` block of `calculateColorDistance`. -/
def calculateColorDistanceBody (hex1 hex2 : String) : Except JSError Distance :=
  if !hexRegexTest hex1 || !hexRegexTest hex2 then
    throw ⟨"Invalid hex color format"⟩
  else
    let normalizedHex1 := normalizeHex hex1.data
    let normalizedHex2 := normalizeHex hex2.data
    let r1 := parseInt16 (slice normalizedHex1 1 3)
    let g1 := parseInt16 (slice normalizedHex1 3 5)
    let b1 := parseInt16 (slice normalizedHex1 5 7)
    let r2 := parseInt16 (slice normalizedHex2 1 3)
    let g2 := parseInt16 (slice normalizedHex2 3 5)
    let b2 := parseInt16 (slice normalizedHex2 5 7)
    pure (euclid r1 g1 b1 r2 g2 b2)

/-- The function `calculateColorDistance(hex1, hex2)`: the `try` block, and
`Infinity` from the `catch` block. -/
def calculateColorDistance (hex1 hex2 : String) : Distance :=
  match calculateColorDistanceBody hex1 hex2 with
  | .ok d => d
  | .error _ => Distance.infinity

/-! ## Colour codec (`rgbToHex`, lines 161-181) -/

/-- A JavaScript number as it occurs in a colour channel. -/
inductive JSNumber where
  | nan
  | posInf
  | negInf
  | fin (q : ℚ)
  deriving DecidableEq

/-- An integral JavaScript number: what `Math.round` returns. -/
inductive JSIntegral where
  | nan
  | posInf
  | negInf
  | int (z : Int)
  deriving DecidableEq, Repr

/-- A colour object `{r, g, b}`; a channel that is `undefined` is `none`. -/
structure Color where
  r : Option JSNumber
  g : Option JSNumber
  b : Option JSNumber
  deriving DecidableEq

/-- Rounding of a rational to the nearest integer, a tie going to the even
one. -/
def roundHalfEven (y : ℚ) : Int :=
  if y - ⌊y⌋ < 1 / 2 then ⌊y⌋
  else if 1 / 2 < y - ⌊y⌋ then ⌊y⌋ + 1
  else if ⌊y⌋ % 2 = 0 then ⌊y⌋
  else ⌊y⌋ + 1

/-- The exponent of the spacing of the doubles around `x`: 52 below the binary
exponent of `x`, and `-1074` in the subnormal range. -/
def doubleExponent (x : ℚ) : Int :=
  max (Int.log 2 |x| - 52) (-1074)

/-- The multiple of the spacing nearest to `x`, a tie going to the even
multiple: the double nearest to `x` when there is no overflow. -/
def roundToDouble (x : ℚ) : ℚ :=
  (roundHalfEven (x / 2 ^ doubleExponent x) : ℚ) * 2 ^ doubleExponent x

/-- The double that an arithmetic operation with exact result `x` returns
(IEEE 754 binary64, round to nearest, ties to even, overflow to an
infinity). -/
def toDouble (x : ℚ) : JSNumber :=
  if 2 ^ 1024 ≤ roundToDouble x then JSNumber.posInf
  else if roundToDouble x ≤ -2 ^ 1024 then JSNumber.negInf
  else JSNumber.fin (roundToDouble x)

/-- The product `x * 255` of doubles: the exact product rounded to a double;
`undefined * 255` is `NaN`. -/
def times255 : Option JSNumber → JSNumber
  | none => JSNumber.nan
  | some JSNumber.nan => JSNumber.nan
  | some JSNumber.posInf => JSNumber.posInf
  | some JSNumber.negInf => JSNumber.negInf
  | some (JSNumber.fin q) => toDouble (q * 255)

/-- The function `Math.round`: the integer nearest to `x`, a tie going
upwards, that is `floor(x + 0.5)`. -/
def mathRound : JSNumber → JSIntegral
  | JSNumber.nan => JSIntegral.nan
  | JSNumber.posInf => JSIntegral.posInf
  | JSNumber.negInf => JSIntegral.negInf
  | JSNumber.fin q => JSIntegral.int ⌊q + 1 / 2⌋

/-- The function `isNaN` on a number. -/
def JSIntegral.isNaN : JSIntegral → Bool
  | JSIntegral.nan => true
  | _ => false

/-- Reduction of an integer to the signed 32-bit range (the last step of
`ToInt32`). -/
def wrap32 (z : Int) : Int :=
  (z + 2 ^ 31) % 2 ^ 32 - 2 ^ 31

/-- The abstract operation `ToInt32`: `NaN` and the infinities become `0`. -/
def toInt32 : JSIntegral → Int
  | JSIntegral.int z => wrap32 z
  | _ => 0

/-- The operator `x << k` for `0 ≤ k < 32`. -/
def shiftLeft (x : JSIntegral) (k : Nat) : Int :=
  wrap32 (toInt32 x * 2 ^ k)

/-- The sum `n + b` of a finite integer `n` and an integral number `b`: the
exact sum rounded to a double, which is again an integer. -/
def addIntegral (n : Int) : JSIntegral → JSIntegral
  | JSIntegral.int z =>
    match toDouble ((n + z : Int) : ℚ) with
    | JSNumber.fin v => JSIntegral.int ⌊v⌋
    | JSNumber.posInf => JSIntegral.posInf
    | JSNumber.negInf => JSIntegral.negInf
    | JSNumber.nan => JSIntegral.nan
  | JSIntegral.posInf => JSIntegral.posInf
  | JSIntegral.negInf => JSIntegral.negInf
  | JSIntegral.nan => JSIntegral.nan

/-- The method `x.toString(16)` on an integral number: lower-case digits
without leading zeros, a minus sign for a negative number. -/
def toString16 : JSIntegral → List Char
  | JSIntegral.int z =>
    if z < 0 then '-' :: Nat.toDigits 16 z.natAbs else Nat.toDigits 16 z.toNat
  | JSIntegral.posInf => "Infinity".data
  | JSIntegral.negInf => "-Infinity".data
  | JSIntegral.nan => "NaN".data

/-- The method `toUpperCase` on a string of ASCII characters. -/
def toUpperCase (s : List Char) : List Char :=
  s.map Char.toUpper

/-- The `try` block of `rgbToHex`. -/
def rgbToHexBody (color : Option Color) : Except JSError String :=
  match color with
  | none => throw ⟨"Invalid color object"⟩
  | some color =>
    if color.r = none then
      throw ⟨"Invalid color object"⟩
    else
      let r := mathRound (times255 color.r)
      let g := mathRound (times255 color.g)
      let b := mathRound (times255 color.b)
      if r.isNaN || g.isNaN || b.isNaN then
        throw ⟨"Invalid RGB values"⟩
      else
        pure (String.mk ('#' :: toUpperCase
          ((toString16 (addIntegral (wrap32 (1 * 2 ^ 24) + shiftLeft r 16 + shiftLeft g 8) b)).drop 1)))

/-- The function `rgbToHex(color)`: the `try` block, and `null` (`none`) from
the `catch` block. -/
def rgbToHex (color : Option Color) : Option String :=
  match rgbToHexBody color with
  | .ok s => some s
  | .error _ => none

/-- The colour `{r, g, b}` with three finite channels. -/
def Color.ofChannels (r g b : ℚ) : Color :=
  ⟨some (JSNumber.fin r), some (JSNumber.fin g), some (JSNumber.fin b)⟩

/-! ## Palette (`getBaselineData`, lines 262-296) -/

/-- The data of one token of the palette. -/
structure TokenData where
  value : String
  availability : String
  note : String
  deriving DecidableEq, Repr

/-- The entries of the `tokens` object in the order in which `Object.entries`
lists them.  An entry whose data is `null` or `undefined` (reading its `value`
throws) is `none`. -/
abbrev Palette := List (String × Option TokenData)

/-- The object held by the variable `baselineData`; `tokens` is `none` when
the property is absent. -/
structure BaselineData where
  tokens : Option Palette
  deriving DecidableEq, Repr

/-- The eighteen built-in tokens, in source order. -/
def builtinTokens : Palette :=
  [ ("primary/50", some ⟨"#FFF5F7", "widely", "Light tint"⟩),
    ("primary/100", some ⟨"#FFE4EA", "widely", "Soft background"⟩),
    ("primary/300", some ⟨"#FF7CA1", "widely", "Accent shade"⟩),
    ("primary/500", some ⟨"#FF3366", "widely", "Main brand"⟩),
    ("primary/700", some ⟨"#C0244B", "widely", "Dark brand"⟩),
    ("neutral/50", some ⟨"#FAFAFA", "widely", "Light bg"⟩),
    ("neutral/100", some ⟨"#F5F5F5", "widely", "Surface bg"⟩),
    ("neutral/300", some ⟨"#D4D4D8", "widely", "Border"⟩),
    ("neutral/700", some ⟨"#374151", "widely", "Text dark"⟩),
    ("accent/blue", some ⟨"#007BFF", "limited", "Some old browsers"⟩),
    ("accent/teal", some ⟨"#14B8A6", "widely", "Highlight"⟩),
    ("accent/purple", some ⟨"#8B5CF6", "widely", "Highlight"⟩),
    ("success/500", some ⟨"#10B981", "widely", "Success"⟩),
    ("warning/500", some ⟨"#F59E0B", "widely", "Warning"⟩),
    ("danger/500", some ⟨"#DC2626", "widely", "Error"⟩),
    ("info/500", some ⟨"#3B82F6", "widely", "Info"⟩),
    ("glass/blur", some ⟨"#FFFFFF", "limited", "Backdrop blur"⟩),
    ("lab/lch", some ⟨"#E0D8FF", "limited", "New color format"⟩) ]

/-- The function `getBaselineData()`. -/
def getBaselineData : BaselineData :=
  ⟨some builtinTokens⟩

/-! ## Token matcher (`findNearestToken`, lines 183-226) -/

/-- The record returned by `findNearestToken`; `distance` is `none` for
`null`. -/
structure TokenMatch where
  name : String
  value : String
  availability : String
  note : String
  distance : Option Distance
  deriving DecidableEq, Repr

/-- The `for` loop of `findNearestToken` (lines 192-209), with the two
variables `closestToken` and `minDistance` as state.  Reading `value` from an
entry without data throws; the inner `catch` swallows the exception and the
loop goes on. -/
def nearestLoop (hexColor : String) :
    Palette → Option TokenMatch × Distance → Option TokenMatch × Distance
  | [], state => state
  | (_, none) :: rest, state => nearestLoop hexColor rest state
  | (tokenName, some tokenData) :: rest, (closestToken, minDistance) =>
    let distance := calculateColorDistance hexColor tokenData.value
    if Distance.lt distance minDistance then
      nearestLoop hexColor rest
        (some ⟨tokenName, tokenData.value, tokenData.availability, tokenData.note,
          some distance⟩, distance)
    else
      nearestLoop hexColor rest (closestToken, minDistance)

/-- The outer `try` block of `findNearestToken`. -/
def findNearestTokenBody (baselineData : Option BaselineData) (hexColor : String) :
    Except JSError TokenMatch :=
  match baselineData with
  | none => throw ⟨"Baseline data not loaded"⟩
  | some data =>
    match data.tokens with
    | none => throw ⟨"Baseline data not loaded"⟩
    | some tokens =>
      match (nearestLoop hexColor tokens (none, Distance.infinity)).1 with
      | none => throw ⟨"No tokens found for comparison"⟩
      | some closestToken => pure closestToken

/-- The record built by the outer `catch` block of `findNearestToken`. -/
def degradedMatch (hexColor : String) (error : JSError) : TokenMatch :=
  ⟨"Error", hexColor, "unknown", "Matching failed: " ++ error.message, none⟩

/-- The function `findNearestToken(hexColor)`, reading the variable
`baselineData`. -/
def findNearestToken (baselineData : Option BaselineData) (hexColor : String) : TokenMatch :=
  match findNearestTokenBody baselineData hexColor with
  | .ok m => m
  | .error e => degradedMatch hexColor e

/-! ## Tree scanner (`processNode`, lines 85-159) -/

/-- A fill or stroke entry. -/
structure Paint where
  type : String
  visible : Option Bool
  color : Option Color
  deriving DecidableEq

/-- A layer node.  `fills`, `strokes` and `children` are `none` when the
property is absent or is not an array; an entry of such an array that is
`null` or `undefined` is `none`. -/
inductive LayerNode where
  | mk (name : Option String) (type : String) (visible : Option Bool)
      (fills : Option (List (Option Paint))) (strokes : Option (List (Option Paint)))
      (children : Option (List (Option LayerNode)))

namespace LayerNode

/-- The property `node.name`. -/
def name : LayerNode → Option String
  | mk n _ _ _ _ _ => n

/-- The property `node.type`. -/
def type : LayerNode → String
  | mk _ t _ _ _ _ => t

/-- The property `node.visible`. -/
def visible : LayerNode → Option Bool
  | mk _ _ v _ _ _ => v

/-- The property `node.fills`. -/
def fills : LayerNode → Option (List (Option Paint))
  | mk _ _ _ f _ _ => f

/-- The property `node.strokes`. -/
def strokes : LayerNode → Option (List (Option Paint))
  | mk _ _ _ _ s _ => s

/-- The property `node.children`. -/
def children : LayerNode → Option (List (Option LayerNode))
  | mk _ _ _ _ _ c => c

end LayerNode

/-- One element of `scannedItems`. -/
structure ScanResult where
  layerName : String
  layerType : String
  styleType : String
  color : String
  tokenMatch : TokenMatch
  deriving DecidableEq, Repr

/-- One element of `errors`. -/
structure ScanError where
  nodeName : String
  nodeType : String
  error : String
  deriving DecidableEq, Repr

/-- The two arrays `scannedItems` and `errors` that `processNode` appends to. -/
structure Sink where
  scannedItems : List ScanResult
  errors : List ScanError
  deriving DecidableEq, Repr

/-- The expression `name || dflt`: an absent or empty name is falsy. -/
def nameOr (name : Option String) (dflt : String) : String :=
  match name with
  | some s => if s = "" then dflt else s
  | none => dflt

/-- The message of the `TypeError` raised by reading property `prop` of
`null`. -/
def typeErrorMessage (prop : String) : String :=
  "Cannot read properties of null (reading \x27" ++ prop ++ "\x27)"

/-- The call `paints.filter(p => p.type === 'SOLID' && p.visible !== false)`;
reading `type` from an entry that is `null` throws. -/
def filterPaints : List (Option Paint) → Except JSError (List Paint)
  | [] => pure []
  | none :: _ => throw ⟨typeErrorMessage "type"⟩
  | some p :: rest =>
    match filterPaints rest with
    | .error e => throw e
    | .ok kept => pure (if p.type = "SOLID" ∧ p.visible ≠ some false then p :: kept else kept)

/-- The loop over the retained paints (lines 96-107 and 124-135): a paint
whose colour encodes contributes one result, any other paint nothing.  The
encoded colour starts with `#`, so the test `if (color)` is the test that it is
not `null`. -/
def paintLoop (baselineData : Option BaselineData) (layerName layerType styleType : String) :
    List Paint → List ScanResult → List ScanResult
  | [], scannedItems => scannedItems
  | p :: rest, scannedItems =>
    match rgbToHex p.color with
    | some color =>
      paintLoop baselineData layerName layerType styleType rest
        (scannedItems ++ [⟨layerName, layerType, styleType, color,
          findNearestToken baselineData color⟩])
    | none => paintLoop baselineData layerName layerType styleType rest scannedItems

/-- One of the two blocks "process fills" and "process strokes" (lines 90-115
and 118-143): `styleType` is `fill` or `stroke` and `label` is `Fill` or
`Stroke`. -/
def processPaints (baselineData : Option BaselineData) (nodeName : Option String) (nodeType : String)
    (styleType label : String) (paints : Option (List (Option Paint))) (sink : Sink) : Sink :=
  match paints with
  | none => sink
  | some paints =>
    match filterPaints paints with
    | .ok kept =>
      ⟨paintLoop baselineData (nameOr nodeName "Unnamed layer") nodeType styleType kept
        sink.scannedItems, sink.errors⟩
    | .error e =>
      ⟨sink.scannedItems, sink.errors ++
        [⟨nameOr nodeName "Unnamed layer", nodeType, label ++ " processing error: " ++ e.message⟩]⟩

mutual

/-- The function `processNode(node, scannedItems, errors)` on a node that is
an object.  The result is the state of the two arrays when the call ends and
the exception it ends with, if any. -/
def processNode (baselineData : Option BaselineData) : LayerNode → Sink → Sink × Option JSError
  | .mk nodeName nodeType visible fills strokes children, sink =>
    if visible = some false then (sink, none)
    else
      let sink := processPaints baselineData nodeName nodeType "fill" "Fill" fills sink
      let sink := processPaints baselineData nodeName nodeType "stroke" "Stroke" strokes sink
      match children with
      | none => (sink, none)
      | some children => processChildren baselineData children sink

/-- The loop over `node.children` (lines 147-157).  For a child that is
`null`, `processNode` throws on reading `visible`, and the `catch` block throws
again on reading `child.name`: that exception leaves the loop and the
function. -/
def processChildren (baselineData : Option BaselineData) :
    List (Option LayerNode) → Sink → Sink × Option JSError
  | [], sink => (sink, none)
  | none :: _, sink => (sink, some ⟨typeErrorMessage "name"⟩)
  | some (.mk nodeName nodeType visible fills strokes children) :: rest, sink =>
    match processNode baselineData (.mk nodeName nodeType visible fills strokes children) sink with
    | (sink, none) => processChildren baselineData rest sink
    | (sink, some childError) =>
      processChildren baselineData rest
        ⟨sink.scannedItems, sink.errors ++
          [⟨nameOr nodeName "Unnamed child layer", nodeType,
            "Child processing error: " ++ childError.message⟩]⟩

end

/-! ## Scan orchestrator (`scanNodes`, lines 39-83) -/

/-- The `stats` object of the report. -/
structure ScanStats where
  totalNodes : Nat
  processedNodes : Nat
  errorCount : Nat
  colorMatches : Nat
  deriving DecidableEq, Repr

/-- The object returned by `scanNodes`. -/
structure ScanReport where
  scannedItems : List ScanResult
  stats : ScanStats
  errors : List ScanError
  deriving DecidableEq, Repr

/-- A `scan-progress` message posted to the user interface. -/
structure ProgressMessage where
  processed : Nat
  total : Nat
  deriving DecidableEq, Repr

/-- The state of the loop of `scanNodes`: the two arrays, the counter
`processedCount`, and the progress messages posted so far, in order. -/
structure ScanState where
  sink : Sink
  processedCount : Nat
  messages : List ProgressMessage
  deriving DecidableEq, Repr

/-- The loop of `scanNodes` (lines 50-71); `total` is `nodes.length`.  For an
entry that is `null`, `processNode` throws on reading `visible`, and the
`catch` block throws again on reading `node.name`: that exception leaves the
loop and the function. -/
def scanLoop (baselineData : Option BaselineData) (total : Nat) :
    List (Option LayerNode) → ScanState → ScanState × Option JSError
  | [], state => (state, none)
  | none :: _, state => (state, some ⟨typeErrorMessage "name"⟩)
  | some node :: rest, state =>
    match processNode baselineData node state.sink with
    | (sink, none) =>
      let processedCount := state.processedCount + 1
      if total > 10 ∧ processedCount % 5 = 0 then
        scanLoop baselineData total rest
          ⟨sink, processedCount, state.messages ++ [⟨processedCount, total⟩]⟩
      else
        scanLoop baselineData total rest ⟨sink, processedCount, state.messages⟩
    | (sink, some error) =>
      scanLoop baselineData total rest
        ⟨⟨sink.scannedItems, sink.errors ++
          [⟨nameOr node.name "Unnamed layer", node.type, error.message⟩]⟩,
          state.processedCount, state.messages⟩

/-- What a call of `scanNodes` leaves behind: the report it returns, or
`none` when it ends with an exception; that exception; the progress messages
it posted; and the content of the variable `baselineData` afterwards. -/
structure ScanOutcome where
  report : Option ScanReport
  raised : Option JSError
  progress : List ProgressMessage
  baselineData : Option BaselineData
  deriving DecidableEq, Repr

/-- The content of the variable `baselineData` after lines 45-47: the built-in
data when nothing was loaded, the data already there otherwise. -/
def loadBaselineData (baselineData : Option BaselineData) : BaselineData :=
  match baselineData with
  | none => getBaselineData
  | some data => data

/-- The function `scanNodes(nodes)`, started with the given content of the
variable `baselineData`. -/
def scanNodes (baselineData : Option BaselineData) (nodes : List (Option LayerNode)) :
    ScanOutcome :=
  let loaded := loadBaselineData baselineData
  match scanLoop (some loaded) nodes.length nodes ⟨⟨[], []⟩, 0, []⟩ with
  | (state, none) =>
    ⟨some ⟨state.sink.scannedItems,
      ⟨nodes.length, state.processedCount, state.sink.errors.length,
        state.sink.scannedItems.length⟩,
      state.sink.errors⟩, none, state.messages, some loaded⟩
  | (state, some error) => ⟨none, some error, state.messages, some loaded⟩

/-! ## HTML escaping (`escapeHtml`, `src/ui/scripts.js` lines 230-239) -/

/-- The call `s.replace(/c/g, r)` for a single character `c`: every occurrence
of `c` is replaced by the string `r`. -/
def replaceAll (c : Char) (r : String) (s : List Char) : List Char :=
  s.flatMap (fun x => if x = c then r.data else [x])

/-- The function `escapeHtml(unsafe)` on a string: the five replacements, in
source order. -/
def escapeHtml (s : String) : String :=
  String.mk
    (replaceAll '\x27' "&#039;"
      (replaceAll '\x22' "&quot;"
        (replaceAll '>' "&gt;"
          (replaceAll '<' "&lt;"
            (replaceAll '&' "&amp;" s.data)))))

/-! ## Specification-side definitions

The definitions of this section follow the words of the specification; the
theorems compare them with the definitions above, which follow the code. -/

/-- The twenty-two hexadecimal digits, of either letter case. -/
def hexDigitChars : List Char :=
  "0123456789abcdefABCDEF".data

/-- A well-formed hex colour: `#` followed by exactly three or exactly six
hexadecimal digits. -/
def WellFormedHex (s : String) : Prop :=
  ∃ ds : List Char, s.data = '#' :: ds ∧ (ds.length = 3 ∨ ds.length = 6) ∧
    ∀ c ∈ ds, c ∈ hexDigitChars

/-- The value of a hexadecimal digit, read without regard to letter case: its
position in `0123456789abcdef`. -/
def specDigit (c : Char) : Nat :=
  "0123456789abcdef".data.indexOf c.toLower

/-- The byte written by two hexadecimal digits. -/
def specByte (hi lo : Char) : Nat :=
  16 * specDigit hi + specDigit lo

/-- The expansion of the three-digit form `#xyz` to `#xxyyzz`; any other
string is left as it is. -/
def specExpand (s : String) : String :=
  match s.data with
  | [h, x, y, z] => String.mk [h, x, x, y, y, z, z]
  | _ => s

/-- The three channels of a hex colour: the three bytes of its six-digit
form. -/
def specChannels (s : String) : Nat × Nat × Nat :=
  match (specExpand s).data with
  | [_, r1, r0, g1, g0, b1, b0] => (specByte r1 r0, specByte g1 g0, specByte b1 b0)
  | _ => (0, 0, 0)

/-- The sum of the squared channel differences of two hex colours. -/
def specSquaredDistance (a b : String) : Nat :=
  ((specChannels a).1 - (specChannels b).1 : Int).natAbs ^ 2 +
  ((specChannels a).2.1 - (specChannels b).2.1 : Int).natAbs ^ 2 +
  ((specChannels a).2.2 - (specChannels b).2.2 : Int).natAbs ^ 2

/-- The order `≤` on distance values that are not `NaN`. -/
def Distance.le : Distance → Distance → Prop
  | Distance.sqrt a, Distance.sqrt b => a ≤ b
  | Distance.sqrt _, Distance.infinity => True
  | Distance.infinity, Distance.infinity => True
  | _, _ => False

/-- The invariant of the loop of `findNearestToken` after the entries `seen`:
either nothing is retained and every token seen is at distance `Infinity`, or
the retained token is the first of the tokens seen at the least distance. -/
def NearestInv (h : String) (seen : Palette) (st : Option TokenMatch × Distance) : Prop :=
  (st = (none, Distance.infinity) ∧
    ∀ n td, (n, some td) ∈ seen → calculateColorDistance h td.value = Distance.infinity) ∨
  (∃ pre name td post k, seen = pre ++ (name, some td) :: post ∧
    calculateColorDistance h td.value = Distance.sqrt k ∧
    st = (some ⟨name, td.value, td.availability, td.note, some (Distance.sqrt k)⟩,
      Distance.sqrt k) ∧
    (∀ n td', (n, some td') ∈ pre →
      Distance.lt (Distance.sqrt k) (calculateColorDistance h td'.value) = true) ∧
    (∀ n td', (n, some td') ∈ post →
      Distance.le (Distance.sqrt k) (calculateColorDistance h td'.value)))

/-- The upper-case hexadecimal digit of value `d`. -/
def specUpperDigit (d : Nat) : Char :=
  "0123456789ABCDEF".data.getD d '0'

/-- The two-digit upper-case hexadecimal encoding of `n`, padded with a zero on
the left. -/
def specHexByte (n : Nat) : List Char :=
  [specUpperDigit (n / 16), specUpperDigit (n % 16)]

/-- The level of a channel: `round(c * 255)`, the product being the product
of doubles. -/
def specLevel (c : ℚ) : Nat :=
  (round (roundToDouble (c * 255))).toNat

/-- A malformed colour input: the colour object is missing, or one of its
channels is absent or `NaN`. -/
def MalformedColor (color : Option Color) : Prop :=
  match color with
  | none => True
  | some c => c.r = none ∨ c.r = some JSNumber.nan ∨ c.g = none ∨ c.g = some JSNumber.nan ∨
      c.b = none ∨ c.b = some JSNumber.nan

/-- A node on which `processNode` ends with an exception: a node that is not
invisible and has an entry that is `null` in its child list. -/
def LayerNode.escapes : LayerNode → Bool
  | .mk _ _ visible _ _ children =>
    decide (visible ≠ some false) &&
      (match children with
       | none => false
       | some children => children.any Option.isNone)

/-- The number of entries of a list of top-level nodes that are nodes on which
`processNode` ends without an exception. -/
def countProcessed (nodes : List (Option LayerNode)) : Nat :=
  (nodes.filter (fun entry =>
    match entry with
    | none => false
    | some node => !node.escapes)).length

/-- The progress messages of a scan of `total` nodes once `done` of them are
processed: none when `total ≤ 10`, otherwise `(5k, total)` for
`k = 1, ..., floor(done / 5)`, in increasing order. -/
def specProgress (total done : Nat) : List ProgressMessage :=
  if total > 10 then (List.range (done / 5)).map (fun k => ⟨5 * (k + 1), total⟩) else []

/-- A paint list without an entry that is `null`. -/
def paintsWellFormed : Option (List (Option Paint)) → Bool
  | none => true
  | some paints => paints.all Option.isSome

mutual

/-- A well-formed node: no entry of its fill, stroke and child lists is
`null`, and its children are well formed. -/
def LayerNode.wellFormed : LayerNode → Bool
  | .mk _ _ _ fills strokes children =>
    paintsWellFormed fills && paintsWellFormed strokes &&
      (match children with
       | none => true
       | some children => childrenWellFormed children)

/-- A list of well-formed nodes. -/
def childrenWellFormed : List (Option LayerNode) → Bool
  | [] => true
  | none :: _ => false
  | some (.mk nodeName nodeType visible fills strokes children) :: rest =>
    LayerNode.wellFormed (.mk nodeName nodeType visible fills strokes children) &&
      childrenWellFormed rest

end

/-- The results of one paint list of a node: one result, tagged with the name
and type of the node and with the style kind, for each paint, in list order,
that is solid, is not explicitly invisible and whose colour encodes. -/
def specPaintResults (baselineData : Option BaselineData)
    (layerName layerType styleType : String) (paints : Option (List (Option Paint))) :
    List ScanResult :=
  match paints with
  | none => []
  | some paints =>
    (paints.filterMap id).filterMap (fun p =>
      if p.type = "SOLID" ∧ p.visible ≠ some false then
        (rgbToHex p.color).map (fun color =>
          ⟨layerName, layerType, styleType, color, findNearestToken baselineData color⟩)
      else none)

mutual

/-- The results of a node, depth first and in pre-order: nothing for an
invisible node; otherwise the results of its fills, then of its strokes, then
of each child in child order. -/
def specResults (baselineData : Option BaselineData) : LayerNode → List ScanResult
  | .mk nodeName nodeType visible fills strokes children =>
    if visible = some false then []
    else
      specPaintResults baselineData (nameOr nodeName "Unnamed layer") nodeType "fill" fills ++
      specPaintResults baselineData (nameOr nodeName "Unnamed layer") nodeType "stroke" strokes ++
      (match children with
       | none => []
       | some children => specChildResults baselineData children)

/-- The results of the nodes of a child list, in child order. -/
def specChildResults (baselineData : Option BaselineData) :
    List (Option LayerNode) → List ScanResult
  | [] => []
  | none :: rest => specChildResults baselineData rest
  | some (.mk nodeName nodeType visible fills strokes children) :: rest =>
    specResults baselineData (.mk nodeName nodeType visible fills strokes children) ++
      specChildResults baselineData rest

end

/-- The five characters that `escapeHtml` replaces. -/
def specialChars : List Char :=
  ['&', '<', '>', '\x22', '\x27']

/-- The five entities, each with the character it stands for. -/
def specEntities : List (List Char × Char) :=
  [("&amp;".data, '&'), ("&lt;".data, '<'), ("&gt;".data, '>'), ("&quot;".data, '\x22'),
    ("&#039;".data, '\x27')]

/-- The entity that stands for a special character; any other character
stands for itself. -/
def specEscapeChar (c : Char) : List Char :=
  if c = '&' then "&amp;".data
  else if c = '<' then "&lt;".data
  else if c = '>' then "&gt;".data
  else if c = '\x22' then "&quot;".data
  else if c = '\x27' then "&#039;".data
  else [c]

/-- The string `s` without its prefix `p`, when `p` is a prefix of `s`. -/
def stripPrefix : List Char → List Char → Option (List Char)
  | [], s => some s
  | _ :: _, [] => none
  | a :: p, b :: s => if a = b then stripPrefix p s else none

/-- The first of the five entities that `s` starts with, as the character it
stands for and the rest of `s`. -/
def matchEntity (s : List Char) : Option (Char × List Char) :=
  specEntities.findSome? (fun e => (stripPrefix e.1 s).map (fun rest => (e.2, rest)))

/-- The replacement of the five entities by their characters, reading from the
left, in at most `fuel` steps. -/
def specUnescapeAux : Nat → List Char → List Char
  | 0, s => s
  | _ + 1, [] => []
  | fuel + 1, c :: rest =>
    match matchEntity (c :: rest) with
    | some (ch, rest') => ch :: specUnescapeAux fuel rest'
    | none => c :: specUnescapeAux fuel rest

/-- The replacement of the five entities by their characters; one step per
character is enough. -/
def specUnescape (s : List Char) : List Char :=
  specUnescapeAux s.length s

/-- The number `(1 << 24) + (r << 16) + (g << 8) + b` of line 176, for three
channels that are numbers. -/
def packedNumber (cr cg cb : JSNumber) : JSIntegral :=
  addIntegral
    (wrap32 (1 * 2 ^ 24) + shiftLeft (mathRound (times255 (some cr))) 16 +
      shiftLeft (mathRound (times255 (some cg))) 8)
    (mathRound (times255 (some cb)))

/-- The integers whose `toString(16)`, without its first character, has six
characters: seven hexadecimal digits, or a minus sign and six digits. -/
def SixDigitNumber (n : Int) : Prop :=
  (2 ^ 24 ≤ n ∧ n < 2 ^ 28) ∨ (-2 ^ 24 < n ∧ n ≤ -2 ^ 20)

/-- A colour whose three channels are numbers in `[0, 1]`. -/
def UnitColor (color : Option Color) : Prop :=
  ∃ r g b : ℚ, color = some (Color.ofChannels r g b) ∧
    (0 ≤ r ∧ r ≤ 1) ∧ (0 ≤ g ∧ g ≤ 1) ∧ (0 ≤ b ∧ b ≤ 1)

/-- A match that is one of the built-in tokens, with a distance
`Math.sqrt(k)`, `k ≤ 3·255²`. -/
def BuiltinMatch (m : TokenMatch) : Prop :=
  ∃ name td k, (name, some td) ∈ builtinTokens ∧
    m = ⟨name, td.value, td.availability, td.note, some (Distance.sqrt k)⟩ ∧ k ≤ 195075

mutual

/-- The nodes whose paint blocks a call of `processNode` runs, in order: none
for an invisible node; otherwise the node, then the nodes visited in its
children. -/
def LayerNode.visited : LayerNode → List LayerNode
  | .mk nodeName nodeType visible fills strokes children =>
    if visible = some false then []
    else
      .mk nodeName nodeType visible fills strokes children ::
        (match children with
         | none => []
         | some children => visitedChildren children)

/-- The nodes visited in a list of nodes: the loop over the list stops at an
entry that is `null`. -/
def visitedChildren : List (Option LayerNode) → List LayerNode
  | [] => []
  | none :: _ => []
  | some (.mk nodeName nodeType visible fills strokes children) :: rest =>
    LayerNode.visited (.mk nodeName nodeType visible fills strokes children) ++
      visitedChildren rest

end

/-- A solid visible paint `p` of the node, among its fills when `styleType` is
`fill` and among its strokes when it is `stroke`, in a paint list that has no
entry that is `null`. -/
def RetainedPaint (node : LayerNode) (styleType : String) (p : Paint) : Prop :=
  ∃ paints, ((styleType = "fill" ∧ node.fills = some paints) ∨
      (styleType = "stroke" ∧ node.strokes = some paints)) ∧
    none ∉ paints ∧ some p ∈ paints ∧ p.type = "SOLID" ∧ p.visible ≠ some false

/-- The property of a result that it was pushed for a solid visible paint, with
the match that `findNearestToken` returns for its colour. -/
def PushedForPaint (baselineData : Option BaselineData) (item : ScanResult) : Prop :=
  item.tokenMatch = findNearestToken baselineData item.color ∧
  ∃ p : Paint, p.type = "SOLID" ∧ p.visible ≠ some false ∧
    rgbToHex p.color = some item.color

/-- The property of a list of results that it holds the result of every
retained paint, whose colour encodes, of the nodes `visited`. -/
def HoldsResults (baselineData : Option BaselineData) (visited : List LayerNode)
    (items : List ScanResult) : Prop :=
  ∀ m ∈ visited, ∀ (styleType : String) (p : Paint) (s : String),
    RetainedPaint m styleType p → rgbToHex p.color = some s →
    (⟨nameOr m.name "Unnamed layer", m.type, styleType, s,
      findNearestToken baselineData s⟩ : ScanResult) ∈ items

/-- The property that claim C19 asks of the results `items` pushed while the
nodes `visited` were processed against the built-in palette.  First, every
result carries the match that `findNearestToken` returns for its colour, was
pushed for a solid visible paint, and, when its colour is the encoding of a
colour with channels in `[0, 1]`, carries one of the built-in tokens with a
finite distance and not the degraded match.  Second, for every visited node
and every retained paint of it with channels in `[0, 1]`, the result of that
paint is among `items`, and it carries one of the built-in tokens with a finite
distance and not the degraded match. -/
def BuiltinResults (visited : List LayerNode) (items : List ScanResult) : Prop :=
  (∀ item ∈ items,
    item.tokenMatch = findNearestToken (some getBaselineData) item.color ∧
    (∃ p : Paint, p.type = "SOLID" ∧ p.visible ≠ some false ∧
      rgbToHex p.color = some item.color) ∧
    (∀ color, UnitColor color → rgbToHex color = some item.color →
      BuiltinMatch item.tokenMatch ∧ item.tokenMatch.distance ≠ none ∧
      ∀ e, item.tokenMatch ≠ degradedMatch item.color e)) ∧
  (∀ m ∈ visited, ∀ (styleType : String) (p : Paint),
    RetainedPaint m styleType p → UnitColor p.color →
    ∃ s item, rgbToHex p.color = some s ∧ item ∈ items ∧
      item = ⟨nameOr m.name "Unnamed layer", m.type, styleType, s,
        findNearestToken (some getBaselineData) s⟩ ∧
      BuiltinMatch item.tokenMatch ∧ item.tokenMatch.distance ≠ none ∧
      ∀ e, item.tokenMatch ≠ degradedMatch s e)

/-! ## Inputs of the examples -/

/-- A palette in which the token `primary/500` of value `#FF3366` comes after
a token that spells the same colour in lower case. -/
def legacyPalette : Palette :=
  [ ("brand/legacy", some ⟨"#ff3366", "limited", "Old spelling"⟩),
    ("primary/500", some ⟨"#FF3366", "widely", "Main brand"⟩) ]

/-- The double nearest to `0.2`. -/
def double02 : ℚ := 3602879701896397 / 18014398509481984

/-- The double nearest to `0.4`. -/
def double04 : ℚ := 3602879701896397 / 9007199254740992

/-- The double nearest to `0.3`; its product with `255`, as doubles, is
`76.5`. -/
def double03 : ℚ := 5404319552844595 / 18014398509481984

/-- A node with a fill whose colour is missing, followed by a fill of colour
`{r: 1, g: 0.2, b: 0.4}`. -/
def mixedNode : LayerNode :=
  .mk (some "Card") "RECTANGLE" none
    (some [some ⟨"SOLID", none, none⟩,
      some ⟨"SOLID", some true, some (Color.ofChannels 1 double02 double04)⟩])
    none none

/-- A node with one solid fill of colour `{r: 1, g: 0.2, b: 0.4}` and no
visibility flag. -/
def brandNode : LayerNode :=
  .mk (some "Card") "RECTANGLE" none
    (some [some ⟨"SOLID", none, some (Color.ofChannels 1 double02 double04)⟩]) none none

/-- The result that `brandNode` contributes. -/
def brandResult : ScanResult :=
  ⟨"Card", "RECTANGLE", "fill", "#FF3366",
    ⟨"primary/500", "#FF3366", "widely", "Main brand", some (Distance.sqrt 0)⟩⟩

/-- A node whose fill list has an entry that is `null`, with one solid stroke
and `brandNode` as its child. -/
def brokenFillNode : LayerNode :=
  .mk none "FRAME" none
    (some [some ⟨"SOLID", none, some (Color.ofChannels 1 double02 double04)⟩, none])
    (some [some ⟨"SOLID", none, some (Color.ofChannels 1 1 1)⟩])
    (some [some brandNode])

/-- A node whose child list is `[null, brandNode]`. -/
def nullChildNode : LayerNode :=
  .mk (some "Group") "GROUP" none none none (some [none, some brandNode])

/-- A well-formed frame: a gradient fill, a hidden solid fill and a solid fill
of colour `{r: 1, g: 0.2, b: 0.4}`; one white stroke; the children `brandNode`
and an invisible copy of it. -/
def sampleTree : LayerNode :=
  .mk (some "Frame") "FRAME" (some true)
    (some [some ⟨"GRADIENT_LINEAR", none, none⟩,
      some ⟨"SOLID", some false, some (Color.ofChannels 1 1 1)⟩,
      some ⟨"SOLID", none, some (Color.ofChannels 1 double02 double04)⟩])
    (some [some ⟨"SOLID", some true, some (Color.ofChannels 1 1 1)⟩])
    (some [some brandNode,
      some (.mk (some "Hidden") "RECTANGLE" (some false)
        (some [some ⟨"SOLID", none, some (Color.ofChannels 1 double02 double04)⟩]) none none)])

/-! ## Lemmas on hexadecimal digits -/

theorem char_le_iff (a b : Char) : a ≤ b ↔ a.toNat ≤ b.toNat :=
  Iff.rfl

theorem isHexDigit_iff (c : Char) : isHexDigit c = true ↔
    (65 ≤ c.toNat ∧ c.toNat ≤ 70) ∨ (97 ≤ c.toNat ∧ c.toNat ≤ 102) ∨
      (48 ≤ c.toNat ∧ c.toNat ≤ 57) := by
  simp only [isHexDigit, decide_eq_true_eq, char_le_iff]
  exact Iff.rfl

theorem isHexDigit_mem (c : Char) (h : isHexDigit c = true) : c ∈ hexDigitChars := by
  rw [isHexDigit_iff] at h
  have hc : c = Char.ofNat c.toNat := (Char.ofNat_toNat c).symm
  generalize c.toNat = n at h hc
  subst hc
  rcases h with ⟨h1, h2⟩ | ⟨h1, h2⟩ | ⟨h1, h2⟩ <;> interval_cases n <;> decide

theorem mem_isHexDigit (c : Char) (h : c ∈ hexDigitChars) : isHexDigit c = true := by
  revert c
  decide

theorem hexDigitValue_eq (c : Char) (h : c ∈ hexDigitChars) :
    hexDigitValue c = some (specDigit c) := by
  revert c
  decide

theorem specDigit_lt (c : Char) (h : c ∈ hexDigitChars) : specDigit c < 16 := by
  revert c
  decide

theorem specDigit_toUpper (c : Char) (h : c ∈ hexDigitChars) :
    c.toUpper ∈ hexDigitChars ∧ specDigit c.toUpper = specDigit c := by
  revert c
  decide

theorem specDigit_toLower (c : Char) (h : c ∈ hexDigitChars) :
    c.toLower ∈ hexDigitChars ∧ specDigit c.toLower = specDigit c := by
  revert c
  decide

theorem parseInt16_pair (x y : Char) (hx : x ∈ hexDigitChars) (hy : y ∈ hexDigitChars) :
    parseInt16 [x, y] = some (specByte x y) := by
  simp [parseInt16, parseDigits16, hexDigitValue_eq x hx, hexDigitValue_eq y hy, specByte]

theorem specByte_lt (x y : Char) (hx : x ∈ hexDigitChars) (hy : y ∈ hexDigitChars) :
    specByte x y < 256 := by
  have h1 := specDigit_lt x hx
  have h2 := specDigit_lt y hy
  unfold specByte
  omega

/-! ## Lemmas on the distance metric -/

theorem hexRegexTest_iff (s : String) : hexRegexTest s = true ↔ WellFormedHex s := by
  unfold hexRegexTest WellFormedHex
  constructor
  · intro h
    split at h
    · rename_i ds hds
      simp only [Bool.and_eq_true, Bool.or_eq_true, beq_iff_eq, List.all_eq_true] at h
      exact ⟨ds, hds, h.1.symm, fun c hc => isHexDigit_mem c (h.2 c hc)⟩
    · exact absurd h (by simp)
  · rintro ⟨ds, hds, hlen, hall⟩
    rw [hds]
    simp only [Bool.and_eq_true, Bool.or_eq_true, beq_iff_eq, List.all_eq_true]
    exact ⟨hlen.symm, fun c hc => mem_isHexDigit c (hall c hc)⟩

/-- The three `parseInt` calls of `calculateColorDistance` on a well-formed
colour return its three channels. -/
theorem parse_channels (s : String) (h : WellFormedHex s) :
    parseInt16 (slice (normalizeHex s.data) 1 3) = some (specChannels s).1 ∧
    parseInt16 (slice (normalizeHex s.data) 3 5) = some (specChannels s).2.1 ∧
    parseInt16 (slice (normalizeHex s.data) 5 7) = some (specChannels s).2.2 := by
  obtain ⟨ds, hds, hlen, hall⟩ := h
  rcases hlen with hlen | hlen
  · match ds, hlen, hall, hds with
    | [x, y, z], _, hall, hds =>
      have hx := hall x (by simp)
      have hy := hall y (by simp)
      have hz := hall z (by simp)
      simp [specChannels, specExpand, hds, normalizeHex, slice, parseInt16_pair, hx, hy, hz]
  · match ds, hlen, hall, hds with
    | [a, b, c, d, e, f], _, hall, hds =>
      have ha := hall a (by simp)
      have hb := hall b (by simp)
      have hc := hall c (by simp)
      have hd := hall d (by simp)
      have he := hall e (by simp)
      have hf := hall f (by simp)
      simp [specChannels, specExpand, hds, normalizeHex, slice, parseInt16_pair, ha, hb, hc, hd,
        he, hf]

theorem specChannels_lt (s : String) (h : WellFormedHex s) :
    (specChannels s).1 < 256 ∧ (specChannels s).2.1 < 256 ∧ (specChannels s).2.2 < 256 := by
  obtain ⟨ds, hds, hlen, hall⟩ := h
  rcases hlen with hlen | hlen
  · match ds, hlen, hall, hds with
    | [x, y, z], _, hall, hds =>
      have hx := hall x (by simp)
      have hy := hall y (by simp)
      have hz := hall z (by simp)
      simp [specChannels, specExpand, hds, specByte_lt, hx, hy, hz]
  · match ds, hlen, hall, hds with
    | [a, b, c, d, e, f], _, hall, hds =>
      have ha := hall a (by simp)
      have hb := hall b (by simp)
      have hc := hall c (by simp)
      have hd := hall d (by simp)
      have he := hall e (by simp)
      have hf := hall f (by simp)
      simp [specChannels, specExpand, hds, specByte_lt, ha, hb, hc, hd, he, hf]

theorem euclid_some (r1 g1 b1 r2 g2 b2 : Nat) :
    euclid (some r1) (some g1) (some b1) (some r2) (some g2) (some b2) =
      Distance.sqrt (((r1 - r2 : Int).natAbs) ^ 2 + ((g1 - g2 : Int).natAbs) ^ 2 +
        ((b1 - b2 : Int).natAbs) ^ 2) := by
  simp only [euclid]
  congr 1
  have h : ∀ z : Int, z ^ 2 = ((z.natAbs ^ 2 : Nat) : Int) := by
    intro z
    simp [Int.natAbs_sq]
  rw [h (r1 - r2), h (g1 - g2), h (b1 - b2)]
  norm_cast

/-- On two well-formed colours the distance is the square root of the sum of
the squared channel differences. -/
theorem distance_wellFormed (a b : String) (ha : WellFormedHex a) (hb : WellFormedHex b) :
    calculateColorDistance a b = Distance.sqrt (specSquaredDistance a b) := by
  have ha' := (hexRegexTest_iff a).2 ha
  have hb' := (hexRegexTest_iff b).2 hb
  obtain ⟨h1, h2, h3⟩ := parse_channels a ha
  obtain ⟨h4, h5, h6⟩ := parse_channels b hb
  simp only [calculateColorDistance, calculateColorDistanceBody, ha', hb', h1, h2, h3, h4, h5, h6,
    Bool.not_true, Bool.or_self, Bool.false_eq_true, if_false, pure, Except.pure, euclid_some,
    specSquaredDistance]

/-- On a malformed colour the distance is `Infinity`. -/
theorem distance_malformed (a b : String) (h : ¬ (WellFormedHex a ∧ WellFormedHex b)) :
    calculateColorDistance a b = Distance.infinity := by
  rw [← hexRegexTest_iff, ← hexRegexTest_iff] at h
  have h' : (!hexRegexTest a || !hexRegexTest b) = true := by
    cases h1 : hexRegexTest a <;> cases h2 : hexRegexTest b <;> simp_all
  simp [calculateColorDistance, calculateColorDistanceBody, h', throw, throwThe,
    MonadExceptOf.throw]

theorem wellFormed_map (f : Char → Char) (hf0 : f '#' = '#')
    (hf : ∀ c ∈ hexDigitChars, f c ∈ hexDigitChars ∧ specDigit (f c) = specDigit c)
    (s : String) (h : WellFormedHex s) :
    WellFormedHex (String.mk (s.data.map f)) ∧
      specChannels (String.mk (s.data.map f)) = specChannels s := by
  obtain ⟨ds, hds, hlen, hall⟩ := h
  refine ⟨⟨ds.map f, by simp [hds, hf0], by simpa using hlen, ?_⟩, ?_⟩
  · intro c hc
    obtain ⟨c', hc', rfl⟩ := List.mem_map.1 hc
    exact (hf c' (hall c' hc')).1
  · rcases hlen with hlen | hlen
    · match ds, hlen, hall, hds with
      | [x, y, z], _, hall, hds =>
        have hx := (hf x (hall x (by simp))).2
        have hy := (hf y (hall y (by simp))).2
        have hz := (hf z (hall z (by simp))).2
        simp [specChannels, specExpand, hds, specByte, hx, hy, hz]
    · match ds, hlen, hall, hds with
      | [a, b, c, d, e, f'], _, hall, hds =>
        have ha := (hf a (hall a (by simp))).2
        have hb := (hf b (hall b (by simp))).2
        have hc := (hf c (hall c (by simp))).2
        have hd := (hf d (hall d (by simp))).2
        have he := (hf e (hall e (by simp))).2
        have hf6 := (hf f' (hall f' (by simp))).2
        simp [specChannels, specExpand, hds, specByte, ha, hb, hc, hd, he, hf6]

theorem wellFormed_expand (s : String) (h : WellFormedHex s) :
    WellFormedHex (specExpand s) ∧ specChannels (specExpand s) = specChannels s := by
  obtain ⟨ds, hds, hlen, hall⟩ := h
  rcases hlen with hlen | hlen
  · match ds, hlen, hall, hds with
    | [x, y, z], _, hall, hds =>
      have hx := hall x (by simp)
      have hy := hall y (by simp)
      have hz := hall z (by simp)
      refine ⟨⟨[x, x, y, y, z, z], by simp [specExpand, hds], Or.inr rfl, ?_⟩, ?_⟩
      · intro c hc
        simp only [List.mem_cons, List.mem_singleton, List.not_mem_nil, or_false] at hc
        rcases hc with rfl | rfl | rfl | rfl | rfl | rfl <;> assumption
      · simp [specChannels, specExpand, hds]
  · match ds, hlen, hall, hds with
    | [a, b, c, d, e, f], _, hall, hds =>
      have he : specExpand s = s := by simp [specExpand, hds]
      rw [he]
      exact ⟨⟨_, hds, Or.inr rfl, hall⟩, rfl⟩

theorem specSquaredDistance_congr (a a' b b' : String) (ha : specChannels a' = specChannels a)
    (hb : specChannels b' = specChannels b) :
    specSquaredDistance a' b' = specSquaredDistance a b := by
  simp [specSquaredDistance, ha, hb]

theorem specSquaredDistance_real (a b : String) :
    ((specSquaredDistance a b : Nat) : ℝ) =
      (((specChannels a).1 : ℝ) - (specChannels b).1) ^ 2 +
      (((specChannels a).2.1 : ℝ) - (specChannels b).2.1) ^ 2 +
      (((specChannels a).2.2 : ℝ) - (specChannels b).2.2) ^ 2 := by
  have h : ∀ x y : Nat, (((x - y : Int).natAbs ^ 2 : Nat) : ℝ) = ((x : ℝ) - y) ^ 2 := by
    intro x y
    rw [Nat.cast_pow, Nat.cast_natAbs, Int.cast_abs, sq_abs]
    push_cast
    ring
  simp only [specSquaredDistance, Nat.cast_add, h]

theorem specSquaredDistance_comm (a b : String) :
    specSquaredDistance a b = specSquaredDistance b a := by
  have h : ∀ x y : Nat, (x - y : Int).natAbs = (y - x : Int).natAbs := by
    intro x y
    omega
  simp only [specSquaredDistance, h]

theorem specSquaredDistance_self (a : String) : specSquaredDistance a a = 0 := by
  simp [specSquaredDistance]

theorem specSquaredDistance_le (a b : String) (ha : WellFormedHex a) (hb : WellFormedHex b) :
    specSquaredDistance a b ≤ 195075 := by
  obtain ⟨h1, h2, h3⟩ := specChannels_lt a ha
  obtain ⟨h4, h5, h6⟩ := specChannels_lt b hb
  have h : ∀ x y : Nat, x < 256 → y < 256 → (x - y : Int).natAbs ^ 2 ≤ 65025 := by
    intro x y hx hy
    have : (x - y : Int).natAbs ≤ 255 := by omega
    calc (x - y : Int).natAbs ^ 2 ≤ 255 ^ 2 := Nat.pow_le_pow_left this 2
      _ = 65025 := by norm_num
  have e1 := h _ _ h1 h4
  have e2 := h _ _ h2 h5
  have e3 := h _ _ h3 h6
  unfold specSquaredDistance
  omega

/-! ## The distance metric: claims C6, C7, C8 -/

/-- C6. For two strings of the form `#` plus three or six hexadecimal digits
(either letter case), `calculateColorDistance` returns `Math.sqrt(n)` where `n`
is the sum of the squared differences of the channels, the channels being the
three bytes of the six-digit form (a three-digit form `#xyz` is first expanded
to `#xxyyzz`).  The value is the real number
`sqrt((r1-r2)^2 + (g1-g2)^2 + (b1-b2)^2)`, its square is the integer `n`, and
neither the letter case nor the shorthand of either argument changes the
result. -/
theorem calculateColorDistance_euclidean (a b : String)
    (ha : WellFormedHex a) (hb : WellFormedHex b) :
    calculateColorDistance a b = Distance.sqrt (specSquaredDistance a b) ∧
    (∃ x : ℝ, (calculateColorDistance a b).IsReal x ∧
      x = Real.sqrt ((((specChannels a).1 : ℝ) - (specChannels b).1) ^ 2 +
        (((specChannels a).2.1 : ℝ) - (specChannels b).2.1) ^ 2 +
        (((specChannels a).2.2 : ℝ) - (specChannels b).2.2) ^ 2) ∧
      x ^ 2 = ((specSquaredDistance a b : Nat) : ℝ)) ∧
    calculateColorDistance (specExpand a) b = calculateColorDistance a b ∧
    calculateColorDistance a (specExpand b) = calculateColorDistance a b ∧
    calculateColorDistance (String.mk (a.data.map Char.toUpper)) b =
      calculateColorDistance a b ∧
    calculateColorDistance (String.mk (a.data.map Char.toLower)) b =
      calculateColorDistance a b ∧
    calculateColorDistance a (String.mk (b.data.map Char.toUpper)) =
      calculateColorDistance a b ∧
    calculateColorDistance a (String.mk (b.data.map Char.toLower)) =
      calculateColorDistance a b := by
  have hd := distance_wellFormed a b ha hb
  have hxa := wellFormed_expand a ha
  have hxb := wellFormed_expand b hb
  have hua := wellFormed_map Char.toUpper (by decide) specDigit_toUpper a ha
  have hub := wellFormed_map Char.toUpper (by decide) specDigit_toUpper b hb
  have hla := wellFormed_map Char.toLower (by decide) specDigit_toLower a ha
  have hlb := wellFormed_map Char.toLower (by decide) specDigit_toLower b hb
  refine ⟨hd, ⟨Real.sqrt (specSquaredDistance a b : Nat), ?_, ?_, ?_⟩, ?_, ?_, ?_, ?_, ?_, ?_⟩
  · rw [hd]
    rfl
  · rw [specSquaredDistance_real]
  · exact Real.sq_sqrt (Nat.cast_nonneg _)
  · rw [hd, distance_wellFormed _ _ hxa.1 hb, specSquaredDistance_congr _ _ _ _ hxa.2 rfl]
  · rw [hd, distance_wellFormed _ _ ha hxb.1, specSquaredDistance_congr _ _ _ _ rfl hxb.2]
  · rw [hd, distance_wellFormed _ _ hua.1 hb, specSquaredDistance_congr _ _ _ _ hua.2 rfl]
  · rw [hd, distance_wellFormed _ _ hla.1 hb, specSquaredDistance_congr _ _ _ _ hla.2 rfl]
  · rw [hd, distance_wellFormed _ _ ha hub.1, specSquaredDistance_congr _ _ _ _ rfl hub.2]
  · rw [hd, distance_wellFormed _ _ ha hlb.1, specSquaredDistance_congr _ _ _ _ rfl hlb.2]

/-- Witness of C6: `#f36` and `#FF3366` are well formed and their distance is
`Math.sqrt(0)`. -/
theorem calculateColorDistance_euclidean_witness :
    WellFormedHex "#f36" ∧ WellFormedHex "#FF3366" ∧
      calculateColorDistance "#f36" "#FF3366" = Distance.sqrt 0 :=
  ⟨(hexRegexTest_iff _).1 (by decide), (hexRegexTest_iff _).1 (by decide),
    (calculateColorDistance_euclidean "#f36" "#FF3366" ((hexRegexTest_iff _).1 (by decide))
      ((hexRegexTest_iff _).1 (by decide))).1.trans (by decide)⟩

/-- C7. The distance of a well-formed colour to itself is `0`, and the distance
is symmetric for all pairs of strings; as it is never `NaN`, equality of the
two values is equality of JavaScript numbers. -/
theorem calculateColorDistance_self_symm :
    (∀ x : String, WellFormedHex x → calculateColorDistance x x = Distance.sqrt 0) ∧
    (∀ a b : String, calculateColorDistance a b = calculateColorDistance b a ∧
      calculateColorDistance a b ≠ Distance.nan) := by
  constructor
  · intro x hx
    rw [distance_wellFormed x x hx hx, specSquaredDistance_self]
  · intro a b
    by_cases h : WellFormedHex a ∧ WellFormedHex b
    · rw [distance_wellFormed a b h.1 h.2, distance_wellFormed b a h.2 h.1,
        specSquaredDistance_comm]
      exact ⟨rfl, by simp⟩
    · rw [distance_malformed a b h, distance_malformed b a (fun h' => h ⟨h'.2, h'.1⟩)]
      exact ⟨rfl, by simp⟩

/-- Witness of C7 at the colour `#FF3366`. -/
theorem calculateColorDistance_self_symm_witness :
    WellFormedHex "#FF3366" ∧ calculateColorDistance "#FF3366" "#FF3366" = Distance.sqrt 0 :=
  ⟨(hexRegexTest_iff _).1 (by decide),
    calculateColorDistance_self_symm.1 "#FF3366" ((hexRegexTest_iff _).1 (by decide))⟩

/-- C8. The function `calculateColorDistance` returns on every pair of strings:
when one of them is not `#` followed by exactly three or exactly six
hexadecimal digits the `try` block throws, the `catch` block takes over and the
result is `Infinity`; on two well-formed strings the `try` block returns and
the result is a finite number `Math.sqrt(n)`, which is not negative. -/
theorem calculateColorDistance_total (a b : String) :
    (¬ (WellFormedHex a ∧ WellFormedHex b) →
      calculateColorDistanceBody a b = Except.error ⟨"Invalid hex color format"⟩ ∧
      calculateColorDistance a b = Distance.infinity) ∧
    (WellFormedHex a ∧ WellFormedHex b →
      ∃ n : Nat, calculateColorDistanceBody a b = Except.ok (Distance.sqrt n) ∧
        calculateColorDistance a b = Distance.sqrt n ∧
        (calculateColorDistance a b).isFinite = true ∧
        (calculateColorDistance a b).IsReal (Real.sqrt n) ∧ 0 ≤ Real.sqrt n) := by
  constructor
  · intro h
    refine ⟨?_, distance_malformed a b h⟩
    rw [← hexRegexTest_iff, ← hexRegexTest_iff] at h
    have h' : (!hexRegexTest a || !hexRegexTest b) = true := by
      cases h1 : hexRegexTest a <;> cases h2 : hexRegexTest b <;> simp_all
    simp [calculateColorDistanceBody, h', throw, throwThe, MonadExceptOf.throw]
  · rintro ⟨ha, hb⟩
    have hd := distance_wellFormed a b ha hb
    refine ⟨specSquaredDistance a b, ?_, hd, by rw [hd]; rfl, by rw [hd]; rfl,
      Real.sqrt_nonneg _⟩
    unfold calculateColorDistance at hd
    split at hd
    · rename_i d hok
      rw [hok, hd]
    · exact absurd hd (by simp)

/-- Witness of C8: a malformed first argument gives `Infinity`, two well-formed
arguments give a finite value. -/
theorem calculateColorDistance_total_witness :
    calculateColorDistance "#00" "#FFFFFF" = Distance.infinity ∧
    (calculateColorDistance "#000" "#FFFFFF").isFinite = true :=
  ⟨((calculateColorDistance_total "#00" "#FFFFFF").1
      (fun h => absurd ((hexRegexTest_iff _).2 h.1) (by decide))).2,
    by
      obtain ⟨n, _, _, h, _⟩ := (calculateColorDistance_total "#000" "#FFFFFF").2
        ⟨(hexRegexTest_iff _).1 (by decide), (hexRegexTest_iff _).1 (by decide)⟩
      exact h⟩

theorem distance_cases (a b : String) :
    calculateColorDistance a b = Distance.infinity ∨
    ∃ n, calculateColorDistance a b = Distance.sqrt n ∧ WellFormedHex a ∧ WellFormedHex b ∧
      n ≤ 195075 := by
  by_cases h : WellFormedHex a ∧ WellFormedHex b
  · exact Or.inr ⟨_, distance_wellFormed a b h.1 h.2, h.1, h.2,
      specSquaredDistance_le a b h.1 h.2⟩
  · exact Or.inl (distance_malformed a b h)

theorem nearestInv_none (h : String) (seen : Palette) (st : Option TokenMatch × Distance)
    (name : String) (hinv : NearestInv h seen st) :
    NearestInv h (seen ++ [(name, none)]) st := by
  rcases hinv with ⟨hst, hall⟩ | ⟨pre, nm, td, post, k, hseen, hd, hst, hpre, hpost⟩
  · refine Or.inl ⟨hst, ?_⟩
    intro n td hmem
    simp only [List.mem_append, List.mem_singleton, Prod.mk.injEq, reduceCtorEq, and_false,
      or_false] at hmem
    exact hall n td hmem
  · refine Or.inr ⟨pre, nm, td, post ++ [(name, none)], k, by simp [hseen], hd, hst, hpre, ?_⟩
    intro n td' hmem
    simp only [List.mem_append, List.mem_singleton, Prod.mk.injEq, reduceCtorEq, and_false,
      or_false] at hmem
    exact hpost n td' hmem

theorem nearestInv_some (h : String) (seen : Palette) (c : Option TokenMatch) (m : Distance)
    (name : String) (td : TokenData) (hinv : NearestInv h seen (c, m)) :
    NearestInv h (seen ++ [(name, some td)])
      (if Distance.lt (calculateColorDistance h td.value) m = true then
        (some ⟨name, td.value, td.availability, td.note,
          some (calculateColorDistance h td.value)⟩, calculateColorDistance h td.value)
      else (c, m)) := by
  rcases hinv with ⟨hst, hall⟩ | ⟨pre, nm, td0, post, k, hseen, hd, hst, hpre, hpost⟩
  · obtain ⟨rfl, rfl⟩ := Prod.mk.inj hst
    rcases distance_cases h td.value with hinf | ⟨n, hn, -⟩
    · rw [hinf]
      refine Or.inl ⟨by simp [Distance.lt], ?_⟩
      intro n' td' hmem
      simp only [List.mem_append, List.mem_singleton, Prod.mk.injEq, Option.some.injEq] at hmem
      rcases hmem with hmem | ⟨-, rfl⟩
      · exact hall n' td' hmem
      · exact hinf
    · rw [hn]
      refine Or.inr ⟨seen, name, td, [], n, rfl, hn, by simp [Distance.lt], ?_, by simp⟩
      intro n' td' hmem
      rw [hall n' td' hmem]
      rfl
  · obtain ⟨rfl, rfl⟩ := Prod.mk.inj hst
    rcases distance_cases h td.value with hinf | ⟨n, hn, -⟩
    · rw [hinf]
      refine Or.inr ⟨pre, nm, td0, post ++ [(name, some td)], k, by simp [hseen], hd,
        by simp [Distance.lt], hpre, ?_⟩
      intro n' td' hmem
      simp only [List.mem_append, List.mem_singleton, Prod.mk.injEq, Option.some.injEq] at hmem
      rcases hmem with hmem | ⟨-, rfl⟩
      · exact hpost n' td' hmem
      · rw [hinf]
        trivial
    · rw [hn]
      by_cases hlt : n < k
      · refine Or.inr ⟨seen, name, td, [], n, rfl, hn, by simp [Distance.lt, hlt], ?_, by simp⟩
        intro n' td' hmem
        rw [hseen] at hmem
        simp only [List.mem_append, List.mem_cons, Prod.mk.injEq, Option.some.injEq] at hmem
        rcases hmem with hmem | ⟨-, rfl⟩ | hmem
        · have := hpre n' td' hmem
          rcases distance_cases h td'.value with e | ⟨j, e, -⟩ <;> rw [e] at this ⊢ <;>
            simp [Distance.lt] at this ⊢
          omega
        · rw [hd]
          simp [Distance.lt, hlt]
        · have := hpost n' td' hmem
          rcases distance_cases h td'.value with e | ⟨j, e, -⟩ <;> rw [e] at this ⊢ <;>
            simp [Distance.lt, Distance.le] at this ⊢
          omega
      · refine Or.inr ⟨pre, nm, td0, post ++ [(name, some td)], k, by simp [hseen], hd,
          by simp [Distance.lt, hlt], hpre, ?_⟩
        intro n' td' hmem
        simp only [List.mem_append, List.mem_singleton, Prod.mk.injEq, Option.some.injEq] at hmem
        rcases hmem with hmem | ⟨-, rfl⟩
        · exact hpost n' td' hmem
        · rw [hn]
          simp only [Distance.le]
          omega

theorem nearestLoop_inv (h : String) (rest : Palette) :
    ∀ (seen : Palette) (st : Option TokenMatch × Distance), NearestInv h seen st →
      NearestInv h (seen ++ rest) (nearestLoop h rest st) := by
  induction rest with
  | nil =>
    intro seen st hinv
    simpa [nearestLoop] using hinv
  | cons entry rest ih =>
    intro seen st hinv
    obtain ⟨name, otd⟩ := entry
    obtain ⟨c, m⟩ := st
    have happ : seen ++ (name, otd) :: rest = (seen ++ [(name, otd)]) ++ rest := by simp
    rw [happ]
    cases otd with
    | none =>
      rw [nearestLoop]
      exact ih _ _ (nearestInv_none h seen (c, m) name hinv)
    | some td =>
      have hstep := nearestInv_some h seen c m name td hinv
      rw [nearestLoop]
      by_cases hlt : Distance.lt (calculateColorDistance h td.value) m = true
      · simp only [hlt, if_true] at hstep ⊢
        exact ih _ _ hstep
      · simp only [hlt, if_false] at hstep ⊢
        exact ih _ _ hstep

theorem split_unique {α : Type} (P : α → Prop) (pre pre' post post' : List α) (x x' : α)
    (h : pre ++ x :: post = pre' ++ x' :: post') (hpre : ∀ y ∈ pre, ¬ P y) (hx : P x)
    (hpre' : ∀ y ∈ pre', ¬ P y) (hx' : P x') : pre = pre' ∧ x = x' ∧ post = post' := by
  rcases List.append_eq_append_iff.1 h with ⟨a, h1, h2⟩ | ⟨c, h1, h2⟩
  · cases a with
    | nil =>
      simp only [List.append_nil, List.nil_append] at h1 h2
      obtain ⟨h3, h4⟩ := List.cons.inj h2
      exact ⟨h1.symm, h3, h4⟩
    | cons y a =>
      obtain ⟨h3, -⟩ := List.cons.inj h2
      exact absurd hx (h3 ▸ hpre' y (by simp [h1]))
  · cases c with
    | nil =>
      simp only [List.append_nil, List.nil_append] at h1 h2
      obtain ⟨h3, h4⟩ := List.cons.inj h2
      exact ⟨h1, h3.symm, h4.symm⟩
    | cons y c =>
      obtain ⟨h3, -⟩ := List.cons.inj h2
      exact absurd hx' (h3 ▸ hpre y (by simp [h1]))

/-- The state of the loop of `findNearestToken` at its end. -/
theorem nearestLoop_final (h : String) (palette : Palette) :
    NearestInv h palette (nearestLoop h palette (none, Distance.infinity)) := by
  have := nearestLoop_inv h palette [] (none, Distance.infinity) (Or.inl ⟨rfl, by simp⟩)
  simpa using this

theorem findNearestToken_of_loop (h : String) (palette : Palette) (m : TokenMatch) (d : Distance)
    (hloop : nearestLoop h palette (none, Distance.infinity) = (some m, d)) :
    findNearestToken (some ⟨some palette⟩) h = m := by
  simp [findNearestToken, findNearestTokenBody, hloop, pure, Except.pure]


theorem lt_le_absurd (k : Nat) (d : Distance) (h1 : Distance.lt d (Distance.sqrt k) = true)
    (h2 : Distance.le (Distance.sqrt k) d) : False := by
  cases d with
  | sqrt j =>
    simp only [Distance.lt, decide_eq_true_eq] at h1
    simp only [Distance.le] at h2
    omega
  | infinity => simp [Distance.lt] at h1
  | nan => simp [Distance.lt] at h1

/-! ## The token matcher: claims C1, C2, C9, C10 -/

/-- C1. When some token of the palette is at a finite distance from `h`,
`findNearestToken` returns the token at position `pre.length` of the palette,
where: the distance `Math.sqrt(k)` of that token is least over the whole
palette, and every token before it is strictly farther, so that it is the
earliest token at the least distance; the returned record copies the name,
value, availability and note of that token and carries that distance.  The
position is determined by these two properties, hence so is the returned token:
the result depends on `h` and the palette only. -/
theorem findNearestToken_first_minimum (h : String) (palette : Palette)
    (hfin : ∃ name td, (name, some td) ∈ palette ∧
      (calculateColorDistance h td.value).isFinite = true) :
    ∃ pre name td post k, palette = pre ++ (name, some td) :: post ∧
      calculateColorDistance h td.value = Distance.sqrt k ∧
      findNearestToken (some ⟨some palette⟩) h =
        ⟨name, td.value, td.availability, td.note, some (Distance.sqrt k)⟩ ∧
      (∀ n td', (n, some td') ∈ palette →
        Distance.le (Distance.sqrt k) (calculateColorDistance h td'.value)) ∧
      (∀ n td', (n, some td') ∈ pre →
        Distance.lt (Distance.sqrt k) (calculateColorDistance h td'.value) = true) ∧
      (∀ pre' name' td' post', palette = pre' ++ (name', some td') :: post' →
        (∀ n t, (n, some t) ∈ palette → Distance.le (calculateColorDistance h td'.value)
          (calculateColorDistance h t.value)) →
        (∀ n t, (n, some t) ∈ pre' → Distance.lt (calculateColorDistance h td'.value)
          (calculateColorDistance h t.value) = true) →
        pre' = pre ∧ name' = name ∧ td' = td) := by
  rcases nearestLoop_final h palette with ⟨hst, hall⟩ |
    ⟨pre, name, td, post, k, hpal, hd, hst, hpre, hpost⟩
  · obtain ⟨name, td, hmem, hf⟩ := hfin
    rw [hall name td hmem] at hf
    exact absurd hf (by simp [Distance.isFinite])
  · have hle : ∀ n td', (n, some td') ∈ pre →
        Distance.le (Distance.sqrt k) (calculateColorDistance h td'.value) := by
      intro n td' hmem
      have := hpre n td' hmem
      rcases distance_cases h td'.value with e | ⟨j, e, -⟩ <;> rw [e] at this ⊢ <;>
        simp [Distance.lt, Distance.le] at this ⊢
      omega
    have hmin : ∀ n td', (n, some td') ∈ palette →
        Distance.le (Distance.sqrt k) (calculateColorDistance h td'.value) := by
      intro n td' hmem
      rw [hpal] at hmem
      simp only [List.mem_append, List.mem_cons, Prod.mk.injEq, Option.some.injEq] at hmem
      rcases hmem with hmem | ⟨-, rfl⟩ | hmem
      · exact hle n td' hmem
      · rw [hd]
        exact Nat.le_refl k
      · exact hpost n td' hmem
    refine ⟨pre, name, td, post, k, hpal, hd, findNearestToken_of_loop h palette _ _ hst, hmin,
      hpre, ?_⟩
    intro pre' name' td' post' hpal' hmin' hpre'
    have hmem : (name, some td) ∈ palette := by simp [hpal]
    have hmem' : (name', some td') ∈ palette := by simp [hpal']
    have h1 := hmin' name td hmem
    have h2 := hmin name' td' hmem'
    rw [hd] at h1
    have hk : calculateColorDistance h td'.value = Distance.sqrt k := by
      rcases distance_cases h td'.value with e | ⟨j, e, -⟩ <;> rw [e] at h1 h2 ⊢ <;>
        simp only [Distance.le] at h1 h2
      have : j = k := by omega
      rw [this]
    rw [hk] at hpre'
    have key := split_unique
      (fun e : String × Option TokenData => ∃ t, e.2 = some t ∧
        calculateColorDistance h t.value = Distance.sqrt k)
      pre' pre post' post (name', some td') (name, some td) (hpal'.symm.trans hpal)
      (by
        rintro ⟨n, ot⟩ hy ⟨t, ht, hdt⟩
        simp only at ht
        subst ht
        have := hpre' n t hy
        rw [hdt] at this
        simp [Distance.lt] at this)
      ⟨td', rfl, hk⟩
      (by
        rintro ⟨n, ot⟩ hy ⟨t, ht, hdt⟩
        simp only at ht
        subst ht
        have := hpre n t hy
        rw [hdt] at this
        simp [Distance.lt] at this)
      ⟨td, rfl, hd⟩
    obtain ⟨e1, e2, -⟩ := key
    obtain ⟨e3, e4⟩ := Prod.mk.inj e2
    exact ⟨e1, e3, Option.some.inj e4⟩

/-- Witness of C1: against the built-in palette the colour `#FF3366` has a
token at finite distance, and the match is `primary/500`. -/
theorem findNearestToken_first_minimum_witness :
    (∃ name td, (name, some td) ∈ builtinTokens ∧
      (calculateColorDistance "#FF3366" td.value).isFinite = true) ∧
    ∃ pre name td post k, builtinTokens = pre ++ (name, some td) :: post ∧
      calculateColorDistance "#FF3366" td.value = Distance.sqrt k ∧
      findNearestToken (some ⟨some builtinTokens⟩) "#FF3366" =
        ⟨name, td.value, td.availability, td.note, some (Distance.sqrt k)⟩ :=
  have hfin : ∃ name td, (name, some td) ∈ builtinTokens ∧
      (calculateColorDistance "#FF3366" td.value).isFinite = true :=
    ⟨"primary/500", ⟨"#FF3366", "widely", "Main brand"⟩, by decide, by decide⟩
  ⟨hfin, by
    obtain ⟨pre, name, td, post, k, h1, h2, h3, -⟩ :=
      findNearestToken_first_minimum "#FF3366" builtinTokens hfin
    exact ⟨pre, name, td, post, k, h1, h2, h3⟩⟩

/-- Counterexample to C2 as stated: the palette `legacyPalette` contains the
token `primary/500` whose value is the well-formed colour `#FF3366`, and
`findNearestToken` on `#FF3366` returns the token `brand/legacy`, whose value
is another string, not `primary/500`. -/
theorem findNearestToken_exact_counterexample :
    WellFormedHex "#FF3366" ∧
    ("primary/500", some ⟨"#FF3366", "widely", "Main brand"⟩) ∈ legacyPalette ∧
    findNearestToken (some ⟨some legacyPalette⟩) "#FF3366" =
      ⟨"brand/legacy", "#ff3366", "limited", "Old spelling", some (Distance.sqrt 0)⟩ ∧
    findNearestToken (some ⟨some legacyPalette⟩) "#FF3366" ≠
      ⟨"primary/500", "#FF3366", "widely", "Main brand", some (Distance.sqrt 0)⟩ :=
  ⟨(hexRegexTest_iff _).1 (by decide), by decide, by decide, by decide⟩

/-- C2, amended. For a well-formed colour `h` and a palette containing a token
whose value is `h`, `findNearestToken` returns a token of the palette with
distance `0`: the earliest token at distance `0` from `h`.  It is the token of
value `h` itself when no token before it is at distance `0`. -/
theorem findNearestToken_exact (h : String) (pre post : Palette) (name : String)
    (td : TokenData) (hwf : WellFormedHex h) (hval : td.value = h) :
    (∃ p name0 td0 q, pre ++ (name, some td) :: post = p ++ (name0, some td0) :: q ∧
      calculateColorDistance h td0.value = Distance.sqrt 0 ∧
      (∀ n t, (n, some t) ∈ p → calculateColorDistance h t.value ≠ Distance.sqrt 0) ∧
      findNearestToken (some ⟨some (pre ++ (name, some td) :: post)⟩) h =
        ⟨name0, td0.value, td0.availability, td0.note, some (Distance.sqrt 0)⟩) ∧
    ((∀ n t, (n, some t) ∈ pre → calculateColorDistance h t.value ≠ Distance.sqrt 0) →
      findNearestToken (some ⟨some (pre ++ (name, some td) :: post)⟩) h =
        ⟨name, td.value, td.availability, td.note, some (Distance.sqrt 0)⟩) := by
  have hself : calculateColorDistance h td.value = Distance.sqrt 0 := by
    rw [hval, distance_wellFormed h h hwf hwf, specSquaredDistance_self]
  rcases nearestLoop_final h (pre ++ (name, some td) :: post) with ⟨hst, hall⟩ |
    ⟨p, name0, td0, q, k, hpal, hd, hst, hp, hq⟩
  · have := hall name td (by simp)
    rw [hself] at this
    exact absurd this (by simp)
  · have hk : k = 0 := by
      have hmem : (name, some td) ∈ p ++ (name0, some td0) :: q := by
        rw [← hpal]
        simp
      simp only [List.mem_append, List.mem_cons, Prod.mk.injEq, Option.some.injEq] at hmem
      rcases hmem with hmem | ⟨-, rfl⟩ | hmem
      · have := hp name td hmem
        rw [hself] at this
        simp [Distance.lt] at this
      · rw [hself] at hd
        exact (Distance.sqrt.inj hd).symm
      · have := hq name td hmem
        rw [hself] at this
        simp only [Distance.le] at this
        omega
    subst hk
    have hp' : ∀ n t, (n, some t) ∈ p → calculateColorDistance h t.value ≠ Distance.sqrt 0 := by
      intro n t hmem e
      have := hp n t hmem
      rw [e] at this
      simp [Distance.lt] at this
    have hres := findNearestToken_of_loop h _ _ _ hst
    refine ⟨⟨p, name0, td0, q, hpal, hd, hp', hres⟩, ?_⟩
    intro hpre
    have key := split_unique
      (fun e : String × Option TokenData => ∃ t, e.2 = some t ∧
        calculateColorDistance h t.value = Distance.sqrt 0)
      pre p post q (name, some td) (name0, some td0) hpal
      (by
        rintro ⟨n, ot⟩ hy ⟨t, ht, hdt⟩
        simp only at ht
        subst ht
        exact hpre n t hy hdt)
      ⟨td, rfl, hself⟩
      (by
        rintro ⟨n, ot⟩ hy ⟨t, ht, hdt⟩
        simp only at ht
        subst ht
        exact hp' n t hy hdt)
      ⟨td0, rfl, hd⟩
    obtain ⟨-, e2, -⟩ := key
    obtain ⟨e3, e4⟩ := Prod.mk.inj e2
    rw [hres, ← e3, ← Option.some.inj e4]

/-! ## Lemmas on the rounding to doubles -/

theorem roundHalfEven_near (y : ℚ) (m : Int) (h : |y - m| < 1 / 2) : roundHalfEven y = m := by
  rw [abs_lt] at h
  unfold roundHalfEven
  by_cases hm : (m : ℚ) ≤ y
  · have hf : ⌊y⌋ = m := by
      rw [Int.floor_eq_iff]
      constructor <;> linarith
    rw [hf, if_pos (by linarith)]
  · have hf : ⌊y⌋ = m - 1 := by
      rw [Int.floor_eq_iff]
      push_cast
      constructor <;> linarith
    rw [hf]
    push_cast
    rw [if_neg (by linarith), if_pos (by linarith)]
    ring

theorem roundHalfEven_le (y : ℚ) (n : Int) (h : y ≤ n) : roundHalfEven y ≤ n := by
  have hf : ⌊y⌋ ≤ n := Int.floor_le_iff.2 (by linarith)
  unfold roundHalfEven
  by_cases hlt : ⌊y⌋ < n
  · split
    · omega
    · split
      · omega
      · split <;> omega
  · have he : ⌊y⌋ = n := by omega
    have : y - ⌊y⌋ < 1 / 2 := by
      rw [he]
      linarith
    rw [if_pos this]
    omega

theorem roundHalfEven_ge (y : ℚ) (n : Int) (h : (n : ℚ) ≤ y) : n ≤ roundHalfEven y := by
  have hf : n ≤ ⌊y⌋ := Int.le_floor.2 h
  unfold roundHalfEven
  split
  · omega
  · split
    · omega
    · split <;> omega

theorem roundHalfEven_close (y : ℚ) : |(roundHalfEven y : ℚ) - y| ≤ 1 / 2 := by
  have h1 : (⌊y⌋ : ℚ) ≤ y := Int.floor_le y
  have h2 : y < ⌊y⌋ + 1 := Int.lt_floor_add_one y
  unfold roundHalfEven
  rw [abs_le]
  split
  · constructor <;> linarith
  · split
    · push_cast
      constructor <;> linarith
    · split
      · constructor <;> linarith
      · push_cast
        constructor <;> linarith


theorem doubleExponent_nonpos (x : ℚ) (hx : |x| < 2 ^ 53) : doubleExponent x ≤ 0 := by
  unfold doubleExponent
  apply max_le _ (by norm_num)
  by_cases h0 : |x| = 0
  · rw [h0]
    simp [Int.log_zero_right]
  · have hpos : 0 < |x| := lt_of_le_of_ne (abs_nonneg x) (Ne.symm h0)
    have : Int.log 2 |x| < 53 := by
      apply (Int.lt_zpow_iff_log_lt (by norm_num) hpos).1
      exact_mod_cast hx
    omega

theorem doubleExponent_eq (x : ℚ) (k : Int) (hk : -1022 ≤ k) (h1 : 2 ^ k ≤ |x|)
    (h2 : |x| < 2 ^ (k + 1)) : doubleExponent x = k - 52 := by
  have hpos : 0 < |x| := lt_of_lt_of_le (by positivity) h1
  have hl : Int.log 2 |x| = k := by
    apply le_antisymm
    · have := (Int.lt_zpow_iff_log_lt (b := 2) (by norm_num) hpos).1 (by exact_mod_cast h2)
      omega
    · exact (Int.zpow_le_iff_le_log (b := 2) (by norm_num) hpos).1 (by exact_mod_cast h1)
  unfold doubleExponent
  rw [hl]
  exact max_eq_left (by omega)

theorem roundToDouble_eq (x : ℚ) (k m : Int) (hk : -1022 ≤ k) (h1 : 2 ^ k ≤ |x|)
    (h2 : |x| < 2 ^ (k + 1)) (hm : |x / 2 ^ (k - 52) - m| < 1 / 2) :
    roundToDouble x = m * 2 ^ (k - 52) := by
  unfold roundToDouble
  rw [doubleExponent_eq x k hk h1 h2, roundHalfEven_near _ m hm]

theorem roundToDouble_le (x : ℚ) (n : Int) (hx : |x| < 2 ^ 53) (h : x ≤ n) :
    roundToDouble x ≤ n := by
  have he := doubleExponent_nonpos x hx
  unfold roundToDouble
  obtain ⟨j, hj⟩ : ∃ j : Nat, doubleExponent x = -(j : Int) :=
    ⟨(-doubleExponent x).toNat, by omega⟩
  rw [hj, zpow_neg, zpow_natCast]
  have hp : (0 : ℚ) < 2 ^ j := by positivity
  have h1 : roundHalfEven (x / (2 ^ j)⁻¹) ≤ n * 2 ^ j := by
    apply roundHalfEven_le
    rw [div_inv_eq_mul]
    push_cast
    exact mul_le_mul_of_nonneg_right h hp.le
  have h2 : ((roundHalfEven (x / (2 ^ j)⁻¹) : Int) : ℚ) ≤ ((n * 2 ^ j : Int) : ℚ) := by
    exact_mod_cast h1
  push_cast at h2
  rw [← div_eq_mul_inv, div_le_iff₀ hp]
  exact h2

theorem roundToDouble_ge (x : ℚ) (n : Int) (hx : |x| < 2 ^ 53) (h : (n : ℚ) ≤ x) :
    (n : ℚ) ≤ roundToDouble x := by
  have he := doubleExponent_nonpos x hx
  unfold roundToDouble
  obtain ⟨j, hj⟩ : ∃ j : Nat, doubleExponent x = -(j : Int) :=
    ⟨(-doubleExponent x).toNat, by omega⟩
  rw [hj, zpow_neg, zpow_natCast]
  have hp : (0 : ℚ) < 2 ^ j := by positivity
  have h1 : n * 2 ^ j ≤ roundHalfEven (x / (2 ^ j)⁻¹) := by
    apply roundHalfEven_ge
    rw [div_inv_eq_mul]
    push_cast
    exact mul_le_mul_of_nonneg_right h hp.le
  have h2 : ((n * 2 ^ j : Int) : ℚ) ≤ ((roundHalfEven (x / (2 ^ j)⁻¹) : Int) : ℚ) := by
    exact_mod_cast h1
  push_cast at h2
  rw [← div_eq_mul_inv, le_div_iff₀ hp]
  exact h2

theorem roundToDouble_close (x : ℚ) (hx : |x| < 2 ^ 53) : |roundToDouble x - x| ≤ 1 / 2 := by
  have he := doubleExponent_nonpos x hx
  unfold roundToDouble
  obtain ⟨j, hj⟩ : ∃ j : Nat, doubleExponent x = -(j : Int) :=
    ⟨(-doubleExponent x).toNat, by omega⟩
  rw [hj, zpow_neg, zpow_natCast]
  have hp : (0 : ℚ) < 2 ^ j := by positivity
  have h1 : (1 : ℚ) ≤ 2 ^ j := one_le_pow₀ (by norm_num)
  have hc := roundHalfEven_close (x / (2 ^ j)⁻¹)
  rw [div_inv_eq_mul] at hc ⊢
  rw [abs_le] at hc ⊢
  have e1 : (roundHalfEven (x * 2 ^ j) : ℚ) * (2 ^ j)⁻¹ - x =
      ((roundHalfEven (x * 2 ^ j) : ℚ) - x * 2 ^ j) * (2 ^ j)⁻¹ := by
    field_simp
    ring
  rw [e1]
  have hinv : (0 : ℚ) < (2 ^ j)⁻¹ := by positivity
  have hinv1 : ((2 : ℚ) ^ j)⁻¹ ≤ 1 := inv_le_one_of_one_le₀ h1
  constructor
  · nlinarith [hc.1, hc.2]
  · nlinarith [hc.1, hc.2]

theorem toDouble_fin (x : ℚ) (hx : |x| < 2 ^ 53) : toDouble x = JSNumber.fin (roundToDouble x) := by
  have habs := abs_lt.1 hx
  have h1 : roundToDouble x ≤ ((2 ^ 53 : Int) : ℚ) :=
    roundToDouble_le x (2 ^ 53) hx (by push_cast; linarith)
  have h2 : ((-(2 ^ 53) : Int) : ℚ) ≤ roundToDouble x :=
    roundToDouble_ge x (-(2 ^ 53)) hx (by push_cast; linarith)
  push_cast at h1 h2
  unfold toDouble
  rw [if_neg, if_neg]
  · intro h
    have : (-(2:ℚ) ^ 53) ≤ -2 ^ 1024 := le_trans h2 h
    norm_num at this
  · intro h
    have : (2:ℚ) ^ 1024 ≤ 2 ^ 53 := le_trans h h1
    norm_num at this

theorem roundToDouble_int (z : Int) (hz : |(z : ℚ)| < 2 ^ 53) : roundToDouble z = z :=
  le_antisymm (roundToDouble_le z z hz le_rfl) (roundToDouble_ge z z hz le_rfl)

theorem toDouble_ne_nan (x : ℚ) : toDouble x ≠ JSNumber.nan := by
  unfold toDouble
  split
  · simp
  · split <;> simp

/-- The level of a channel `c` whose exact product `c * 255` lies in the
binade `[2^k, 2^(k+1))` and rounds to the multiple `m` of the spacing. -/
theorem level_eval (c : ℚ) (k m n : Int) (hk : -1022 ≤ k) (h1 : 2 ^ k ≤ |c * 255|)
    (h2 : |c * 255| < 2 ^ (k + 1)) (h53 : |c * 255| < 2 ^ 53)
    (hm : |c * 255 / 2 ^ (k - 52) - m| < 1 / 2)
    (hn : (n : ℚ) ≤ m * 2 ^ (k - 52) + 1 / 2 ∧ (m : ℚ) * 2 ^ (k - 52) + 1 / 2 < n + 1) :
    mathRound (times255 (some (JSNumber.fin c))) = JSIntegral.int n := by
  rw [times255, toDouble_fin _ h53, roundToDouble_eq _ k m hk h1 h2 hm, mathRound]
  congr 1
  rw [Int.floor_eq_iff]
  exact hn

/-- The level of a channel whose exact product with `255` is an integer. -/
theorem level_int (c : ℚ) (z : Int) (hz : c * 255 = z) (h53 : |(z : ℚ)| < 2 ^ 53) :
    mathRound (times255 (some (JSNumber.fin c))) = JSIntegral.int z := by
  rw [times255, hz, toDouble_fin _ h53, roundToDouble_int z h53, mathRound]
  congr 1
  rw [Int.floor_eq_iff]
  constructor <;> linarith

theorem addIntegral_small (n z : Int) (h : |((n + z : Int) : ℚ)| < 2 ^ 53) :
    addIntegral n (JSIntegral.int z) = JSIntegral.int (n + z) := by
  have h1 : toDouble ((n + z : Int) : ℚ) = JSNumber.fin ((n + z : Int) : ℚ) := by
    rw [toDouble_fin _ h, roundToDouble_int _ h]
  unfold addIntegral
  simp only [h1, Int.floor_intCast]

theorem wrap32_bound (z : Int) : -2 ^ 31 ≤ wrap32 z ∧ wrap32 z < 2 ^ 31 := by
  unfold wrap32
  omega

/-- The string returned for a colour whose three levels are the integers `r`,
`g` and `b`. -/
theorem rgbToHex_of_levels (cr cg cb : ℚ) (r g b : Int)
    (er : mathRound (times255 (some (JSNumber.fin cr))) = JSIntegral.int r)
    (eg : mathRound (times255 (some (JSNumber.fin cg))) = JSIntegral.int g)
    (eb : mathRound (times255 (some (JSNumber.fin cb))) = JSIntegral.int b)
    (hb : |b| < 2 ^ 52) :
    rgbToHex (some (Color.ofChannels cr cg cb)) =
      some (String.mk ('#' :: toUpperCase ((toString16 (JSIntegral.int
        (wrap32 (1 * 2 ^ 24) + shiftLeft (JSIntegral.int r) 16 +
          shiftLeft (JSIntegral.int g) 8 + b))).drop 1))) := by
  have hsmall : |((wrap32 (1 * 2 ^ 24) + shiftLeft (JSIntegral.int r) 16 +
      shiftLeft (JSIntegral.int g) 8 + b : Int) : ℚ)| < 2 ^ 53 := by
    have h1 := wrap32_bound (1 * 2 ^ 24)
    have h2 := wrap32_bound (toInt32 (JSIntegral.int r) * 2 ^ 16)
    have h3 := wrap32_bound (toInt32 (JSIntegral.int g) * 2 ^ 8)
    have h4 := abs_lt.1 hb
    have h5 : |wrap32 (1 * 2 ^ 24) + shiftLeft (JSIntegral.int r) 16 +
        shiftLeft (JSIntegral.int g) 8 + b| < 2 ^ 53 := by
      rw [abs_lt]
      unfold shiftLeft
      constructor <;> omega
    exact_mod_cast h5
  simp only [rgbToHex, rgbToHexBody, Color.ofChannels, er, eg, eb, JSIntegral.isNaN,
    addIntegral_small _ _ hsmall]
  rfl

theorem round_double02 :
    mathRound (times255 (some (JSNumber.fin double02))) = JSIntegral.int 51 :=
  level_eval double02 5 7177611906121728 51 (by norm_num)
    (by norm_num [double02, abs_of_nonneg]) (by norm_num [double02, abs_of_nonneg])
    (by norm_num [double02, abs_of_nonneg]) (by norm_num [double02, abs_lt])
    (by norm_num)

theorem round_double04 :
    mathRound (times255 (some (JSNumber.fin double04))) = JSIntegral.int 102 :=
  level_eval double04 6 7177611906121728 102 (by norm_num)
    (by norm_num [double04, abs_of_nonneg]) (by norm_num [double04, abs_of_nonneg])
    (by norm_num [double04, abs_of_nonneg]) (by norm_num [double04, abs_lt])
    (by norm_num)

theorem round_one : mathRound (times255 (some (JSNumber.fin 1))) = JSIntegral.int 255 :=
  level_int 1 255 (by norm_num) (by norm_num [abs_of_nonneg])

theorem round_double03 :
    mathRound (times255 (some (JSNumber.fin double03))) = JSIntegral.int 77 :=
  level_eval double03 6 5383208929591296 77 (by norm_num)
    (by norm_num [double03, abs_of_nonneg]) (by norm_num [double03, abs_of_nonneg])
    (by norm_num [double03, abs_of_nonneg]) (by norm_num [double03, abs_lt])
    (by norm_num)

theorem round_zero : mathRound (times255 (some (JSNumber.fin 0))) = JSIntegral.int 0 :=
  level_int 0 0 (by norm_num) (by norm_num)

/-- The encoding of the colour `{r: 1, g: 0.2, b: 0.4}`. -/
theorem rgbToHex_brand :
    rgbToHex (some (Color.ofChannels 1 double02 double04)) = some "#FF3366" := by
  rw [rgbToHex_of_levels 1 double02 double04 255 51 102 round_one round_double02
    round_double04 (by norm_num [abs_of_nonneg])]
  decide

/-- Witness of C2 amended, the example of the specification: the fill
`{r: 1, g: 0.2, b: 0.4}` encodes to `#FF3366`, which the built-in palette
matches to `primary/500` with distance `0`. -/
theorem findNearestToken_exact_witness :
    rgbToHex (some (Color.ofChannels 1 double02 double04)) = some "#FF3366" ∧
    WellFormedHex "#FF3366" ∧
    findNearestToken (some getBaselineData) "#FF3366" =
      ⟨"primary/500", "#FF3366", "widely", "Main brand", some (Distance.sqrt 0)⟩ :=
  ⟨rgbToHex_brand,
   (hexRegexTest_iff _).1 (by decide),
   (findNearestToken_exact "#FF3366" (builtinTokens.take 3) (builtinTokens.drop 4) "primary/500"
      ⟨"#FF3366", "widely", "Main brand"⟩ ((hexRegexTest_iff _).1 (by decide)) rfl).2
      (fun n t hmem =>
        (by decide : ∀ e ∈ builtinTokens.take 3, ∀ t ∈ e.2,
          calculateColorDistance "#FF3366" t.value ≠ Distance.sqrt 0) (n, some t) hmem t rfl)⟩

theorem sqrt_le_max (k : Nat) (hk : k ≤ 195075) : Real.sqrt k ≤ 255 * Real.sqrt 3 := by
  have h1 : (255 : ℝ) * Real.sqrt 3 = Real.sqrt (195075 : ℝ) := by
    have h2 : (195075 : ℝ) = 255 ^ 2 * 3 := by norm_num
    rw [h2, Real.sqrt_mul (by positivity), Real.sqrt_sq (by norm_num)]
  rw [h1]
  apply Real.sqrt_le_sqrt
  exact_mod_cast hk

/-- C9. For every string `h` and every content of `baselineData`, the match
returned by `findNearestToken` is either the degraded match, whose distance is
`null`, or the record of a token of the palette whose value is a well-formed
hex colour and whose distance is `Math.sqrt(k)` with `0 ≤ √k ≤ 255·√3`.  The
distance is never `NaN` and never `Infinity`, and the returned token is never
one with a malformed value. -/
theorem findNearestToken_distance_range (baselineData : Option BaselineData) (h : String) :
    ((∃ e, findNearestToken baselineData h = degradedMatch h e) ∧
      (findNearestToken baselineData h).distance = none) ∨
    (∃ palette name td k, baselineData = some ⟨some palette⟩ ∧ (name, some td) ∈ palette ∧
      WellFormedHex td.value ∧
      findNearestToken baselineData h =
        ⟨name, td.value, td.availability, td.note, some (Distance.sqrt k)⟩ ∧
      calculateColorDistance h td.value = Distance.sqrt k ∧
      (Distance.sqrt k).IsReal (Real.sqrt k) ∧
      0 ≤ Real.sqrt k ∧ Real.sqrt k ≤ 255 * Real.sqrt 3 ∧
      (findNearestToken baselineData h).distance ≠ some Distance.nan ∧
      (findNearestToken baselineData h).distance ≠ some Distance.infinity) := by
  rcases baselineData with _ | ⟨_ | palette⟩
  · exact Or.inl ⟨⟨_, rfl⟩, rfl⟩
  · exact Or.inl ⟨⟨_, rfl⟩, rfl⟩
  · rcases nearestLoop_final h palette with ⟨hst, -⟩ |
      ⟨pre, name, td, post, k, hpal, hd, hst, -, -⟩
    · have hres : findNearestToken (some ⟨some palette⟩) h =
          degradedMatch h ⟨"No tokens found for comparison"⟩ := by
        simp [findNearestToken, findNearestTokenBody, hst, throw, throwThe, MonadExceptOf.throw]
      exact Or.inl ⟨⟨_, hres⟩, by rw [hres]; rfl⟩
    · have hres := findNearestToken_of_loop h palette _ _ hst
      rcases distance_cases h td.value with e | ⟨j, e, -, hwf, hj⟩
      · rw [hd] at e
        exact absurd e (by simp)
      · rw [hd] at e
        obtain rfl := Distance.sqrt.inj e
        refine Or.inr ⟨palette, name, td, k, rfl, by simp [hpal], hwf, hres, hd, rfl,
          Real.sqrt_nonneg _, sqrt_le_max k hj, ?_, ?_⟩ <;> rw [hres] <;> simp

/-- C10. When `baselineData` is not loaded, has no `tokens`, or has an empty
`tokens` object, `findNearestToken` returns, for every string `h`, the degraded
match: name `Error`, value `h`, availability `unknown`, the note
`Matching failed: ` followed by the message of the failure, distance `null`.
In each case the outer `try` block throws and the `catch` block returns. -/
theorem findNearestToken_degraded (h : String) :
    findNearestTokenBody none h = Except.error ⟨"Baseline data not loaded"⟩ ∧
    findNearestToken none h =
      ⟨"Error", h, "unknown", "Matching failed: " ++ "Baseline data not loaded", none⟩ ∧
    findNearestTokenBody (some ⟨none⟩) h = Except.error ⟨"Baseline data not loaded"⟩ ∧
    findNearestToken (some ⟨none⟩) h =
      ⟨"Error", h, "unknown", "Matching failed: " ++ "Baseline data not loaded", none⟩ ∧
    findNearestTokenBody (some ⟨some []⟩) h =
      Except.error ⟨"No tokens found for comparison"⟩ ∧
    findNearestToken (some ⟨some []⟩) h =
      ⟨"Error", h, "unknown", "Matching failed: " ++ "No tokens found for comparison", none⟩ :=
  ⟨rfl, rfl, rfl, rfl, rfl, rfl⟩

/-! ## Lemmas on the colour codec -/

theorem toDigitsCore_step (f m d : Nat) (acc : List Char) (hd : d < 16) (hm : 0 < m) :
    Nat.toDigitsCore 16 (f + 1) (m * 16 + d) acc =
      Nat.toDigitsCore 16 f m (Nat.digitChar d :: acc) := by
  have h1 : (m * 16 + d) / 16 = m := by omega
  have h2 : (m * 16 + d) % 16 = d := by omega
  have h3 : m ≠ 0 := by omega
  simp only [Nat.toDigitsCore, h1, h2, h3, if_false]

theorem toDigitsCore_last (f d : Nat) (acc : List Char) (hd : d < 16) :
    Nat.toDigitsCore 16 (f + 1) d acc = Nat.digitChar d :: acc := by
  have h1 : d / 16 = 0 := by omega
  have h2 : d % 16 = d := by omega
  simp only [Nat.toDigitsCore, h1, h2, if_true]

theorem toDigits_seven (r g b : Nat) (hr : r < 256) (hg : g < 256) (hb : b < 256) :
    Nat.toDigits 16 (16777216 + r * 65536 + g * 256 + b) =
      ['1', Nat.digitChar (r / 16), Nat.digitChar (r % 16), Nat.digitChar (g / 16),
        Nat.digitChar (g % 16), Nat.digitChar (b / 16), Nat.digitChar (b % 16)] := by
  have hn : 16777216 + r * 65536 + g * 256 + b =
      ((((((1 * 16 + r / 16) * 16 + r % 16) * 16 + g / 16) * 16 + g % 16) * 16 + b / 16) * 16 +
        b % 16) := by omega
  have hfuel : 16777216 + r * 65536 + g * 256 + b + 1 =
      (16777216 + r * 65536 + g * 256 + b - 6) + 1 + 1 + 1 + 1 + 1 + 1 + 1 := by omega
  unfold Nat.toDigits
  rw [hfuel, hn]
  rw [toDigitsCore_step _ _ _ _ (by omega) (by omega),
    toDigitsCore_step _ _ _ _ (by omega) (by omega),
    toDigitsCore_step _ _ _ _ (by omega) (by omega),
    toDigitsCore_step _ _ _ _ (by omega) (by omega),
    toDigitsCore_step _ _ _ _ (by omega) (by omega),
    toDigitsCore_step _ _ _ _ (by omega) (by omega),
    toDigitsCore_last _ _ _ (by omega)]
  rfl

theorem digitChar_toUpper (d : Nat) (hd : d < 16) :
    (Nat.digitChar d).toUpper = specUpperDigit d := by
  revert d
  decide

theorem specUpperDigit_spec (d : Nat) (hd : d < 16) :
    specUpperDigit d ∈ "0123456789ABCDEF".data ∧ specUpperDigit d ∈ hexDigitChars ∧
      specDigit (specUpperDigit d) = d := by
  revert d
  decide

/-- The level of a channel in `[0, 1]` is `round` of the product of doubles and
is at most `255`. -/
theorem round_level (c : ℚ) (h0 : 0 ≤ c) (h1 : c ≤ 1) :
    mathRound (times255 (some (JSNumber.fin c))) = JSIntegral.int ((specLevel c : Nat) : Int) ∧
      specLevel c ≤ 255 := by
  have hx0 : (0 : ℚ) ≤ c * 255 := by positivity
  have hx1 : c * 255 ≤ 255 := by linarith
  have h53 : |c * 255| < 2 ^ 53 := by
    rw [abs_of_nonneg hx0]
    exact lt_of_le_of_lt hx1 (by norm_num)
  have hlo : ((0 : Int) : ℚ) ≤ roundToDouble (c * 255) :=
    roundToDouble_ge _ 0 h53 (by simpa using hx0)
  have hhi : roundToDouble (c * 255) ≤ ((255 : Int) : ℚ) :=
    roundToDouble_le _ 255 h53 (by simpa using hx1)
  push_cast at hlo hhi
  have hfl : round (roundToDouble (c * 255)) = ⌊roundToDouble (c * 255) + 1 / 2⌋ := round_eq _
  have hnn : 0 ≤ ⌊roundToDouble (c * 255) + 1 / 2⌋ := by
    apply Int.floor_nonneg.2
    linarith
  have hlt : ⌊roundToDouble (c * 255) + 1 / 2⌋ < 256 := by
    apply Int.floor_lt.2
    push_cast
    linarith
  rw [times255, toDouble_fin _ h53, mathRound]
  unfold specLevel
  rw [hfl]
  constructor
  · rw [Int.toNat_of_nonneg hnn]
  · omega

/-- The encoding of a colour whose three channels round to the levels `r`, `g`
and `b`. -/
theorem rgbToHex_levels (cr cg cb : ℚ) (r g b : Nat) (hr : r ≤ 255) (hg : g ≤ 255)
    (hb : b ≤ 255)
    (er : mathRound (times255 (some (JSNumber.fin cr))) = JSIntegral.int (r : Int))
    (eg : mathRound (times255 (some (JSNumber.fin cg))) = JSIntegral.int (g : Int))
    (eb : mathRound (times255 (some (JSNumber.fin cb))) = JSIntegral.int (b : Int)) :
    rgbToHex (some (Color.ofChannels cr cg cb)) =
      some (String.mk ('#' :: (specHexByte r ++ specHexByte g ++ specHexByte b))) := by
  have h1 : wrap32 (1 * 2 ^ 24) + shiftLeft (JSIntegral.int r) 16 + shiftLeft (JSIntegral.int g) 8
      + (b : Int) = ((16777216 + r * 65536 + g * 256 + b : Nat) : Int) := by
    simp only [shiftLeft, toInt32, wrap32]
    norm_num
    omega
  have h2 : ¬ (((16777216 + r * 65536 + g * 256 + b : Nat) : Int) < 0) := by omega
  rw [rgbToHex_of_levels cr cg cb r g b er eg eb (by rw [abs_lt]; constructor <;> omega), h1]
  simp only [toString16, h2, if_false, Int.toNat_ofNat,
    toDigits_seven r g b (by omega) (by omega) (by omega), toUpperCase]
  simp [digitChar_toUpper, Nat.div_lt_of_lt_mul, Nat.mod_lt, specHexByte,
    show r / 16 < 16 by omega, show g / 16 < 16 by omega, show b / 16 < 16 by omega]

/-- The level of a channel in `[0, 1]`, divided by `255`, is within `1/255` of
the channel: the product of doubles is within `1/2` of the exact product, and
its rounding within `1/2` of it. -/
theorem level_close (c : ℚ) (h0 : 0 ≤ c) (h1 : c ≤ 1) (n : Nat)
    (e : mathRound (times255 (some (JSNumber.fin c))) = JSIntegral.int (n : Int)) :
    |(n : ℚ) / 255 - c| ≤ 1 / 255 := by
  have hx0 : (0 : ℚ) ≤ c * 255 := by positivity
  have hx1 : c * 255 ≤ 255 := by linarith
  have h53 : |c * 255| < 2 ^ 53 := by
    rw [abs_of_nonneg hx0]
    exact lt_of_le_of_lt hx1 (by norm_num)
  have hc := abs_le.1 (roundToDouble_close _ h53)
  rw [times255, toDouble_fin _ h53, mathRound] at e
  have e' : ⌊roundToDouble (c * 255) + 1 / 2⌋ = (n : Int) := JSIntegral.int.inj e
  have k1 : ((⌊roundToDouble (c * 255) + 1 / 2⌋ : Int) : ℚ) ≤ roundToDouble (c * 255) + 1 / 2 :=
    Int.floor_le _
  have k2 : roundToDouble (c * 255) + 1 / 2 <
      ((⌊roundToDouble (c * 255) + 1 / 2⌋ : Int) : ℚ) + 1 := Int.lt_floor_add_one _
  rw [e'] at k1 k2
  simp only [Int.cast_natCast] at k1 k2
  rw [abs_le]
  constructor <;> linarith [hc.1, hc.2]

theorem mathRound_isNaN (c : Option JSNumber) :
    (mathRound (times255 c)).isNaN = true ↔ (c = none ∨ c = some JSNumber.nan) := by
  rcases c with _ | _ | _ | _ | q
  · simp [times255, mathRound, JSIntegral.isNaN]
  · simp [times255, mathRound, JSIntegral.isNaN]
  · simp [times255, mathRound, JSIntegral.isNaN]
  · simp [times255, mathRound, JSIntegral.isNaN]
  · have h := toDouble_ne_nan (q * 255)
    rw [times255]
    cases hd : toDouble (q * 255) <;> simp_all [mathRound, JSIntegral.isNaN]

theorem rgbToHexBody_malformed (color : Option Color) (h : MalformedColor color) :
    rgbToHexBody color = Except.error ⟨"Invalid color object"⟩ ∨
    rgbToHexBody color = Except.error ⟨"Invalid RGB values"⟩ := by
  rcases color with _ | ⟨r, g, b⟩
  · exact Or.inl rfl
  · simp only [MalformedColor] at h
    by_cases hr : r = none
    · left
      simp [rgbToHexBody, hr, throw, throwThe, MonadExceptOf.throw]
    · right
      have hnan : ((mathRound (times255 r)).isNaN || (mathRound (times255 g)).isNaN ||
          (mathRound (times255 b)).isNaN) = true := by
        simp only [Bool.or_eq_true, mathRound_isNaN]
        tauto
      simp only [rgbToHexBody, hr, if_false, hnan, if_true]
      rfl

theorem rgbToHex_none_of_malformed (color : Option Color) (h : MalformedColor color) :
    rgbToHex color = none := by
  rcases rgbToHexBody_malformed color h with e | e <;> simp [rgbToHex, e]

theorem filterPaints_eq (l : List (Option Paint)) :
    filterPaints l = if none ∈ l then Except.error ⟨typeErrorMessage "type"⟩
      else Except.ok ((l.filterMap id).filter
        (fun p => decide (p.type = "SOLID" ∧ p.visible ≠ some false))) := by
  induction l with
  | nil => rfl
  | cons x l ih =>
    cases x with
    | none => simp [filterPaints, throw, throwThe, MonadExceptOf.throw]
    | some p =>
      rw [filterPaints, ih]
      by_cases hmem : none ∈ l
      · simp [hmem, throw, throwThe, MonadExceptOf.throw]
      · by_cases hk : p.type = "SOLID" ∧ p.visible ≠ some false
        · simp [hmem, hk, pure, Except.pure, List.filter_cons]
        · simp [hmem, hk, pure, Except.pure, List.filter_cons]

theorem paintLoop_append (bd : Option BaselineData) (ln lt st : String) (a b : List Paint) :
    ∀ acc, paintLoop bd ln lt st (a ++ b) acc = paintLoop bd ln lt st b (paintLoop bd ln lt st a acc) := by
  induction a with
  | nil => intro acc; rfl
  | cons p a ih =>
    intro acc
    cases h : rgbToHex p.color <;> simp [paintLoop, h, ih]

theorem processPaints_drop (bd : Option BaselineData) (nodeName : Option String)
    (nodeType styleType label : String) (pre post : List (Option Paint)) (p : Paint)
    (hp : rgbToHex p.color = none) (sink : Sink) :
    processPaints bd nodeName nodeType styleType label (some (pre ++ some p :: post)) sink =
      processPaints bd nodeName nodeType styleType label (some (pre ++ post)) sink := by
  simp only [processPaints, filterPaints_eq]
  by_cases hmem : none ∈ pre ∨ none ∈ post
  · have h1 : none ∈ pre ++ some p :: post := by
      simp only [List.mem_append, List.mem_cons, reduceCtorEq, false_or]
      exact hmem
    have h2 : none ∈ pre ++ post := List.mem_append.2 hmem
    simp only [h1, h2, if_true]
  · have h1 : ¬ none ∈ pre ++ some p :: post := by
      simp only [List.mem_append, List.mem_cons, reduceCtorEq, false_or]
      exact hmem
    have h2 : ¬ none ∈ pre ++ post := fun h => hmem (List.mem_append.1 h)
    simp only [h1, h2, if_false, List.filterMap_append, List.filter_append, List.filterMap_cons,
      id, List.filter_cons]
    split
    · simp only [paintLoop_append, paintLoop, hp]
    · rfl

theorem processNode_drop_fill (bd : Option BaselineData) (nodeName : Option String)
    (nodeType : String) (visible : Option Bool) (pre post : List (Option Paint)) (p : Paint)
    (strokes : Option (List (Option Paint))) (children : Option (List (Option LayerNode)))
    (hp : rgbToHex p.color = none) (sink : Sink) :
    processNode bd (.mk nodeName nodeType visible (some (pre ++ some p :: post)) strokes children)
        sink =
      processNode bd (.mk nodeName nodeType visible (some (pre ++ post)) strokes children)
        sink := by
  rw [processNode, processNode, processPaints_drop bd nodeName nodeType "fill" "Fill" pre post p hp]

theorem processNode_drop_stroke (bd : Option BaselineData) (nodeName : Option String)
    (nodeType : String) (visible : Option Bool) (pre post : List (Option Paint)) (p : Paint)
    (fills : Option (List (Option Paint))) (children : Option (List (Option LayerNode)))
    (hp : rgbToHex p.color = none) (sink : Sink) :
    processNode bd (.mk nodeName nodeType visible fills (some (pre ++ some p :: post)) children)
        sink =
      processNode bd (.mk nodeName nodeType visible fills (some (pre ++ post)) children)
        sink := by
  rw [processNode, processNode]
  simp only [processPaints_drop bd nodeName nodeType "stroke" "Stroke" pre post p hp]

/-! ## The colour codec: claims C3, C4, C5 -/

/-- C3. For a colour whose channels `r`, `g`, `b` are numbers in `[0, 1]`,
`rgbToHex` returns the string made of `#` and the two-digit upper-case
hexadecimal encodings of `round(r*255)`, `round(g*255)` and `round(b*255)`, in
that order, where `round` is `Math.round` and the product is the product of
doubles of line 167; each level is at most `255`, the string has six digits
after the `#`, all of them among `0123456789ABCDEF`, and each pair of digits
reads back as its level. -/
theorem rgbToHex_encoding (r g b : ℚ) (hr : 0 ≤ r ∧ r ≤ 1) (hg : 0 ≤ g ∧ g ≤ 1)
    (hb : 0 ≤ b ∧ b ≤ 1) :
    rgbToHex (some (Color.ofChannels r g b)) =
      some (String.mk ('#' :: (specHexByte (specLevel r) ++ specHexByte (specLevel g) ++
        specHexByte (specLevel b)))) ∧
    mathRound (times255 (some (JSNumber.fin r))) = JSIntegral.int (specLevel r) ∧
    mathRound (times255 (some (JSNumber.fin g))) = JSIntegral.int (specLevel g) ∧
    mathRound (times255 (some (JSNumber.fin b))) = JSIntegral.int (specLevel b) ∧
    specLevel r ≤ 255 ∧ specLevel g ≤ 255 ∧ specLevel b ≤ 255 ∧
    (specHexByte (specLevel r) ++ specHexByte (specLevel g) ++
      specHexByte (specLevel b)).length = 6 ∧
    (∀ c ∈ specHexByte (specLevel r) ++ specHexByte (specLevel g) ++ specHexByte (specLevel b),
      c ∈ "0123456789ABCDEF".data) ∧
    (∀ n, n ≤ 255 → ∃ hi lo, specHexByte n = [hi, lo] ∧ specByte hi lo = n) := by
  obtain ⟨er, lr⟩ := round_level r hr.1 hr.2
  obtain ⟨eg, lg⟩ := round_level g hg.1 hg.2
  obtain ⟨eb, lb⟩ := round_level b hb.1 hb.2
  refine ⟨rgbToHex_levels r g b _ _ _ lr lg lb er eg eb, er, eg, eb, lr, lg, lb, rfl, ?_, ?_⟩
  · intro c hc
    simp only [specHexByte, List.cons_append, List.nil_append, List.mem_cons,
      List.mem_singleton, List.not_mem_nil, or_false] at hc
    rcases hc with rfl | rfl | rfl | rfl | rfl | rfl <;>
      exact (specUpperDigit_spec _ (by omega)).1
  · intro n hn
    refine ⟨_, _, rfl, ?_⟩
    have h1 := (specUpperDigit_spec (n / 16) (by omega)).2.2
    have h2 := (specUpperDigit_spec (n % 16) (by omega)).2.2
    rw [specByte, h1, h2]
    omega

/-- Witness of C3: the colour `{r: 0.3, g: 0, b: 0}` has its channels in
`[0, 1]`; the product of the doubles `0.3` and `255` is `76.5`, the level is
`77` and the string is `#4D0000`. -/
theorem rgbToHex_encoding_witness :
    (0 ≤ double03 ∧ double03 ≤ 1) ∧ (0 ≤ (0 : ℚ) ∧ (0 : ℚ) ≤ 1) ∧
    specLevel double03 = 77 ∧ specLevel 0 = 0 ∧
    rgbToHex (some (Color.ofChannels double03 0 0)) = some "#4D0000" :=
  have h1 : 0 ≤ double03 ∧ double03 ≤ 1 := by norm_num [double03]
  have h0 : 0 ≤ (0 : ℚ) ∧ (0 : ℚ) ≤ 1 := by norm_num
  have e1 : specLevel double03 = 77 := by
    have h := (rgbToHex_encoding double03 0 0 h1 h0 h0).2.1
    rw [round_double03] at h
    exact (Int.ofNat.inj (JSIntegral.int.inj h)).symm
  have e0 : specLevel 0 = 0 := by
    have h := (rgbToHex_encoding double03 0 0 h1 h0 h0).2.2.1
    rw [round_zero] at h
    exact (Int.ofNat.inj (JSIntegral.int.inj h)).symm
  ⟨h1, h0, e1, e0, by
    rw [(rgbToHex_encoding double03 0 0 h1 h0 h0).1, e1, e0]
    decide⟩

/-- C4. For a colour whose channels are in `[0, 1]`, `rgbToHex` returns a
string, the three `parseInt` calls of `calculateColorDistance` on that string
return three integers, and each integer divided by `255` differs from the
channel it encodes by at most `1/255`.  The string is the one that the code
computes from the products of doubles of line 167: the rounding of a product
to a double moves it by less than the margin that `Math.round` leaves. -/
theorem rgbToHex_roundtrip (r g b : ℚ) (hr : 0 ≤ r ∧ r ≤ 1) (hg : 0 ≤ g ∧ g ≤ 1)
    (hb : 0 ≤ b ∧ b ≤ 1) :
    ∃ (s : String) (r' g' b' : Nat), rgbToHex (some (Color.ofChannels r g b)) = some s ∧
      hexRegexTest s = true ∧
      parseInt16 (slice (normalizeHex s.data) 1 3) = some r' ∧
      parseInt16 (slice (normalizeHex s.data) 3 5) = some g' ∧
      parseInt16 (slice (normalizeHex s.data) 5 7) = some b' ∧
      |(r' : ℚ) / 255 - r| ≤ 1 / 255 ∧ |(g' : ℚ) / 255 - g| ≤ 1 / 255 ∧
      |(b' : ℚ) / 255 - b| ≤ 1 / 255 := by
  obtain ⟨er, lr⟩ := round_level r hr.1 hr.2
  obtain ⟨eg, lg⟩ := round_level g hg.1 hg.2
  obtain ⟨eb, lb⟩ := round_level b hb.1 hb.2
  have hparse : ∀ n, n ≤ 255 → ∀ tl, parseInt16 ((specHexByte n ++ tl).take 2) = some n := by
    intro n hn tl
    have h1 := specUpperDigit_spec (n / 16) (by omega)
    have h2 := specUpperDigit_spec (n % 16) (by omega)
    simp only [specHexByte, List.cons_append, List.nil_append, List.take_succ_cons,
      List.take_zero]
    rw [parseInt16_pair _ _ h1.2.1 h2.2.1, specByte, h1.2.2, h2.2.2]
    congr 1
    omega
  have hwf : WellFormedHex (String.mk ('#' :: (specHexByte (specLevel r) ++
      specHexByte (specLevel g) ++ specHexByte (specLevel b)))) := by
    refine ⟨_, rfl, Or.inr rfl, ?_⟩
    intro c hc
    simp only [specHexByte, List.cons_append, List.nil_append, List.mem_cons,
      List.mem_singleton, List.not_mem_nil, or_false] at hc
    rcases hc with rfl | rfl | rfl | rfl | rfl | rfl <;>
      exact (specUpperDigit_spec _ (by omega)).2.1
  refine ⟨_, specLevel r, specLevel g, specLevel b,
    rgbToHex_levels r g b _ _ _ lr lg lb er eg eb, (hexRegexTest_iff _).2 hwf, ?_, ?_, ?_,
    level_close r hr.1 hr.2 _ er, level_close g hg.1 hg.2 _ eg, level_close b hb.1 hb.2 _ eb⟩
  · have := hparse (specLevel r) lr (specHexByte (specLevel g) ++ specHexByte (specLevel b))
    simpa [normalizeHex, slice, specHexByte] using this
  · have := hparse (specLevel g) lg (specHexByte (specLevel b))
    simpa [normalizeHex, slice, specHexByte] using this
  · have := hparse (specLevel b) lb []
    simpa [normalizeHex, slice, specHexByte] using this

/-- Witness of C4 at the colour `{r: 1, g: 0.2, b: 0.4}`. -/
theorem rgbToHex_roundtrip_witness :
    (0 ≤ (1 : ℚ) ∧ (1 : ℚ) ≤ 1) ∧ (0 ≤ double02 ∧ double02 ≤ 1) ∧
      (0 ≤ double04 ∧ double04 ≤ 1) ∧
    ∃ (s : String) (r' g' b' : Nat),
      rgbToHex (some (Color.ofChannels 1 double02 double04)) = some s ∧
      hexRegexTest s = true ∧
      parseInt16 (slice (normalizeHex s.data) 1 3) = some r' ∧
      parseInt16 (slice (normalizeHex s.data) 3 5) = some g' ∧
      parseInt16 (slice (normalizeHex s.data) 5 7) = some b' ∧
      |(r' : ℚ) / 255 - 1| ≤ 1 / 255 ∧ |(g' : ℚ) / 255 - double02| ≤ 1 / 255 ∧
      |(b' : ℚ) / 255 - double04| ≤ 1 / 255 :=
  have h1 : 0 ≤ (1 : ℚ) ∧ (1 : ℚ) ≤ 1 := by norm_num
  have h2 : 0 ≤ double02 ∧ double02 ≤ 1 := by norm_num [double02]
  have h3 : 0 ≤ double04 ∧ double04 ≤ 1 := by norm_num [double04]
  ⟨h1, h2, h3, rgbToHex_roundtrip 1 double02 double04 h1 h2 h3⟩

/-- C5. For a malformed colour input (the colour object is missing, or one of
the channels `r`, `g`, `b` is absent or `NaN`) the `try` block of `rgbToHex`
throws, the `catch` block takes over and `rgbToHex` returns `null`.  A paint
carrying such a colour contributes nothing to `processNode`: whatever the node,
the other paints and the arrays so far, the two arrays and the outcome are those
of the same node without that paint, for a fill and for a stroke alike. -/
theorem rgbToHex_malformed (color : Option Color) (h : MalformedColor color) :
    (rgbToHexBody color = Except.error ⟨"Invalid color object"⟩ ∨
      rgbToHexBody color = Except.error ⟨"Invalid RGB values"⟩) ∧
    rgbToHex color = none ∧
    (∀ (bd : Option BaselineData) (p : Paint), p.color = color →
      ∀ (nodeName : Option String) (nodeType : String) (visible : Option Bool)
        (pre post : List (Option Paint)) (other : Option (List (Option Paint)))
        (children : Option (List (Option LayerNode))) (sink : Sink),
        processNode bd (.mk nodeName nodeType visible (some (pre ++ some p :: post)) other
            children) sink =
          processNode bd (.mk nodeName nodeType visible (some (pre ++ post)) other children)
            sink ∧
        processNode bd (.mk nodeName nodeType visible other (some (pre ++ some p :: post))
            children) sink =
          processNode bd (.mk nodeName nodeType visible other (some (pre ++ post)) children)
            sink ∧
        ∀ (layerName layerType styleType : String) (before after : List Paint)
          (acc : List ScanResult),
          paintLoop bd layerName layerType styleType (before ++ p :: after) acc =
            paintLoop bd layerName layerType styleType after
              (paintLoop bd layerName layerType styleType before acc)) := by
  have hnone := rgbToHex_none_of_malformed color h
  refine ⟨rgbToHexBody_malformed color h, hnone, ?_⟩
  intro bd p hp nodeName nodeType visible pre post other children sink
  have hp' : rgbToHex p.color = none := by rw [hp, hnone]
  refine ⟨processNode_drop_fill bd nodeName nodeType visible pre post p other children hp' sink,
    processNode_drop_stroke bd nodeName nodeType visible pre post p other children hp' sink, ?_⟩
  intro layerName layerType styleType before after acc
  rw [paintLoop_append]
  simp only [paintLoop, hp']

/-- Witness of C5: the first fill of `mixedNode` has no colour object; the node
yields the one result of its second fill, and no error. -/
theorem rgbToHex_malformed_witness :
    MalformedColor none ∧ rgbToHex none = none ∧
    processNode (some getBaselineData) mixedNode ⟨[], []⟩ =
      (⟨[⟨"Card", "RECTANGLE", "fill", "#FF3366",
          ⟨"primary/500", "#FF3366", "widely", "Main brand", some (Distance.sqrt 0)⟩⟩], []⟩,
        none) :=
  ⟨trivial, (rgbToHex_malformed none trivial).2.1, by
    have h := ((rgbToHex_malformed none trivial).2.2 (some getBaselineData)
      ⟨"SOLID", none, none⟩ rfl (some "Card") "RECTANGLE" none []
      [some ⟨"SOLID", some true, some (Color.ofChannels 1 double02 double04)⟩] none none
      ⟨[], []⟩).1
    have hc := rgbToHex_brand
    have hm : findNearestToken (some getBaselineData) "#FF3366" =
        ⟨"primary/500", "#FF3366", "widely", "Main brand", some (Distance.sqrt 0)⟩ := by
      decide
    have e : mixedNode = .mk (some "Card") "RECTANGLE" none
        (some ([] ++ some ⟨"SOLID", none, none⟩ ::
          [some ⟨"SOLID", some true, some (Color.ofChannels 1 double02 double04)⟩]))
        none none := rfl
    rw [e, h, processNode]
    simp [processPaints, filterPaints, pure, Except.pure, paintLoop, hc, hm, nameOr]⟩

/-! ## Lemmas on the tree scanner -/

theorem findNearestToken_brand :
    findNearestToken (some getBaselineData) "#FF3366" =
      ⟨"primary/500", "#FF3366", "widely", "Main brand", some (Distance.sqrt 0)⟩ := by
  decide

theorem processNode_brandNode (sink : Sink) :
    processNode (some getBaselineData) brandNode sink =
      (⟨sink.scannedItems ++ [brandResult], sink.errors⟩, none) := by
  rw [brandNode, processNode]
  simp [processPaints, filterPaints, pure, Except.pure, paintLoop, rgbToHex_brand,
    findNearestToken_brand, nameOr, brandResult]

theorem processNode_hidden (bd : Option BaselineData) (nodeName : Option String)
    (nodeType : String) (fills strokes : Option (List (Option Paint)))
    (children : Option (List (Option LayerNode))) (sink : Sink) :
    processNode bd (.mk nodeName nodeType (some false) fills strokes children) sink =
      (sink, none) := by
  rw [processNode]
  simp

theorem processNode_visible (bd : Option BaselineData) (nodeName : Option String)
    (nodeType : String) (visible : Option Bool) (hv : visible ≠ some false)
    (fills strokes : Option (List (Option Paint)))
    (children : Option (List (Option LayerNode))) (sink : Sink) :
    processNode bd (.mk nodeName nodeType visible fills strokes children) sink =
      match children with
      | none =>
        (processPaints bd nodeName nodeType "stroke" "Stroke" strokes
          (processPaints bd nodeName nodeType "fill" "Fill" fills sink), none)
      | some children =>
        processChildren bd children
          (processPaints bd nodeName nodeType "stroke" "Stroke" strokes
            (processPaints bd nodeName nodeType "fill" "Fill" fills sink)) := by
  rw [processNode]
  simp only [hv, if_false]

theorem filterPaints_null (paints : List (Option Paint)) (h : none ∈ paints) :
    filterPaints paints = Except.error ⟨typeErrorMessage "type"⟩ := by
  rw [filterPaints_eq, if_pos h]

theorem processPaints_null (bd : Option BaselineData) (nodeName : Option String)
    (nodeType styleType label : String) (paints : List (Option Paint)) (h : none ∈ paints)
    (sink : Sink) :
    processPaints bd nodeName nodeType styleType label (some paints) sink =
      ⟨sink.scannedItems, sink.errors ++ [⟨nameOr nodeName "Unnamed layer", nodeType,
        label ++ " processing error: " ++ typeErrorMessage "type"⟩]⟩ := by
  simp only [processPaints, filterPaints_null paints h]

theorem processChildren_cons (bd : Option BaselineData) (node : LayerNode)
    (rest : List (Option LayerNode)) (sink : Sink) :
    processChildren bd (some node :: rest) sink =
      match processNode bd node sink with
      | (sink', none) => processChildren bd rest sink'
      | (sink', some childError) =>
        processChildren bd rest
          ⟨sink'.scannedItems, sink'.errors ++
            [⟨nameOr node.name "Unnamed child layer", node.type,
              "Child processing error: " ++ childError.message⟩]⟩ := by
  cases node with
  | mk nodeName nodeType visible fills strokes children =>
    rw [processChildren]
    rfl

theorem processChildren_append (bd : Option BaselineData) (before : List (Option LayerNode)) :
    ∀ (sink : Sink) (rest : List (Option LayerNode)),
      (processChildren bd before sink).2 = none →
      processChildren bd (before ++ rest) sink =
        processChildren bd rest (processChildren bd before sink).1 := by
  induction before with
  | nil =>
    intro sink rest _
    rw [List.nil_append, processChildren]
  | cons entry before ih =>
    intro sink rest h
    cases entry with
    | none =>
      rw [processChildren] at h
      exact absurd h (by simp)
    | some node =>
      rw [processChildren_cons] at h
      rw [List.cons_append, processChildren_cons bd node (before ++ rest),
        processChildren_cons bd node before]
      rcases hres : processNode bd node sink with ⟨sink', _ | e⟩
      · rw [hres] at h
        simp only at h ⊢
        exact ih _ _ h
      · rw [hres] at h
        simp only at h ⊢
        exact ih _ _ h

/-! ## The tree scanner: claims C11, C12 -/

/-- C11. A node whose `visible` flag is exactly `false` makes `processNode`
return at once: nothing is appended to the results or to the errors and no
exception is raised, whatever its fills, strokes and children (entries that
are `null` included).  A node without the flag is processed as a node whose
flag is `true`; the node `brandNode`, which has no flag, contributes its
result. -/
theorem processNode_invisible (bd : Option BaselineData) (nodeName : Option String)
    (nodeType : String) (fills strokes : Option (List (Option Paint)))
    (children : Option (List (Option LayerNode))) (sink : Sink) :
    processNode bd (.mk nodeName nodeType (some false) fills strokes children) sink =
      (sink, none) ∧
    processNode bd (.mk nodeName nodeType none fills strokes children) sink =
      processNode bd (.mk nodeName nodeType (some true) fills strokes children) sink ∧
    processNode (some getBaselineData) brandNode sink =
      (⟨sink.scannedItems ++ [brandResult], sink.errors⟩, none) := by
  refine ⟨processNode_hidden bd nodeName nodeType fills strokes children sink, ?_,
    processNode_brandNode sink⟩
  rw [processNode_visible bd nodeName nodeType none (by simp),
    processNode_visible bd nodeName nodeType (some true) (by simp)]

/-- C12. For a node that is not invisible and whose fill list contains an
entry that cannot be inspected, `processNode` appends one error carrying the
name of the node (or `Unnamed layer`), its type and a message that starts with
`Fill processing error: `, appends no fill result, and goes on exactly as for
the same node without fills: strokes and children are processed and the
outcome is the same.  Likewise for a stroke list with such an entry, after the
fills have been processed, with `Stroke processing error: `.  In a child list
the nodes before such a node have been processed when it is reached, and the
nodes after it are processed from the arrays it leaves. -/
theorem processNode_paint_failure (bd : Option BaselineData) (nodeName : Option String)
    (nodeType : String) (visible : Option Bool) (hv : visible ≠ some false)
    (broken : List (Option Paint)) (hbroken : none ∈ broken)
    (other : Option (List (Option Paint))) (children : Option (List (Option LayerNode)))
    (sink : Sink) :
    processNode bd (.mk nodeName nodeType visible (some broken) other children) sink =
      processNode bd (.mk nodeName nodeType visible none other children)
        ⟨sink.scannedItems, sink.errors ++ [⟨nameOr nodeName "Unnamed layer", nodeType,
          "Fill processing error: " ++ typeErrorMessage "type"⟩]⟩ ∧
    processNode bd (.mk nodeName nodeType visible other (some broken) children) sink =
      processNode bd (.mk nodeName nodeType visible none none children)
        ⟨(processNode bd (.mk nodeName nodeType visible other none none) sink).1.scannedItems,
          (processNode bd (.mk nodeName nodeType visible other none none) sink).1.errors ++
            [⟨nameOr nodeName "Unnamed layer", nodeType,
              "Stroke processing error: " ++ typeErrorMessage "type"⟩]⟩ ∧
    (∀ (before after : List (Option LayerNode)),
      (processChildren bd before sink).2 = none →
      (processNode bd (.mk nodeName nodeType visible (some broken) other children)
        (processChildren bd before sink).1).2 = none →
      processChildren bd
          (before ++ some (.mk nodeName nodeType visible (some broken) other children) :: after)
          sink =
        processChildren bd after
          (processNode bd (.mk nodeName nodeType visible (some broken) other children)
            (processChildren bd before sink).1).1) := by
  refine ⟨?_, ?_, ?_⟩
  · rw [processNode_visible bd nodeName nodeType visible hv,
      processNode_visible bd nodeName nodeType visible hv,
      processPaints_null bd nodeName nodeType "fill" "Fill" broken hbroken]
    rfl
  · rw [processNode_visible bd nodeName nodeType visible hv,
      processNode_visible bd nodeName nodeType visible hv,
      processNode_visible bd nodeName nodeType visible hv,
      processPaints_null bd nodeName nodeType "stroke" "Stroke" broken hbroken]
    rfl
  · intro before after hbefore hnode
    rw [processChildren_append bd before sink _ hbefore, processChildren_cons]
    rcases hres : processNode bd (.mk nodeName nodeType visible (some broken) other children)
      (processChildren bd before sink).1 with ⟨sink', _ | e⟩
    · rfl
    · rw [hres] at hnode
      exact absurd hnode (by simp)
theorem rgbToHex_white :
    rgbToHex (some (Color.ofChannels 1 1 1)) = some "#FFFFFF" := by
  rw [rgbToHex_of_levels 1 1 1 255 255 255 round_one round_one round_one
    (by norm_num [abs_of_nonneg])]
  decide

theorem findNearestToken_white :
    findNearestToken (some getBaselineData) "#FFFFFF" =
      ⟨"glass/blur", "#FFFFFF", "limited", "Backdrop blur", some (Distance.sqrt 0)⟩ := by
  decide

/-- Witness of C12: the node `brokenFillNode` is not invisible and its fill
list has an entry that is `null`; it yields one fill error, no fill result, the
result of its stroke and the result of its child. -/
theorem processNode_paint_failure_witness :
    (none : Option Bool) ≠ some false ∧
    processNode (some getBaselineData) brokenFillNode ⟨[], []⟩ =
      (⟨[⟨"Unnamed layer", "FRAME", "stroke", "#FFFFFF",
            ⟨"glass/blur", "#FFFFFF", "limited", "Backdrop blur", some (Distance.sqrt 0)⟩⟩,
          brandResult],
        [⟨"Unnamed layer", "FRAME",
          "Fill processing error: " ++ typeErrorMessage "type"⟩]⟩, none) :=
  ⟨by simp, by
    have h := (processNode_paint_failure (some getBaselineData) none "FRAME" none (by simp)
      [some ⟨"SOLID", none, some (Color.ofChannels 1 double02 double04)⟩, none] (by simp)
      (some [some ⟨"SOLID", none, some (Color.ofChannels 1 1 1)⟩]) (some [some brandNode])
      ⟨[], []⟩).1
    have hb := processNode_brandNode
    rw [brandNode] at hb
    rw [brokenFillNode, h, processNode_visible _ _ _ _ (by simp)]
    simp [processPaints, filterPaints, pure, Except.pure, paintLoop, rgbToHex_white,
      findNearestToken_white, nameOr, processChildren_cons, hb, processChildren]⟩

theorem processChildren_raises (bd : Option BaselineData) (cs : List (Option LayerNode)) :
    ∀ sink : Sink,
      (cs.any Option.isNone = false → (processChildren bd cs sink).2 = none) ∧
      (cs.any Option.isNone = true →
        (processChildren bd cs sink).2 = some ⟨typeErrorMessage "name"⟩) := by
  induction cs with
  | nil =>
    intro sink
    rw [processChildren]
    simp
  | cons entry cs ih =>
    intro sink
    cases entry with
    | none =>
      rw [processChildren]
      simp
    | some node =>
      rw [processChildren_cons]
      rcases processNode bd node sink with ⟨sink', _ | e⟩
      · simpa using ih sink'
      · simpa using ih _

theorem processNode_raises (bd : Option BaselineData) (node : LayerNode) (sink : Sink) :
    (node.escapes = false → (processNode bd node sink).2 = none) ∧
    (node.escapes = true → (processNode bd node sink).2 = some ⟨typeErrorMessage "name"⟩) := by
  cases node with
  | mk nodeName nodeType visible fills strokes children =>
    by_cases hv : visible = some false
    · subst hv
      rw [processNode_hidden]
      simp [LayerNode.escapes]
    · rw [processNode_visible bd nodeName nodeType visible hv]
      cases children with
      | none => simp [LayerNode.escapes]
      | some cs =>
        have h := processChildren_raises bd cs
          (processPaints bd nodeName nodeType "stroke" "Stroke" strokes
            (processPaints bd nodeName nodeType "fill" "Fill" fills sink))
        simpa [LayerNode.escapes, hv] using h

theorem scanLoop_cons (bd : Option BaselineData) (total : Nat) (node : LayerNode)
    (rest : List (Option LayerNode)) (state : ScanState) :
    scanLoop bd total (some node :: rest) state =
      match processNode bd node state.sink with
      | (sink, none) =>
        if total > 10 ∧ (state.processedCount + 1) % 5 = 0 then
          scanLoop bd total rest
            ⟨sink, state.processedCount + 1,
              state.messages ++ [⟨state.processedCount + 1, total⟩]⟩
        else
          scanLoop bd total rest ⟨sink, state.processedCount + 1, state.messages⟩
      | (sink, some error) =>
        scanLoop bd total rest
          ⟨⟨sink.scannedItems, sink.errors ++
            [⟨nameOr node.name "Unnamed layer", node.type, error.message⟩]⟩,
            state.processedCount, state.messages⟩ := by
  rw [scanLoop]

/-- The loop of `scanNodes` ends with an exception exactly when an entry is
`null`; otherwise the counter has grown by the number of nodes on which
`processNode` ended without an exception. -/
theorem scanLoop_count (bd : Option BaselineData) (total : Nat) (nodes : List (Option LayerNode)) :
    ∀ state : ScanState,
      (nodes.any Option.isNone = true →
        (scanLoop bd total nodes state).2 = some ⟨typeErrorMessage "name"⟩) ∧
      (nodes.any Option.isNone = false →
        (scanLoop bd total nodes state).2 = none ∧
        (scanLoop bd total nodes state).1.processedCount =
          state.processedCount + countProcessed nodes) := by
  induction nodes with
  | nil =>
    intro state
    rw [scanLoop]
    simp [countProcessed]
  | cons entry nodes ih =>
    intro state
    cases entry with
    | none =>
      rw [scanLoop]
      simp
    | some node =>
      rw [scanLoop_cons]
      have hr := processNode_raises bd node state.sink
      rcases hres : processNode bd node state.sink with ⟨sink', _ | e⟩
      · rw [hres] at hr
        have hesc : node.escapes = false := by
          cases h : node.escapes
          · rfl
          · exact absurd (hr.2 h) (by simp)
        have hc : countProcessed (some node :: nodes) = countProcessed nodes + 1 := by
          simp [countProcessed, hesc]
        simp only [List.any_cons, Option.isNone_some, Bool.false_or, hc]
        split
        · have := ih ⟨sink', state.processedCount + 1,
            state.messages ++ [⟨state.processedCount + 1, total⟩]⟩
          refine ⟨this.1, fun h => ⟨(this.2 h).1, ?_⟩⟩
          have h2 := (this.2 h).2
          dsimp only at h2
          omega
        · have := ih ⟨sink', state.processedCount + 1, state.messages⟩
          refine ⟨this.1, fun h => ⟨(this.2 h).1, ?_⟩⟩
          have h2 := (this.2 h).2
          dsimp only at h2
          omega
      · rw [hres] at hr
        have hesc : node.escapes = true := by
          cases h : node.escapes
          · exact absurd (hr.1 h) (by simp)
          · rfl
        have hc : countProcessed (some node :: nodes) = countProcessed nodes := by
          simp [countProcessed, hesc]
        simp only [List.any_cons, Option.isNone_some, Bool.false_or, hc]
        exact ih _

theorem scanLoop_nil (bd : Option BaselineData) (total : Nat) (state : ScanState) :
    scanLoop bd total [] state = (state, none) := by
  rw [scanLoop]

/-! ## Failure isolation: claims C13, C14, C15 -/

/-- C13, the code at the failing input.  When the first entry of the child
list of a visible node is `null`, `processNode` on the parent ends with the
exception raised inside its own `catch` block (reading `name` of `null`): no
error is appended for that child and the entries after it are not processed.
The node `nullChildNode`, whose child list is `[null, brandNode]`, yields no
result and no error.  A child that is a node and whose processing raises is
caught: one error is appended for it and the loop goes on. -/
theorem processNode_null_child (bd : Option BaselineData) (nodeName : Option String)
    (nodeType : String) (rest : List (Option LayerNode)) (sink : Sink) :
    processNode bd (.mk nodeName nodeType none none none (some (none :: rest))) sink =
      (sink, some ⟨typeErrorMessage "name"⟩) ∧
    processNode (some getBaselineData) nullChildNode ⟨[], []⟩ =
      (⟨[], []⟩, some ⟨typeErrorMessage "name"⟩) ∧
    processChildren bd (some nullChildNode :: rest) sink =
      processChildren bd rest
        ⟨sink.scannedItems, sink.errors ++
          [⟨"Group", "GROUP", "Child processing error: " ++ typeErrorMessage "name"⟩]⟩ := by
  have h1 : ∀ (name : Option String) (type : String) (sink : Sink),
      processNode bd (.mk name type none none none (some (none :: rest))) sink =
        (sink, some ⟨typeErrorMessage "name"⟩) := by
    intro name type sink
    rw [processNode_visible bd name type none (by simp)]
    simp only [processPaints]
    rw [processChildren]
  have h2 : ∀ (bd : Option BaselineData) (sink : Sink), processNode bd nullChildNode sink =
      (sink, some ⟨typeErrorMessage "name"⟩) := by
    intro bd sink
    rw [nullChildNode, processNode_visible bd _ _ none (by simp)]
    simp only [processPaints]
    rw [processChildren]
  refine ⟨h1 nodeName nodeType sink, h2 _ _, ?_⟩
  rw [processChildren_cons, h2]
  rfl

/-- C14, the code at the failing input.  When the first entry of the list of
top-level nodes is `null`, `scanNodes` ends with the exception raised inside
its own `catch` block (reading `name` of `null`): it returns no report, records
no error and scans none of the entries after it.  A top-level node on which
`processNode` raises is recorded as one error and the scan goes on: the list
`[nullChildNode, brandNode]` gives a report with that error and the result of
`brandNode`. -/
theorem scanNodes_null_entry (bd : Option BaselineData) (rest : List (Option LayerNode)) :
    scanNodes bd (none :: rest) =
      ⟨none, some ⟨typeErrorMessage "name"⟩, [], some (loadBaselineData bd)⟩ ∧
    (scanNodes none [none, some brandNode]).report = none ∧
    scanNodes none [some nullChildNode, some brandNode] =
      ⟨some ⟨[brandResult], ⟨2, 1, 1, 1⟩, [⟨"Group", "GROUP", typeErrorMessage "name"⟩]⟩,
        none, [], some getBaselineData⟩ := by
  have h1 : ∀ (bd : Option BaselineData) (rest : List (Option LayerNode)),
      scanNodes bd (none :: rest) =
        ⟨none, some ⟨typeErrorMessage "name"⟩, [], some (loadBaselineData bd)⟩ := by
    intro bd rest
    simp only [scanNodes]
    rw [scanLoop]
  have h2 : ∀ (bd : Option BaselineData) (sink : Sink), processNode bd nullChildNode sink =
      (sink, some ⟨typeErrorMessage "name"⟩) := by
    intro bd sink
    rw [nullChildNode, processNode_visible bd _ _ none (by simp)]
    simp only [processPaints]
    rw [processChildren]
  refine ⟨h1 bd rest, by rw [h1], ?_⟩
  simp only [scanNodes, loadBaselineData]
  rw [scanLoop_cons, h2]
  simp only
  rw [scanLoop_cons, processNode_brandNode]
  simp [scanLoop_nil, nullChildNode, LayerNode.name, LayerNode.type, nameOr]

/-- Counterexample to C15 as stated: the scan of the one-element list
`[nullChildNode]` returns a report, the list has length `1`, one error is
recorded for the top-level node itself, and `stats.processedNodes` is `0`. -/
theorem scanNodes_processed_counterexample :
    scanNodes none [some nullChildNode] =
      ⟨some ⟨[], ⟨1, 0, 1, 0⟩, [⟨"Group", "GROUP", typeErrorMessage "name"⟩]⟩,
        none, [], some getBaselineData⟩ ∧
    [some nullChildNode].length = 1 := by
  refine ⟨?_, rfl⟩
  have h2 : ∀ (bd : Option BaselineData) (sink : Sink), processNode bd nullChildNode sink =
      (sink, some ⟨typeErrorMessage "name"⟩) := by
    intro bd sink
    rw [nullChildNode, processNode_visible bd _ _ none (by simp)]
    simp only [processPaints]
    rw [processChildren]
  simp only [scanNodes, loadBaselineData]
  rw [scanLoop_cons, h2]
  simp [scanLoop_nil, nullChildNode, LayerNode.name, LayerNode.type, nameOr]

theorem countProcessed_all (nodes : List (Option LayerNode))
    (hnull : nodes.any Option.isNone = false)
    (hesc : ∀ node, some node ∈ nodes → node.escapes = false) :
    countProcessed nodes = nodes.length := by
  unfold countProcessed
  rw [List.filter_eq_self.2]
  intro entry hmem
  cases entry with
  | none =>
    have : nodes.any Option.isNone = true := List.any_eq_true.2 ⟨none, hmem, rfl⟩
    rw [hnull] at this
    exact absurd this (by simp)
  | some node => simp [hesc node hmem]

theorem scanNodes_report (bd : Option BaselineData) (nodes : List (Option LayerNode))
    (report : ScanReport) (hreport : (scanNodes bd nodes).report = some report) :
    nodes.any Option.isNone = false ∧
    report.stats.totalNodes = nodes.length ∧
    report.stats.processedNodes = countProcessed nodes ∧
    report.stats.errorCount = report.errors.length ∧
    report.stats.colorMatches = report.scannedItems.length := by
  have hc := scanLoop_count (some (loadBaselineData bd)) nodes.length nodes ⟨⟨[], []⟩, 0, []⟩
  simp only [scanNodes] at hreport
  rcases hloop : scanLoop (some (loadBaselineData bd)) nodes.length nodes ⟨⟨[], []⟩, 0, []⟩
    with ⟨state, _ | e⟩
  · rw [hloop] at hreport hc
    simp only [Option.some.injEq] at hreport
    cases hany : nodes.any Option.isNone
    · have h2 := (hc.2 hany).2
      simp only [Nat.zero_add] at h2
      subst hreport
      exact ⟨rfl, rfl, h2, rfl, rfl⟩
    · exact absurd (hc.1 hany) (by simp)
  · rw [hloop] at hreport
    exact absurd hreport (by simp)

/-- C15, amended. When `scanNodes` returns a report, `stats.totalNodes` is the
length of the input list, `stats.processedNodes` is the number of top-level
nodes on which `processNode` ended without an exception, `stats.errorCount`
and `stats.colorMatches` are the lengths of the two arrays; hence
`stats.processedNodes` is the length of the list when no top-level node has a
failure that escapes `processNode`.  A report is returned exactly when no
entry of the list is `null`. -/
theorem scanNodes_stats (bd : Option BaselineData) (nodes : List (Option LayerNode))
    (report : ScanReport) (hreport : (scanNodes bd nodes).report = some report) :
    report.stats.totalNodes = nodes.length ∧
    report.stats.processedNodes = countProcessed nodes ∧
    report.stats.errorCount = report.errors.length ∧
    report.stats.colorMatches = report.scannedItems.length ∧
    nodes.any Option.isNone = false ∧
    ((∀ node, some node ∈ nodes → node.escapes = false) →
      report.stats.processedNodes = nodes.length) ∧
    (∀ node (sink : Sink), (node.escapes = false ↔
      (processNode (some (loadBaselineData bd)) node sink).2 = none)) := by
  obtain ⟨hnull, h1, h2, h3, h4⟩ := scanNodes_report bd nodes report hreport
  refine ⟨h1, h2, h3, h4, hnull, ?_, ?_⟩
  · intro hesc
    rw [h2, countProcessed_all nodes hnull hesc]
  · intro node sink
    have hr := processNode_raises (some (loadBaselineData bd)) node sink
    constructor
    · exact hr.1
    · intro h
      cases hesc : node.escapes
      · rfl
      · rw [hr.2 hesc] at h
        exact absurd h (by simp)

/-- Witness of C15 amended: the scan of `[nullChildNode, brandNode]` returns a
report; of its two nodes one is processed without an exception. -/
theorem scanNodes_stats_witness :
    (scanNodes none [some nullChildNode, some brandNode]).report =
      some ⟨[brandResult], ⟨2, 1, 1, 1⟩, [⟨"Group", "GROUP", typeErrorMessage "name"⟩]⟩ ∧
    countProcessed [some nullChildNode, some brandNode] = 1 ∧
    (⟨2, 1, 1, 1⟩ : ScanStats).processedNodes =
      countProcessed [some nullChildNode, some brandNode] :=
  have h2 : ∀ (bd : Option BaselineData) (sink : Sink), processNode bd nullChildNode sink =
      (sink, some ⟨typeErrorMessage "name"⟩) := by
    intro bd sink
    rw [nullChildNode, processNode_visible bd _ _ none (by simp)]
    simp only [processPaints]
    rw [processChildren]
  have hrep : (scanNodes none [some nullChildNode, some brandNode]).report =
      some ⟨[brandResult], ⟨2, 1, 1, 1⟩, [⟨"Group", "GROUP", typeErrorMessage "name"⟩]⟩ := by
    simp only [scanNodes, loadBaselineData]
    rw [scanLoop_cons, h2]
    simp only
    rw [scanLoop_cons, processNode_brandNode]
    simp [scanLoop_nil, nullChildNode, LayerNode.name, LayerNode.type, nameOr]
  ⟨hrep, by decide, (scanNodes_stats none _ _ hrep).2.1⟩

theorem multiples_of_five (m : Nat) :
    (List.range' 1 m).filter (fun j => decide (j % 5 = 0)) =
      (List.range (m / 5)).map (fun k => 5 * (k + 1)) := by
  induction m with
  | zero => rfl
  | succ m ih =>
    rw [List.range'_1_concat, List.filter_append, ih]
    by_cases h : (1 + m) % 5 = 0
    · have hd : (m + 1) / 5 = m / 5 + 1 := by omega
      rw [hd, List.range_succ, List.map_append]
      simp only [List.filter_cons, h, decide_True, if_true, List.filter_nil, List.map_cons,
        List.map_nil]
      congr 2
      omega
    · have hd : (m + 1) / 5 = m / 5 := by omega
      rw [hd]
      simp [List.filter_cons, h]

/-- The progress messages posted by the loop of `scanNodes` over nodes that
are all processed without an exception. -/
theorem scanLoop_messages (bd : Option BaselineData) (total : Nat)
    (nodes : List (Option LayerNode))
    (hall : ∀ entry ∈ nodes, ∃ node, entry = some node ∧ node.escapes = false) :
    ∀ state : ScanState,
      (scanLoop bd total nodes state).2 = none ∧
      (scanLoop bd total nodes state).1.processedCount = state.processedCount + nodes.length ∧
      (scanLoop bd total nodes state).1.messages = state.messages ++
        (if total > 10 then
          ((List.range' (state.processedCount + 1) nodes.length).filter
            (fun j => decide (j % 5 = 0))).map (fun j => ⟨j, total⟩)
        else []) := by
  induction nodes with
  | nil =>
    intro state
    rw [scanLoop_nil]
    simp
  | cons entry nodes ih =>
    intro state
    obtain ⟨node, rfl, hesc⟩ := hall entry (by simp)
    have ih' := ih (fun e he => hall e (List.mem_cons_of_mem _ he))
    rw [scanLoop_cons]
    have hr := (processNode_raises bd node state.sink).1 hesc
    rcases hres : processNode bd node state.sink with ⟨sink', _ | e⟩
    · simp only
      by_cases hgt : total > 10
      · by_cases hmod : (state.processedCount + 1) % 5 = 0
        · simp only [hgt, hmod, and_self, if_true]
          obtain ⟨h1, h2, h3⟩ := ih' ⟨sink', state.processedCount + 1,
            state.messages ++ [⟨state.processedCount + 1, total⟩]⟩
          refine ⟨h1, ?_, ?_⟩
          · rw [h2, List.length_cons]
            dsimp only
            omega
          · rw [h3]
            simp [hgt, List.range'_succ, List.filter_cons, hmod]
        · simp only [hgt, hmod, and_false, if_false, if_true]
          obtain ⟨h1, h2, h3⟩ := ih' ⟨sink', state.processedCount + 1, state.messages⟩
          refine ⟨h1, ?_, ?_⟩
          · rw [h2, List.length_cons]
            dsimp only
            omega
          · rw [h3]
            simp [hgt, List.range'_succ, List.filter_cons, hmod]
      · simp only [hgt, false_and, if_false]
        obtain ⟨h1, h2, h3⟩ := ih' ⟨sink', state.processedCount + 1, state.messages⟩
        refine ⟨h1, ?_, ?_⟩
        · rw [h2, List.length_cons]
          dsimp only
          omega
        · rw [h3]
          simp [hgt]
    · rw [hres] at hr
      exact absurd hr (by simp)

/-- The arrays, the counter and the outcome of the loop of `scanNodes` do not
depend on the progress messages nor on the number `total` that gates them. -/
theorem scanLoop_independent (bd : Option BaselineData) (nodes : List (Option LayerNode)) :
    ∀ (total total' : Nat) (state state' : ScanState), state.sink = state'.sink →
      state.processedCount = state'.processedCount →
      (scanLoop bd total nodes state).1.sink = (scanLoop bd total' nodes state').1.sink ∧
      (scanLoop bd total nodes state).1.processedCount =
        (scanLoop bd total' nodes state').1.processedCount ∧
      (scanLoop bd total nodes state).2 = (scanLoop bd total' nodes state').2 := by
  induction nodes with
  | nil =>
    intro total total' state state' hs hc
    rw [scanLoop_nil, scanLoop_nil]
    exact ⟨hs, hc, rfl⟩
  | cons entry nodes ih =>
    intro total total' state state' hs hc
    cases entry with
    | none =>
      rw [scanLoop, scanLoop]
      exact ⟨hs, hc, rfl⟩
    | some node =>
      rw [scanLoop_cons, scanLoop_cons, ← hs, ← hc]
      rcases processNode bd node state.sink with ⟨sink', _ | e⟩
      · simp only
        split <;> split <;> exact ih _ _ _ _ rfl rfl
      · simp only
        exact ih _ _ _ _ rfl rfl

theorem scanLoop_prefix (bd : Option BaselineData) (total : Nat)
    (nodes : List (Option LayerNode))
    (hall : ∀ entry ∈ nodes, ∃ node, entry = some node ∧ node.escapes = false) :
    (scanLoop bd total nodes ⟨⟨[], []⟩, 0, []⟩).2 = none ∧
    (scanLoop bd total nodes ⟨⟨[], []⟩, 0, []⟩).1.processedCount = nodes.length ∧
    (scanLoop bd total nodes ⟨⟨[], []⟩, 0, []⟩).1.messages =
      specProgress total nodes.length := by
  obtain ⟨h1, h2, h3⟩ := scanLoop_messages bd total nodes hall ⟨⟨[], []⟩, 0, []⟩
  refine ⟨h1, by simpa using h2, ?_⟩
  rw [h3, specProgress]
  simp only [List.nil_append, Nat.zero_add, multiples_of_five, List.map_map]
  rfl

/-! ## Progress notifications: claim C16 -/

/-- C16. For a list of `n` top-level nodes that are all processed without an
escaping failure, the progress messages posted by `scanNodes` are none when
`n ≤ 10` and `(5k, n)` for `k = 1, ..., floor(n/5)`, in increasing order, when
`n > 10`.  After the first `m` nodes the counter is `m` and the messages posted
are those with `5k ≤ m`: the message for `5k` is posted once node `5k` is
processed and before node `5k + 1` is.  A report is returned, with
`stats.totalNodes = n`, and the arrays, the counter and the outcome of the loop
are the same for every value of the number that gates the messages, the value
`0` that silences them included. -/
theorem scanNodes_progress (bd : Option BaselineData) (nodes : List (Option LayerNode))
    (hall : ∀ entry ∈ nodes, ∃ node, entry = some node ∧ node.escapes = false) :
    (scanNodes bd nodes).progress = specProgress nodes.length nodes.length ∧
    (∀ m, m ≤ nodes.length →
      (scanLoop (some (loadBaselineData bd)) nodes.length (nodes.take m)
        ⟨⟨[], []⟩, 0, []⟩).1.processedCount = m ∧
      (scanLoop (some (loadBaselineData bd)) nodes.length (nodes.take m)
        ⟨⟨[], []⟩, 0, []⟩).1.messages = specProgress nodes.length m) ∧
    (∃ report, (scanNodes bd nodes).report = some report ∧
      report.stats.totalNodes = nodes.length ∧
      report.stats.processedNodes = nodes.length) ∧
    (∀ total : Nat,
      (scanLoop (some (loadBaselineData bd)) total nodes ⟨⟨[], []⟩, 0, []⟩).1.sink =
        (scanLoop (some (loadBaselineData bd)) nodes.length nodes ⟨⟨[], []⟩, 0, []⟩).1.sink ∧
      (scanLoop (some (loadBaselineData bd)) total nodes ⟨⟨[], []⟩, 0, []⟩).1.processedCount =
        (scanLoop (some (loadBaselineData bd)) nodes.length nodes
          ⟨⟨[], []⟩, 0, []⟩).1.processedCount ∧
      (scanLoop (some (loadBaselineData bd)) total nodes ⟨⟨[], []⟩, 0, []⟩).2 =
        (scanLoop (some (loadBaselineData bd)) nodes.length nodes ⟨⟨[], []⟩, 0, []⟩).2) ∧
    (∀ total : Nat, total ≤ 10 →
      (scanLoop (some (loadBaselineData bd)) total nodes ⟨⟨[], []⟩, 0, []⟩).1.messages = []) := by
  obtain ⟨h1, h2, h3⟩ := scanLoop_prefix (some (loadBaselineData bd)) nodes.length nodes hall
  refine ⟨?_, ?_, ?_, ?_, ?_⟩
  · simp only [scanNodes]
    rcases hloop : scanLoop (some (loadBaselineData bd)) nodes.length nodes ⟨⟨[], []⟩, 0, []⟩
      with ⟨state, _ | e⟩
    · rw [hloop] at h3
      exact h3
    · rw [hloop] at h1
      exact absurd h1 (by simp)
  · intro m hm
    obtain ⟨-, k2, k3⟩ := scanLoop_prefix (some (loadBaselineData bd)) nodes.length
      (nodes.take m) (fun e he => hall e (List.mem_of_mem_take he))
    rw [List.length_take, Nat.min_eq_left hm] at k2 k3
    exact ⟨k2, k3⟩
  · simp only [scanNodes]
    rcases hloop : scanLoop (some (loadBaselineData bd)) nodes.length nodes ⟨⟨[], []⟩, 0, []⟩
      with ⟨state, _ | e⟩
    · rw [hloop] at h2
      exact ⟨_, rfl, rfl, h2⟩
    · rw [hloop] at h1
      exact absurd h1 (by simp)
  · intro total
    exact scanLoop_independent (some (loadBaselineData bd)) nodes total nodes.length _ _ rfl rfl
  · intro total htotal
    obtain ⟨-, -, k3⟩ := scanLoop_prefix (some (loadBaselineData bd)) total nodes hall
    rw [k3, specProgress, if_neg (by omega)]

/-- Witness of C16: eleven copies of `brandNode` are all processed without an
escaping failure; the messages are `(5, 11)` and `(10, 11)`, and the report has
`stats.totalNodes = 11`. -/
theorem scanNodes_progress_witness :
    (∀ entry ∈ List.replicate 11 (some brandNode),
      ∃ node, entry = some node ∧ node.escapes = false) ∧
    (scanNodes none (List.replicate 11 (some brandNode))).progress = [⟨5, 11⟩, ⟨10, 11⟩] ∧
    ∃ report, (scanNodes none (List.replicate 11 (some brandNode))).report = some report ∧
      report.stats.totalNodes = 11 :=
  have hall : ∀ entry ∈ List.replicate 11 (some brandNode),
      ∃ node, entry = some node ∧ node.escapes = false :=
    fun entry he => ⟨brandNode, List.eq_of_mem_replicate he, by decide⟩
  ⟨hall,
    (scanNodes_progress none (List.replicate 11 (some brandNode)) hall).1.trans (by decide),
    by
      obtain ⟨report, h1, h2, -⟩ :=
        (scanNodes_progress none (List.replicate 11 (some brandNode)) hall).2.2.1
      exact ⟨report, h1, by simpa using h2⟩⟩

theorem paintLoop_eq (bd : Option BaselineData) (ln lt st : String) (kept : List Paint) :
    ∀ acc, paintLoop bd ln lt st kept acc = acc ++ kept.filterMap (fun p =>
      (rgbToHex p.color).map (fun color => ⟨ln, lt, st, color, findNearestToken bd color⟩)) := by
  induction kept with
  | nil => intro acc; simp [paintLoop]
  | cons p kept ih =>
    intro acc
    cases h : rgbToHex p.color <;> simp [paintLoop, h, ih, List.filterMap_cons]

theorem processPaints_wellFormed (bd : Option BaselineData) (nodeName : Option String)
    (nodeType styleType label : String) (paints : Option (List (Option Paint)))
    (hwf : paintsWellFormed paints = true) (sink : Sink) :
    processPaints bd nodeName nodeType styleType label paints sink =
      ⟨sink.scannedItems ++
        specPaintResults bd (nameOr nodeName "Unnamed layer") nodeType styleType paints,
        sink.errors⟩ := by
  cases paints with
  | none => simp [processPaints, specPaintResults]
  | some ps =>
    have hnone : ¬ none ∈ ps := by
      intro hmem
      simp only [paintsWellFormed, List.all_eq_true] at hwf
      exact absurd (hwf none hmem) (by simp)
    simp only [processPaints, filterPaints_eq, hnone, if_false, paintLoop_eq, specPaintResults,
      List.filterMap_filter]
    congr 2
    apply List.filterMap_congr
    intro p _
    by_cases hk : p.type = "SOLID" ∧ p.visible ≠ some false <;> simp [hk]

mutual

theorem processNode_wellFormed (bd : Option BaselineData) :
    ∀ (node : LayerNode) (sink : Sink), node.wellFormed = true →
      processNode bd node sink = (⟨sink.scannedItems ++ specResults bd node, sink.errors⟩, none)
  | .mk nodeName nodeType visible fills strokes children, sink, hwf => by
    unfold LayerNode.wellFormed at hwf
    simp only [Bool.and_eq_true] at hwf
    obtain ⟨⟨hf, hs⟩, hc⟩ := hwf
    by_cases hv : visible = some false
    · subst hv
      unfold specResults
      rw [processNode_hidden]
      simp
    · unfold specResults
      rw [processNode_visible bd nodeName nodeType visible hv,
        processPaints_wellFormed _ _ _ _ _ _ hf, processPaints_wellFormed _ _ _ _ _ _ hs]
      simp only [hv, if_false]
      cases children with
      | none => simp
      | some cs =>
        simp only at hc ⊢
        rw [processChildren_wellFormed bd cs _ hc]
        simp [List.append_assoc]

theorem processChildren_wellFormed (bd : Option BaselineData) :
    ∀ (cs : List (Option LayerNode)) (sink : Sink), childrenWellFormed cs = true →
      processChildren bd cs sink =
        (⟨sink.scannedItems ++ specChildResults bd cs, sink.errors⟩, none)
  | [], sink, _ => by
    rw [processChildren, specChildResults]
    simp
  | none :: rest, sink, hwf => by
    rw [childrenWellFormed] at hwf
    exact absurd hwf (by simp)
  | some (.mk nodeName nodeType visible fills strokes children) :: rest, sink, hwf => by
    rw [childrenWellFormed] at hwf
    simp only [Bool.and_eq_true] at hwf
    rw [processChildren_cons,
      processNode_wellFormed bd (.mk nodeName nodeType visible fills strokes children) sink hwf.1]
    simp only
    rw [processChildren_wellFormed bd rest _ hwf.2, specChildResults]
    simp [List.append_assoc]

end

theorem specPaintResults_mem (bd : Option BaselineData) (ln lt st : String)
    (paints : List (Option Paint)) (r : ScanResult)
    (hr : r ∈ specPaintResults bd ln lt st (some paints)) :
    r.layerName = ln ∧ r.layerType = lt ∧ r.styleType = st ∧
    r.tokenMatch = findNearestToken bd r.color ∧
    ∃ p, some p ∈ paints ∧ p.type = "SOLID" ∧ p.visible ≠ some false ∧
      rgbToHex p.color = some r.color := by
  simp only [specPaintResults, List.mem_filterMap, id] at hr
  obtain ⟨p, ⟨op, hop, rfl⟩, hp⟩ := hr
  by_cases hk : p.type = "SOLID" ∧ p.visible ≠ some false
  · rw [if_pos hk] at hp
    cases hc : rgbToHex p.color with
    | none => rw [hc] at hp; exact absurd hp (by simp)
    | some c =>
      rw [hc] at hp
      simp only [Option.map_some', Option.some.injEq] at hp
      subst hp
      exact ⟨rfl, rfl, rfl, rfl, p, hop, hk.1, hk.2, hc⟩
  · rw [if_neg hk] at hp
    exact absurd hp (by simp)

/-! ## Results of a well-formed node: claim C17 -/

/-- C17. For a well-formed node, `processNode` raises no exception, appends no
error, and appends exactly the results `specResults`: for a node that is not
invisible, the results of its fills in list order, then those of its strokes,
then those of each child in child order, each child being treated in the same
way (depth first, pre-order).  A paint list contributes one result for each
paint that is solid, not explicitly invisible and whose colour encodes; the
result carries the name of the node (or `Unnamed layer`), its type, the style
kind, the encoded colour and `findNearestToken` of that colour. -/
theorem processNode_results (bd : Option BaselineData) (node : LayerNode) (sink : Sink)
    (hwf : node.wellFormed = true) :
    processNode bd node sink = (⟨sink.scannedItems ++ specResults bd node, sink.errors⟩, none) ∧
    (∀ nodeName nodeType visible fills strokes children, visible ≠ some false →
      specResults bd (.mk nodeName nodeType visible fills strokes children) =
        specPaintResults bd (nameOr nodeName "Unnamed layer") nodeType "fill" fills ++
        specPaintResults bd (nameOr nodeName "Unnamed layer") nodeType "stroke" strokes ++
        (match children with
         | none => []
         | some children => specChildResults bd children)) ∧
    specChildResults bd [] = [] ∧
    (∀ child rest, specChildResults bd (some child :: rest) =
      specResults bd child ++ specChildResults bd rest) ∧
    (∀ ln lt st paints r, r ∈ specPaintResults bd ln lt st (some paints) →
      r.layerName = ln ∧ r.layerType = lt ∧ r.styleType = st ∧
      r.tokenMatch = findNearestToken bd r.color ∧
      ∃ p, some p ∈ paints ∧ p.type = "SOLID" ∧ p.visible ≠ some false ∧
        rgbToHex p.color = some r.color) ∧
    (∀ ln lt st (before after : List (Option Paint)) (p : Paint),
      specPaintResults bd ln lt st (some (before ++ some p :: after)) =
        specPaintResults bd ln lt st (some before) ++
        (if p.type = "SOLID" ∧ p.visible ≠ some false then
          match rgbToHex p.color with
          | some color => [⟨ln, lt, st, color, findNearestToken bd color⟩]
          | none => []
        else []) ++
        specPaintResults bd ln lt st (some after)) := by
  refine ⟨processNode_wellFormed bd node sink hwf, ?_, ?_, ?_,
    specPaintResults_mem bd, ?_⟩
  · intro nodeName nodeType visible fills strokes children hv
    unfold specResults
    simp only [hv, if_false]
  · unfold specChildResults
    rfl
  · intro child rest
    cases child with
    | mk nodeName nodeType visible fills strokes children =>
      conv => lhs; unfold specChildResults
  · intro ln lt st before after p
    simp only [specPaintResults, List.filterMap_append, List.filterMap_cons, id,
      List.append_assoc]
    by_cases hk : p.type = "SOLID" ∧ p.visible ≠ some false
    · cases hc : rgbToHex p.color <;> simp [hk, hc]
    · simp [hk]
/-- Witness of C17: `sampleTree` is well formed; it yields the result of its
third fill, the result of its stroke and the result of its first child, in this
order, and no error. -/
theorem processNode_results_witness :
    sampleTree.wellFormed = true ∧
    processNode (some getBaselineData) sampleTree ⟨[], []⟩ =
      (⟨[⟨"Frame", "FRAME", "fill", "#FF3366",
            ⟨"primary/500", "#FF3366", "widely", "Main brand", some (Distance.sqrt 0)⟩⟩,
          ⟨"Frame", "FRAME", "stroke", "#FFFFFF",
            ⟨"glass/blur", "#FFFFFF", "limited", "Backdrop blur", some (Distance.sqrt 0)⟩⟩,
          brandResult], []⟩, none) :=
  have hwf : sampleTree.wellFormed = true := by decide
  ⟨hwf, by
    rw [(processNode_results (some getBaselineData) sampleTree ⟨[], []⟩ hwf).1]
    have hspec : specResults (some getBaselineData) sampleTree =
        [⟨"Frame", "FRAME", "fill", "#FF3366",
            ⟨"primary/500", "#FF3366", "widely", "Main brand", some (Distance.sqrt 0)⟩⟩,
          ⟨"Frame", "FRAME", "stroke", "#FFFFFF",
            ⟨"glass/blur", "#FFFFFF", "limited", "Backdrop blur", some (Distance.sqrt 0)⟩⟩,
          brandResult] := by
      simp [sampleTree, brandNode, specResults, specChildResults, specPaintResults,
        rgbToHex_brand, rgbToHex_white, findNearestToken_brand, findNearestToken_white, nameOr,
        brandResult]
    rw [hspec]
    rfl⟩

theorem specHexByte_upper (n : Nat) (hn : n ≤ 255) :
    ∀ c ∈ specHexByte n, c ∈ "0123456789ABCDEF".data ∧ c ∈ hexDigitChars := by
  intro c hc
  simp only [specHexByte, List.mem_cons, List.mem_singleton, List.not_mem_nil, or_false] at hc
  rcases hc with rfl | rfl
  · exact ⟨(specUpperDigit_spec _ (by omega)).1, (specUpperDigit_spec _ (by omega)).2.1⟩
  · exact ⟨(specUpperDigit_spec _ (by omega)).1, (specUpperDigit_spec _ (by omega)).2.1⟩

/-- The encoding of a colour whose three levels are in `0..255` is `#`
followed by six upper-case hexadecimal digits, and passes `hexRegex`. -/
theorem rgbToHex_shape (cr cg cb : ℚ) (r g b : Nat) (hr : r ≤ 255) (hg : g ≤ 255)
    (hb : b ≤ 255)
    (er : mathRound (times255 (some (JSNumber.fin cr))) = JSIntegral.int (r : Int))
    (eg : mathRound (times255 (some (JSNumber.fin cg))) = JSIntegral.int (g : Int))
    (eb : mathRound (times255 (some (JSNumber.fin cb))) = JSIntegral.int (b : Int)) :
    ∃ ds : List Char, rgbToHex (some (Color.ofChannels cr cg cb)) = some (String.mk ('#' :: ds)) ∧
      ds.length = 6 ∧ (∀ c ∈ ds, c ∈ "0123456789ABCDEF".data) ∧
      WellFormedHex (String.mk ('#' :: ds)) := by
  refine ⟨specHexByte r ++ specHexByte g ++ specHexByte b,
    rgbToHex_levels cr cg cb r g b hr hg hb er eg eb, rfl, ?_, ?_⟩
  · intro c hc
    simp only [List.mem_append] at hc
    rcases hc with (hc | hc) | hc
    · exact (specHexByte_upper r hr c hc).1
    · exact (specHexByte_upper g hg c hc).1
    · exact (specHexByte_upper b hb c hc).1
  · refine ⟨_, rfl, Or.inr rfl, ?_⟩
    intro c hc
    simp only [List.mem_append] at hc
    rcases hc with (hc | hc) | hc
    · exact (specHexByte_upper r hr c hc).2
    · exact (specHexByte_upper g hg c hc).2
    · exact (specHexByte_upper b hb c hc).2

/-! ## Lemmas on the digits of `toString(16)` -/

theorem digitChar_upper (d : Nat) (hd : d < 16) :
    (Nat.digitChar d).toUpper ∈ "0123456789ABCDEF".data ∧
      (Nat.digitChar d).toUpper ∈ hexDigitChars := by
  revert d
  decide

theorem toDigitsCore_digits (fuel : Nat) :
    ∀ (n : Nat) (acc : List Char), 0 < n → n < fuel →
      Nat.toDigitsCore 16 fuel n acc = (Nat.digits 16 n).reverse.map Nat.digitChar ++ acc := by
  induction fuel with
  | zero =>
    intro n acc _ h
    omega
  | succ fuel ih =>
    intro n acc hn hfuel
    rw [Nat.digits_def' (by norm_num) hn]
    simp only [Nat.toDigitsCore, List.reverse_cons, List.map_append, List.map_cons, List.map_nil,
      List.append_assoc, List.singleton_append]
    by_cases h0 : n / 16 = 0
    · simp [h0]
    · rw [if_neg h0, ih (n / 16) _ (by omega) (by omega)]

theorem toDigits_digits (n : Nat) (hn : 0 < n) :
    Nat.toDigits 16 n = (Nat.digits 16 n).reverse.map Nat.digitChar := by
  unfold Nat.toDigits
  rw [toDigitsCore_digits (n + 1) n [] hn (by omega), List.append_nil]

theorem toDigits_length (n : Nat) (hn : 0 < n) :
    (Nat.toDigits 16 n).length = Nat.log 16 n + 1 := by
  rw [toDigits_digits n hn, List.length_map, List.length_reverse,
    Nat.digits_len 16 n (by norm_num) (by omega)]

theorem toDigits_upper (n : Nat) :
    ∀ c ∈ toUpperCase (Nat.toDigits 16 n),
      c ∈ "0123456789ABCDEF".data ∧ c ∈ hexDigitChars := by
  intro c hc
  by_cases hn : 0 < n
  · rw [toDigits_digits n hn, toUpperCase] at hc
    simp only [List.map_map, List.mem_map, List.mem_reverse, Function.comp] at hc
    obtain ⟨d, hd, rfl⟩ := hc
    exact digitChar_upper d (Nat.digits_lt_base (by norm_num) hd)
  · have h0 : n = 0 := by omega
    subst h0
    revert c
    decide

theorem toDigits_length_eq (n k : Nat) :
    (Nat.toDigits 16 n).length = k + 2 ↔ 16 ^ (k + 1) ≤ n ∧ n < 16 ^ (k + 2) := by
  by_cases hn : 0 < n
  · rw [toDigits_length n hn]
    constructor
    · intro h
      have hl : Nat.log 16 n = k + 1 := by omega
      exact (Nat.log_eq_iff (Or.inl (by omega))).1 hl
    · intro h
      have hl : Nat.log 16 n = k + 1 := (Nat.log_eq_iff (Or.inl (by omega))).2 h
      omega
  · have h0 : n = 0 := by omega
    subst h0
    constructor
    · intro h
      simp [Nat.toDigits, Nat.toDigitsCore] at h
    · intro h
      have : 0 < 16 ^ (k + 1) := by positivity
      omega

theorem hexTail_length (n : Int) :
    (toUpperCase ((toString16 (JSIntegral.int n)).drop 1)).length = 6 ↔ SixDigitNumber n := by
  unfold SixDigitNumber
  by_cases hneg : n < 0
  · simp only [toString16, hneg, if_true, List.drop_succ_cons, List.drop_zero, toUpperCase,
      List.length_map]
    rw [toDigits_length_eq n.natAbs 4]
    constructor
    · intro h
      right
      omega
    · rintro (h | h) <;> omega
  · simp only [toString16, hneg, if_false, toUpperCase, List.length_map, List.length_drop]
    have h7 := toDigits_length_eq n.toNat 5
    constructor
    · intro h
      left
      have := h7.1 (by omega)
      omega
    · rintro (h | h)
      · have := h7.2 (by omega)
        omega
      · omega

theorem hexTail_upper (n : Int) :
    ∀ c ∈ toUpperCase ((toString16 (JSIntegral.int n)).drop 1),
      c ∈ "0123456789ABCDEF".data ∧ c ∈ hexDigitChars := by
  intro c hc
  by_cases hneg : n < 0
  · simp only [toString16, hneg, if_true, List.drop_succ_cons, List.drop_zero] at hc
    exact toDigits_upper _ c hc
  · simp only [toString16, hneg, if_false, toUpperCase, List.map_drop] at hc
    exact toDigits_upper _ c (List.mem_of_mem_drop hc)

theorem rgbToHex_packed (cr cg cb : JSNumber) (hr : cr ≠ JSNumber.nan) (hg : cg ≠ JSNumber.nan)
    (hb : cb ≠ JSNumber.nan) :
    rgbToHex (some ⟨some cr, some cg, some cb⟩) =
      some (String.mk ('#' :: toUpperCase ((toString16 (packedNumber cr cg cb)).drop 1))) := by
  have h1 : (mathRound (times255 (some cr))).isNaN = false := by
    cases h : (mathRound (times255 (some cr))).isNaN
    · rfl
    · exact absurd ((mathRound_isNaN _).1 h) (by simp [hr])
  have h2 : (mathRound (times255 (some cg))).isNaN = false := by
    cases h : (mathRound (times255 (some cg))).isNaN
    · rfl
    · exact absurd ((mathRound_isNaN _).1 h) (by simp [hg])
  have h3 : (mathRound (times255 (some cb))).isNaN = false := by
    cases h : (mathRound (times255 (some cb))).isNaN
    · rfl
    · exact absurd ((mathRound_isNaN _).1 h) (by simp [hb])
  simp only [rgbToHex, rgbToHexBody, h1, h2, h3, packedNumber]
  rfl

theorem hexTail_six (N : JSIntegral) :
    ((toUpperCase ((toString16 N).drop 1)).length = 6 ∧
      ∀ c ∈ toUpperCase ((toString16 N).drop 1), c ∈ "0123456789ABCDEF".data) ↔
    ∃ n, N = JSIntegral.int n ∧ SixDigitNumber n := by
  cases N with
  | int n =>
    constructor
    · intro h
      exact ⟨n, rfl, (hexTail_length n).1 h.1⟩
    · rintro ⟨m, hm, hsix⟩
      obtain rfl := JSIntegral.int.inj hm
      exact ⟨(hexTail_length n).2 hsix, fun c hc => (hexTail_upper n c hc).1⟩
  | posInf =>
    constructor
    · intro h
      exact absurd h.1 (by decide)
    · rintro ⟨m, hm, -⟩
      exact absurd hm (by simp)
  | negInf =>
    constructor
    · intro h
      exact absurd h.1 (by decide)
    · rintro ⟨m, hm, -⟩
      exact absurd hm (by simp)
  | nan =>
    constructor
    · intro h
      exact absurd h.1 (by decide)
    · rintro ⟨m, hm, -⟩
      exact absurd hm (by simp)

theorem hexTail_wellFormed (n : Int) (h : SixDigitNumber n) :
    WellFormedHex (String.mk ('#' :: toUpperCase ((toString16 (JSIntegral.int n)).drop 1))) :=
  ⟨_, rfl, Or.inr ((hexTail_length n).2 h), fun c hc => (hexTail_upper n c hc).2⟩

theorem packedNumber_unit (r g b : ℚ) (hr : 0 ≤ r ∧ r ≤ 1) (hg : 0 ≤ g ∧ g ≤ 1)
    (hb : 0 ≤ b ∧ b ≤ 1) :
    ∃ n, packedNumber (JSNumber.fin r) (JSNumber.fin g) (JSNumber.fin b) = JSIntegral.int n ∧
      SixDigitNumber n := by
  obtain ⟨er, lr⟩ := round_level r hr.1 hr.2
  obtain ⟨eg, lg⟩ := round_level g hg.1 hg.2
  obtain ⟨eb, lb⟩ := round_level b hb.1 hb.2
  have h1 : wrap32 (1 * 2 ^ 24) + shiftLeft (JSIntegral.int (specLevel r)) 16 +
      shiftLeft (JSIntegral.int (specLevel g)) 8 + (specLevel b : Int) =
      ((16777216 + specLevel r * 65536 + specLevel g * 256 + specLevel b : Nat) : Int) := by
    simp only [shiftLeft, toInt32, wrap32]
    norm_num
    omega
  have hsmall : |((wrap32 (1 * 2 ^ 24) + shiftLeft (JSIntegral.int (specLevel r)) 16 +
      shiftLeft (JSIntegral.int (specLevel g)) 8 + (specLevel b : Int) : Int) : ℚ)| < 2 ^ 53 := by
    rw [h1]
    have : |((16777216 + specLevel r * 65536 + specLevel g * 256 + specLevel b : Nat) : Int)|
        < 2 ^ 53 := by
      rw [abs_lt]
      constructor <;> omega
    exact_mod_cast this
  refine ⟨_, by rw [packedNumber, er, eg, eb, addIntegral_small _ _ hsmall], ?_⟩
  rw [h1]
  left
  constructor <;> omega

theorem round_neg_one :
    mathRound (times255 (some (JSNumber.fin (-1)))) = JSIntegral.int (-255) :=
  level_int (-1) (-255) (by norm_num) (by norm_num [abs_of_nonneg])

theorem round_two : mathRound (times255 (some (JSNumber.fin 2))) = JSIntegral.int 510 :=
  level_int 2 510 (by norm_num) (by norm_num [abs_of_nonneg])

/-! ## Channels outside the unit interval: claim C18 -/

/-- Counterexample to C18 as stated: the colour `{r: -1, g: 0, b: 0}` has three
channels that are numbers other than `NaN`; `rgbToHex` returns the string
`#0000`, which is not `#` followed by six hexadecimal digits and which
`hexRegex` rejects.  Likewise `{r: 0, g: 0, b: Infinity}` gives `#NFINITY`. -/
theorem rgbToHex_shape_counterexample :
    rgbToHex (some (Color.ofChannels (-1) 0 0)) = some "#0000" ∧
    hexRegexTest "#0000" = false ∧
    rgbToHex (some ⟨some (JSNumber.fin 0), some (JSNumber.fin 0), some JSNumber.posInf⟩) =
      some "#NFINITY" ∧
    hexRegexTest "#NFINITY" = false := by
  refine ⟨?_, by decide, ?_, by decide⟩
  · rw [rgbToHex_of_levels (-1) 0 0 (-255) 0 0 round_neg_one round_zero round_zero
      (by norm_num)]
    decide
  · have e : mathRound (times255 (some JSNumber.posInf)) = JSIntegral.posInf := rfl
    have e2 : ∀ n, addIntegral n JSIntegral.posInf = JSIntegral.posInf := fun n => rfl
    rw [rgbToHex_packed _ _ _ (by simp) (by simp) (by simp), packedNumber, e, e2]
    decide

/-- C18, amended. For a colour whose three channels are numbers other than
`NaN`, `rgbToHex` returns a string: `#` followed by the upper-cased
`toString(16)`, without its first character, of the number
`n = (1 << 24) + (r << 16) + (g << 8) + b` of line 176.  What follows the `#`
is exactly six upper-case hexadecimal digits if and only if `n` is finite and
`2^24 ≤ n < 2^28` or `-2^24 < n ≤ -2^20`; the string is then accepted by
`hexRegex`.  The condition holds whenever the three channels are in
`[0, 1]`. -/
theorem rgbToHex_shape_iff (cr cg cb : JSNumber) (hr : cr ≠ JSNumber.nan)
    (hg : cg ≠ JSNumber.nan) (hb : cb ≠ JSNumber.nan) :
    ∃ ds : List Char,
      rgbToHex (some ⟨some cr, some cg, some cb⟩) = some (String.mk ('#' :: ds)) ∧
      ds = toUpperCase ((toString16 (packedNumber cr cg cb)).drop 1) ∧
      ((ds.length = 6 ∧ ∀ c ∈ ds, c ∈ "0123456789ABCDEF".data) ↔
        ∃ n, packedNumber cr cg cb = JSIntegral.int n ∧ SixDigitNumber n) ∧
      ((∃ n, packedNumber cr cg cb = JSIntegral.int n ∧ SixDigitNumber n) →
        hexRegexTest (String.mk ('#' :: ds)) = true) ∧
      (∀ r g b : ℚ, cr = JSNumber.fin r → cg = JSNumber.fin g → cb = JSNumber.fin b →
        0 ≤ r ∧ r ≤ 1 → 0 ≤ g ∧ g ≤ 1 → 0 ≤ b ∧ b ≤ 1 →
        ∃ n, packedNumber cr cg cb = JSIntegral.int n ∧ SixDigitNumber n) := by
  refine ⟨_, rgbToHex_packed cr cg cb hr hg hb, rfl, hexTail_six _, ?_, ?_⟩
  · rintro ⟨n, hn, hsix⟩
    rw [hn]
    exact (hexRegexTest_iff _).2 (hexTail_wellFormed n hsix)
  · intro r g b e1 e2 e3 h1 h2 h3
    subst e1 e2 e3
    exact packedNumber_unit r g b h1 h2 h3

/-- Witness of C18 amended at the colour `{r: 2, g: 0, b: 0}`, whose red
channel is greater than `1`: the number is `0x2FE0000` and the string is
`#FE0000`. -/
theorem rgbToHex_shape_iff_witness :
    JSNumber.fin 2 ≠ JSNumber.nan ∧ JSNumber.fin 0 ≠ JSNumber.nan ∧
    packedNumber (JSNumber.fin 2) (JSNumber.fin 0) (JSNumber.fin 0) = JSIntegral.int 50200576 ∧
    SixDigitNumber 50200576 ∧
    rgbToHex (some ⟨some (JSNumber.fin 2), some (JSNumber.fin 0), some (JSNumber.fin 0)⟩) =
      some "#FE0000" :=
  have h2 : JSNumber.fin 2 ≠ JSNumber.nan := by simp
  have h0 : JSNumber.fin 0 ≠ JSNumber.nan := by simp
  have hp : packedNumber (JSNumber.fin 2) (JSNumber.fin 0) (JSNumber.fin 0) =
      JSIntegral.int 50200576 := by
    rw [packedNumber, round_two, round_zero,
      addIntegral_small _ _ (by
        have : wrap32 (1 * 2 ^ 24) + shiftLeft (JSIntegral.int 510) 16 +
            shiftLeft (JSIntegral.int 0) 8 + 0 = 50200576 := by decide
        rw [this]
        norm_num [abs_of_nonneg])]
    decide
  ⟨h2, h0, hp, Or.inl (by norm_num), by
    obtain ⟨ds, e1, e2, -⟩ := rgbToHex_shape_iff (JSNumber.fin 2) (JSNumber.fin 0)
      (JSNumber.fin 0) h2 h0 h0
    rw [e1, e2, hp]
    decide⟩

/-- Against the built-in palette a well-formed colour is matched to one of the
tokens, with a finite distance. -/
theorem findNearestToken_builtin (s : String) (hs : WellFormedHex s) :
    ∃ name td k, (name, some td) ∈ builtinTokens ∧
      findNearestToken (some getBaselineData) s =
        ⟨name, td.value, td.availability, td.note, some (Distance.sqrt k)⟩ ∧
      calculateColorDistance s td.value = Distance.sqrt k ∧ k ≤ 195075 := by
  rcases nearestLoop_final s builtinTokens with ⟨-, hall⟩ |
    ⟨pre, name, td, post, k, hpal, hd, hst, -, -⟩
  · have h := hall "primary/50" ⟨"#FFF5F7", "widely", "Light tint"⟩ (by decide)
    rw [distance_wellFormed s _ hs ((hexRegexTest_iff _).1 (by decide))] at h
    exact absurd h (by simp)
  · have hres := findNearestToken_of_loop s builtinTokens _ _ hst
    rcases distance_cases s td.value with e | ⟨j, e, -, -, hj⟩
    · rw [hd] at e
      exact absurd e (by simp)
    · rw [hd] at e
      obtain rfl := Distance.sqrt.inj e
      exact ⟨name, td, k, by rw [hpal]; simp, hres, hd, hj⟩

/-! ## Lemmas on the results of a scan -/

theorem processPaints_items (bd : Option BaselineData) (nodeName : Option String)
    (nodeType styleType label : String) (paints : Option (List (Option Paint))) (sink : Sink) :
    ∃ new, (processPaints bd nodeName nodeType styleType label paints sink).scannedItems =
        sink.scannedItems ++ new ∧
      (∀ item ∈ new, PushedForPaint bd item) ∧
      (∀ ps p s, paints = some ps → none ∉ ps → some p ∈ ps → p.type = "SOLID" →
        p.visible ≠ some false → rgbToHex p.color = some s →
        (⟨nameOr nodeName "Unnamed layer", nodeType, styleType, s,
          findNearestToken bd s⟩ : ScanResult) ∈ new) := by
  cases paints with
  | none =>
    refine ⟨[], by simp [processPaints], by simp, ?_⟩
    intro ps p s h
    exact absurd h (by simp)
  | some ps =>
    by_cases hnull : none ∈ ps
    · refine ⟨[], by rw [processPaints_null _ _ _ _ _ _ hnull]; simp, by simp, ?_⟩
      intro ps' p s h h2
      simp only [Option.some.injEq] at h
      subst h
      exact absurd hnull h2
    · refine ⟨((ps.filterMap id).filter
          (fun p => decide (p.type = "SOLID" ∧ p.visible ≠ some false))).filterMap (fun p =>
            (rgbToHex p.color).map (fun color =>
              ⟨nameOr nodeName "Unnamed layer", nodeType, styleType, color,
                findNearestToken bd color⟩)),
        by simp only [processPaints, filterPaints_eq, hnull, if_false, paintLoop_eq], ?_, ?_⟩
      · intro item hitem
        simp only [List.mem_filterMap, List.mem_filter, id, decide_eq_true_eq] at hitem
        obtain ⟨p, ⟨-, hk⟩, hp⟩ := hitem
        cases hc : rgbToHex p.color with
        | none => rw [hc] at hp; exact absurd hp (by simp)
        | some c =>
          rw [hc] at hp
          simp only [Option.map_some', Option.some.injEq] at hp
          subst hp
          exact ⟨rfl, p, hk.1, hk.2, hc⟩
      · intro ps' p s h _ hp h1 h2 hs
        simp only [Option.some.injEq] at h
        subst h
        simp only [List.mem_filterMap, List.mem_filter, id, decide_eq_true_eq]
        exact ⟨p, ⟨⟨some p, hp, rfl⟩, h1, h2⟩, by rw [hs]; rfl⟩

theorem holdsResults_append (bd : Option BaselineData) (v1 v2 : List LayerNode)
    (a b : List ScanResult) (h1 : HoldsResults bd v1 a) (h2 : HoldsResults bd v2 b) :
    HoldsResults bd (v1 ++ v2) (a ++ b) := by
  intro m hm st p s hr hs
  rcases List.mem_append.1 hm with h | h
  · exact List.mem_append_left _ (h1 m h st p s hr hs)
  · exact List.mem_append_right _ (h2 m h st p s hr hs)

theorem holdsResults_nil (bd : Option BaselineData) (items : List ScanResult) :
    HoldsResults bd [] items := by
  intro m hm
  exact absurd hm (by simp)

theorem processNode_fills_strokes (bd : Option BaselineData) (nodeName : Option String)
    (nodeType : String) (visible : Option Bool) (fills strokes : Option (List (Option Paint)))
    (children : Option (List (Option LayerNode))) (sink : Sink) :
    ∃ new, (processPaints bd nodeName nodeType "stroke" "Stroke" strokes
        (processPaints bd nodeName nodeType "fill" "Fill" fills sink)).scannedItems =
        sink.scannedItems ++ new ∧
      (∀ item ∈ new, PushedForPaint bd item) ∧
      HoldsResults bd [.mk nodeName nodeType visible fills strokes children] new := by
  obtain ⟨n1, e1, i1, c1⟩ :=
    processPaints_items bd nodeName nodeType "fill" "Fill" fills sink
  obtain ⟨n2, e2, i2, c2⟩ := processPaints_items bd nodeName nodeType "stroke" "Stroke" strokes
    (processPaints bd nodeName nodeType "fill" "Fill" fills sink)
  refine ⟨n1 ++ n2, by rw [e2, e1, List.append_assoc], ?_, ?_⟩
  · intro item hitem
    rcases List.mem_append.1 hitem with h | h
    · exact i1 item h
    · exact i2 item h
  · intro m hm st p s hr hs
    simp only [List.mem_singleton] at hm
    subst hm
    obtain ⟨ps, hkind, hnull, hp, h1, h2⟩ := hr
    rcases hkind with ⟨rfl, hf⟩ | ⟨rfl, hf⟩
    · exact List.mem_append_left _ (c1 ps p s hf hnull hp h1 h2 hs)
    · exact List.mem_append_right _ (c2 ps p s hf hnull hp h1 h2 hs)

mutual

theorem processNode_items (bd : Option BaselineData) :
    ∀ (node : LayerNode) (sink : Sink),
      ∃ new, (processNode bd node sink).1.scannedItems = sink.scannedItems ++ new ∧
        (∀ item ∈ new, PushedForPaint bd item) ∧ HoldsResults bd node.visited new
  | .mk nodeName nodeType visible fills strokes children, sink => by
    by_cases hv : visible = some false
    · subst hv
      rw [processNode_hidden]
      refine ⟨[], by simp, by simp, ?_⟩
      unfold LayerNode.visited
      simp only [if_true]
      exact holdsResults_nil bd _
    · obtain ⟨n1, e1, i1, c1⟩ :=
        processNode_fills_strokes bd nodeName nodeType visible fills strokes children sink
      rw [processNode_visible bd nodeName nodeType visible hv]
      unfold LayerNode.visited
      simp only [hv, if_false]
      cases children with
      | none =>
        simp only
        exact ⟨n1, e1, i1, c1⟩
      | some cs =>
        simp only
        obtain ⟨n2, e2, i2, c2⟩ := processChildren_items bd cs
          (processPaints bd nodeName nodeType "stroke" "Stroke" strokes
            (processPaints bd nodeName nodeType "fill" "Fill" fills sink))
        refine ⟨n1 ++ n2, by rw [e2, e1, List.append_assoc], ?_, ?_⟩
        · intro item hitem
          rcases List.mem_append.1 hitem with h | h
          · exact i1 item h
          · exact i2 item h
        · exact holdsResults_append bd [_] _ n1 n2 c1 c2

theorem processChildren_items (bd : Option BaselineData) :
    ∀ (cs : List (Option LayerNode)) (sink : Sink),
      ∃ new, (processChildren bd cs sink).1.scannedItems = sink.scannedItems ++ new ∧
        (∀ item ∈ new, PushedForPaint bd item) ∧ HoldsResults bd (visitedChildren cs) new
  | [], sink => by
    rw [processChildren, visitedChildren]
    exact ⟨[], by simp, by simp, holdsResults_nil bd _⟩
  | none :: rest, sink => by
    rw [processChildren, visitedChildren]
    exact ⟨[], by simp, by simp, holdsResults_nil bd _⟩
  | some (.mk nodeName nodeType visible fills strokes children) :: rest, sink => by
    obtain ⟨n1, e1, i1, c1⟩ :=
      processNode_items bd (.mk nodeName nodeType visible fills strokes children) sink
    rw [processChildren_cons, visitedChildren]
    rcases hres : processNode bd (.mk nodeName nodeType visible fills strokes children) sink
      with ⟨sink1, _ | e⟩
    · rw [hres] at e1
      simp only at e1 ⊢
      obtain ⟨n2, e2, i2, c2⟩ := processChildren_items bd rest sink1
      refine ⟨n1 ++ n2, by rw [e2, e1, List.append_assoc], ?_,
        holdsResults_append bd _ _ n1 n2 c1 c2⟩
      intro item hitem
      rcases List.mem_append.1 hitem with h | h
      · exact i1 item h
      · exact i2 item h
    · rw [hres] at e1
      simp only at e1 ⊢
      obtain ⟨n2, e2, i2, c2⟩ := processChildren_items bd rest
        ⟨sink1.scannedItems, sink1.errors ++
          [⟨nameOr (LayerNode.mk nodeName nodeType visible fills strokes children).name
              "Unnamed child layer",
            (LayerNode.mk nodeName nodeType visible fills strokes children).type,
            "Child processing error: " ++ e.message⟩]⟩
      refine ⟨n1 ++ n2, by rw [e2]; simp only; rw [e1, List.append_assoc], ?_,
        holdsResults_append bd _ _ n1 n2 c1 c2⟩
      intro item hitem
      rcases List.mem_append.1 hitem with h | h
      · exact i1 item h
      · exact i2 item h

end

theorem visitedChildren_cons (node : LayerNode) (rest : List (Option LayerNode)) :
    visitedChildren (some node :: rest) = node.visited ++ visitedChildren rest := by
  cases node with
  | mk nodeName nodeType visible fills strokes children => rw [visitedChildren]

theorem scanLoop_items (bd : Option BaselineData) (total : Nat) :
    ∀ (nodes : List (Option LayerNode)) (state : ScanState),
      ∃ new, (scanLoop bd total nodes state).1.sink.scannedItems =
          state.sink.scannedItems ++ new ∧
        (∀ item ∈ new, PushedForPaint bd item) ∧ HoldsResults bd (visitedChildren nodes) new := by
  intro nodes
  induction nodes with
  | nil =>
    intro state
    rw [scanLoop, visitedChildren]
    exact ⟨[], by simp, by simp, holdsResults_nil bd _⟩
  | cons entry rest ih =>
    intro state
    cases entry with
    | none =>
      rw [scanLoop, visitedChildren]
      exact ⟨[], by simp, by simp, holdsResults_nil bd _⟩
    | some node =>
      obtain ⟨n1, e1, i1, c1⟩ := processNode_items bd node state.sink
      rw [scanLoop_cons, visitedChildren_cons]
      have key : ∀ st2 : ScanState, st2.sink.scannedItems = state.sink.scannedItems ++ n1 →
          ∃ new, (scanLoop bd total rest st2).1.sink.scannedItems =
              state.sink.scannedItems ++ new ∧
            (∀ item ∈ new, PushedForPaint bd item) ∧
            HoldsResults bd (node.visited ++ visitedChildren rest) new := by
        intro st2 h2
        obtain ⟨n2, e2, i2, c2⟩ := ih st2
        refine ⟨n1 ++ n2, by rw [e2, h2, List.append_assoc], ?_,
          holdsResults_append bd _ _ n1 n2 c1 c2⟩
        intro item hitem
        rcases List.mem_append.1 hitem with h | h
        · exact i1 item h
        · exact i2 item h
      rcases hres : processNode bd node state.sink with ⟨sink1, _ | e⟩
      · rw [hres] at e1
        simp only at e1 ⊢
        split
        · exact key _ e1
        · exact key _ e1
      · rw [hres] at e1
        simp only at e1 ⊢
        exact key _ e1

theorem unitColor_encodes (color : Option Color) (h : UnitColor color) :
    ∃ s, rgbToHex color = some s ∧ WellFormedHex s := by
  obtain ⟨r, g, b, rfl, hr, hg, hb⟩ := h
  obtain ⟨er, lr⟩ := round_level r hr.1 hr.2
  obtain ⟨eg, lg⟩ := round_level g hg.1 hg.2
  obtain ⟨eb, lb⟩ := round_level b hb.1 hb.2
  obtain ⟨ds, h1, -, -, h4⟩ := rgbToHex_shape r g b _ _ _ lr lg lb er eg eb
  exact ⟨_, h1, h4⟩

theorem builtinMatch_of_wellFormed (s : String) (hs : WellFormedHex s) :
    BuiltinMatch (findNearestToken (some getBaselineData) s) ∧
    (findNearestToken (some getBaselineData) s).distance ≠ none ∧
    ∀ e, findNearestToken (some getBaselineData) s ≠ degradedMatch s e := by
  obtain ⟨name, td, k, hmem, hres, -, hk⟩ := findNearestToken_builtin s hs
  refine ⟨⟨name, td, k, hmem, hres, hk⟩, by rw [hres]; simp, ?_⟩
  intro e he
  rw [hres] at he
  have := congrArg TokenMatch.distance he
  simp [degradedMatch] at this

theorem builtinResults_of (visited : List LayerNode) (items : List ScanResult)
    (hi : ∀ item ∈ items, PushedForPaint (some getBaselineData) item)
    (hc : HoldsResults (some getBaselineData) visited items) :
    BuiltinResults visited items := by
  constructor
  · intro item hitem
    obtain ⟨h1, h2⟩ := hi item hitem
    refine ⟨h1, h2, ?_⟩
    intro c hu henc
    obtain ⟨s, hs, hwf⟩ := unitColor_encodes c hu
    rw [henc] at hs
    obtain rfl := Option.some.inj hs
    rw [h1]
    exact builtinMatch_of_wellFormed _ hwf
  · intro m hm st p hr hu
    obtain ⟨s, hs, hwf⟩ := unitColor_encodes p.color hu
    exact ⟨s, _, hs, hc m hm st p s hr hs, rfl, builtinMatch_of_wellFormed s hwf⟩

theorem scanNodes_builtin_data (bd : Option BaselineData)
    (hbd : bd = none ∨ bd = some getBaselineData) : loadBaselineData bd = getBaselineData := by
  rcases hbd with rfl | rfl <;> rfl

theorem scanNodes_builtin_results (bd : Option BaselineData)
    (hbd : bd = none ∨ bd = some getBaselineData) (nodes : List (Option LayerNode))
    (report : ScanReport) (hreport : (scanNodes bd nodes).report = some report) :
    BuiltinResults (visitedChildren nodes) report.scannedItems := by
  obtain ⟨new, e, hi, hc⟩ :=
    scanLoop_items (some getBaselineData) nodes.length nodes ⟨⟨[], []⟩, 0, []⟩
  simp only [scanNodes, scanNodes_builtin_data bd hbd] at hreport
  rcases hloop : scanLoop (some getBaselineData) nodes.length nodes ⟨⟨[], []⟩, 0, []⟩
    with ⟨state, _ | err⟩
  · rw [hloop] at hreport e
    simp only [Option.some.injEq] at hreport
    subst hreport
    simp only [List.nil_append] at e ⊢
    rw [e]
    exact builtinResults_of _ _ hi hc
  · rw [hloop] at hreport
    exact absurd hreport (by simp)

theorem processNode_builtin_results (node : LayerNode) (sink : Sink) :
    ∃ new, (processNode (some getBaselineData) node sink).1.scannedItems =
        sink.scannedItems ++ new ∧ BuiltinResults node.visited new := by
  obtain ⟨new, e, hi, hc⟩ := processNode_items (some getBaselineData) node sink
  exact ⟨new, e, builtinResults_of _ _ hi hc⟩

theorem visited_self (node : LayerNode) (hv : node.visible ≠ some false) :
    node ∈ node.visited := by
  cases node with
  | mk nodeName nodeType visible fills strokes children =>
    have hv2 : visible ≠ some false := hv
    unfold LayerNode.visited
    simp [hv2]

theorem visitedChildren_mem (nodes : List (Option LayerNode)) (hnull : none ∉ nodes)
    (node : LayerNode) (hmem : some node ∈ nodes) (hv : node.visible ≠ some false) :
    node ∈ visitedChildren nodes := by
  induction nodes with
  | nil => exact absurd hmem (by simp)
  | cons entry rest ih =>
    cases entry with
    | none => exact absurd (List.mem_cons_self _ _) hnull
    | some n =>
      rw [visitedChildren_cons]
      rcases List.mem_cons.1 hmem with h | h
      · obtain rfl := Option.some.inj h
        exact List.mem_append_left _ (visited_self node hv)
      · exact List.mem_append_right _
          (ih (fun hn => hnull (List.mem_cons_of_mem _ hn)) h)

mutual

theorem visited_children (m : LayerNode) (cs : List (Option LayerNode))
    (hcs : m.children = some cs) (c : LayerNode) (hc : c ∈ visitedChildren cs) :
    ∀ node : LayerNode, m ∈ node.visited → c ∈ node.visited
  | .mk nodeName nodeType visible fills strokes children, hm => by
    unfold LayerNode.visited at hm ⊢
    by_cases hv : visible = some false
    · simp [hv] at hm
    · simp only [hv, if_false, List.mem_cons] at hm ⊢
      rcases hm with rfl | hm
      · right
        have : children = some cs := hcs
        subst this
        exact hc
      · right
        cases children with
        | none => exact absurd hm (by simp)
        | some cs0 =>
          simp only at hm ⊢
          exact visitedChildren_children m cs hcs c hc cs0 hm

theorem visitedChildren_children (m : LayerNode) (cs : List (Option LayerNode))
    (hcs : m.children = some cs) (c : LayerNode) (hc : c ∈ visitedChildren cs) :
    ∀ nodes : List (Option LayerNode), m ∈ visitedChildren nodes → c ∈ visitedChildren nodes
  | [], hm => by
    rw [visitedChildren] at hm
    exact absurd hm (by simp)
  | none :: rest, hm => by
    rw [visitedChildren] at hm
    exact absurd hm (by simp)
  | some (.mk nodeName nodeType visible fills strokes children) :: rest, hm => by
    rw [visitedChildren] at hm ⊢
    rcases List.mem_append.1 hm with h | h
    · exact List.mem_append_left _ (visited_children m cs hcs c hc _ h)
    · exact List.mem_append_right _ (visitedChildren_children m cs hcs c hc rest h)

end

theorem scanNodes_brandNode :
    (scanNodes none [some brandNode]).report =
      some ⟨[brandResult], ⟨1, 1, 0, 1⟩, []⟩ := by
  simp [scanNodes, loadBaselineData, scanLoop, processNode_brandNode]

/-! ## The built-in palette: claim C19 -/

/-- C19. A scan started with nothing loaded, or with the built-in data loaded,
works on the built-in palette of eighteen tokens.  For a paint whose colour has
its three channels in `[0, 1]`, the colour encodes to a string `s`, the result
pushed for the paint carries `findNearestToken(s)`, and that match is one of
the eighteen tokens with a distance `Math.sqrt(k)`, `k ≤ 3·255²`: it is not the
degraded match and its distance is not `null`.  Each built-in value is a
well-formed hex colour, the values are pairwise distinct, and matching the
value of a token returns that token with distance `0`.

In the report of such a scan, every result carries the match of its colour
and was pushed for a solid visible paint, and a result whose colour encodes a
colour with channels in `[0, 1]` carries one of the eighteen tokens, with a
finite distance, and not the degraded match; for every node that the scan
visits and every solid visible paint of it with channels in `[0, 1]`, in a
paint list without a `null` entry, the report holds the result of that paint,
and it is such a result.  The same holds of the results that one call of
`processNode` appends.  A report is returned only for a list without a `null`
entry; the scan then visits every top-level node that is not invisible, and
with a node each of the nodes visited in its child list. -/
theorem findNearestToken_builtin_total (r g b : ℚ) (hr : 0 ≤ r ∧ r ≤ 1) (hg : 0 ≤ g ∧ g ≤ 1)
    (hb : 0 ≤ b ∧ b ≤ 1) :
    (∃ s name td k, rgbToHex (some (Color.ofChannels r g b)) = some s ∧
      (name, some td) ∈ builtinTokens ∧
      findNearestToken (some getBaselineData) s =
        ⟨name, td.value, td.availability, td.note, some (Distance.sqrt k)⟩ ∧
      k ≤ 195075 ∧
      (findNearestToken (some getBaselineData) s).distance ≠ none ∧
      (∀ e, findNearestToken (some getBaselineData) s ≠ degradedMatch s e) ∧
      (∀ (p : Paint) (ln lt st : String) (acc : List ScanResult),
        p.color = some (Color.ofChannels r g b) →
        paintLoop (some getBaselineData) ln lt st [p] acc =
          acc ++ [⟨ln, lt, st, s,
            ⟨name, td.value, td.availability, td.note, some (Distance.sqrt k)⟩⟩])) ∧
    builtinTokens.length = 18 ∧
    (∀ entry ∈ builtinTokens, ∀ td ∈ entry.2, hexRegexTest td.value = true ∧
      findNearestToken (some getBaselineData) td.value =
        ⟨entry.1, td.value, td.availability, td.note, some (Distance.sqrt 0)⟩) ∧
    (builtinTokens.map (fun entry => entry.2.map TokenData.value)).Nodup ∧
    (∀ entry ∈ builtinTokens, entry.2 ≠ none) ∧
    loadBaselineData none = getBaselineData ∧
    loadBaselineData (some getBaselineData) = getBaselineData ∧
    (∀ nodes, (scanNodes none nodes).baselineData = some getBaselineData ∧
      (scanNodes (some getBaselineData) nodes).baselineData = some getBaselineData) ∧
    (∀ (bd : Option BaselineData) (nodes : List (Option LayerNode)) (report : ScanReport),
      bd = none ∨ bd = some getBaselineData → (scanNodes bd nodes).report = some report →
      BuiltinResults (visitedChildren nodes) report.scannedItems ∧ none ∉ nodes ∧
      (∀ node, some node ∈ nodes → node.visible ≠ some false → node ∈ visitedChildren nodes) ∧
      (∀ m ∈ visitedChildren nodes, ∀ cs, m.children = some cs →
        ∀ c ∈ visitedChildren cs, c ∈ visitedChildren nodes)) ∧
    (∀ (node : LayerNode) (sink : Sink),
      ∃ new, (processNode (some getBaselineData) node sink).1.scannedItems =
          sink.scannedItems ++ new ∧
        BuiltinResults node.visited new ∧
        (node.visible ≠ some false → node ∈ node.visited) ∧
        (∀ m ∈ node.visited, ∀ cs, m.children = some cs →
          ∀ c ∈ visitedChildren cs, c ∈ node.visited)) ∧
    (∀ (cs : List (Option LayerNode)) (c : LayerNode), none ∉ cs → some c ∈ cs →
      c.visible ≠ some false → c ∈ visitedChildren cs) := by
  obtain ⟨er, lr⟩ := round_level r hr.1 hr.2
  obtain ⟨eg, lg⟩ := round_level g hg.1 hg.2
  obtain ⟨eb, lb⟩ := round_level b hb.1 hb.2
  obtain ⟨ds, h1, -, -, h4⟩ := rgbToHex_shape r g b _ _ _ lr lg lb er eg eb
  obtain ⟨name, td, k, hmem, hres, -, hk⟩ := findNearestToken_builtin _ h4
  refine ⟨⟨_, name, td, k, h1, hmem, hres, hk, by rw [hres]; simp, ?_, ?_⟩, rfl, by decide,
    by decide, by decide, rfl, rfl, ?_, ?_, ?_, ?_⟩
  · intro e he
    rw [hres] at he
    have := congrArg TokenMatch.distance he
    simp [degradedMatch] at this
  · intro p ln lt st acc hp
    simp only [paintLoop, hp, h1, hres]
  · intro nodes
    constructor <;>
    · simp only [scanNodes, loadBaselineData]
      split <;> rfl
  · intro bd nodes report hbd hreport
    have hnull : none ∉ nodes := by
      intro hmem
      have hany := (scanNodes_report bd nodes report hreport).1
      rw [List.any_eq_false] at hany
      exact absurd (hany none hmem) (by simp)
    exact ⟨scanNodes_builtin_results bd hbd nodes report hreport, hnull,
      fun node hmem hv => visitedChildren_mem nodes hnull node hmem hv,
      fun m hm cs hcs c hc => visitedChildren_children m cs hcs c hc nodes hm⟩
  · intro node sink
    obtain ⟨new, e, hres⟩ := processNode_builtin_results node sink
    exact ⟨new, e, hres, visited_self node,
      fun m hm cs hcs c hc => visited_children m cs hcs c hc node hm⟩
  · intro cs c hnull hmem hv
    exact visitedChildren_mem cs hnull c hmem hv

/-- Witness of C19 at the colour `{r: 1, g: 0.2, b: 0.4}`, matched to the token
`primary/500`, and at the scan of the list `[brandNode]` with nothing loaded:
the report holds the result of the fill of `brandNode`, matched to
`primary/500` at distance `0`. -/
theorem findNearestToken_builtin_total_witness :
    (0 ≤ (1 : ℚ) ∧ (1 : ℚ) ≤ 1) ∧ (0 ≤ double02 ∧ double02 ≤ 1) ∧
      (0 ≤ double04 ∧ double04 ≤ 1) ∧
    (∃ s name td k, rgbToHex (some (Color.ofChannels 1 double02 double04)) = some s ∧
      (name, some td) ∈ builtinTokens ∧
      findNearestToken (some getBaselineData) s =
        ⟨name, td.value, td.availability, td.note, some (Distance.sqrt k)⟩) ∧
    (scanNodes none [some brandNode]).report = some ⟨[brandResult], ⟨1, 1, 0, 1⟩, []⟩ ∧
    brandNode ∈ visitedChildren [some brandNode] ∧
    RetainedPaint brandNode "fill"
      ⟨"SOLID", none, some (Color.ofChannels 1 double02 double04)⟩ ∧
    UnitColor (some (Color.ofChannels 1 double02 double04)) ∧
    brandResult ∈ [brandResult] ∧
    brandResult.tokenMatch = findNearestToken (some getBaselineData) brandResult.color ∧
    BuiltinMatch brandResult.tokenMatch :=
  have h1 : 0 ≤ (1 : ℚ) ∧ (1 : ℚ) ≤ 1 := by norm_num
  have h2 : 0 ≤ double02 ∧ double02 ≤ 1 := by norm_num [double02]
  have h3 : 0 ≤ double04 ∧ double04 ≤ 1 := by norm_num [double04]
  have hu : UnitColor (some (Color.ofChannels 1 double02 double04)) :=
    ⟨1, double02, double04, rfl, h1, h2, h3⟩
  have hrep := scanNodes_brandNode
  have hscan := (findNearestToken_builtin_total 1 double02 double04 h1 h2 h3).2.2.2.2.2.2.2.2.1
    none [some brandNode] _ (Or.inl rfl) hrep
  have hmem : brandResult ∈ [brandResult] := List.mem_singleton.2 rfl
  ⟨h1, h2, h3, by
    obtain ⟨s, name, td, k, e1, e2, e3, -⟩ :=
      (findNearestToken_builtin_total 1 double02 double04 h1 h2 h3).1
    exact ⟨s, name, td, k, e1, e2, e3⟩,
    hrep,
    hscan.2.2.1 brandNode (List.mem_singleton.2 rfl) (by decide),
    ⟨_, Or.inl ⟨rfl, rfl⟩, by decide, List.mem_singleton.2 rfl, rfl, by decide⟩,
    hu, hmem, (hscan.1.1 brandResult hmem).1,
    ((hscan.1.1 brandResult hmem).2.2 _ hu rgbToHex_brand).1⟩

/-! ## Lemmas on HTML escaping -/

theorem replaceAll_append (c : Char) (r : String) (a b : List Char) :
    replaceAll c r (a ++ b) = replaceAll c r a ++ replaceAll c r b := by
  simp [replaceAll, List.flatMap_append]

theorem replaceAll_cons (c : Char) (r : String) (x : Char) (l : List Char) :
    replaceAll c r (x :: l) = (if x = c then r.data else [x]) ++ replaceAll c r l := by
  simp [replaceAll, List.flatMap_cons]

theorem matchEntity_escape (c : Char) (rest : List Char) :
    matchEntity (specEscapeChar c ++ rest) = if c ∈ specialChars then some (c, rest) else none := by
  unfold specEscapeChar
  by_cases h1 : c = '&'
  · subst h1; simp [matchEntity, specEntities, stripPrefix, specialChars]
  by_cases h2 : c = '<'
  · subst h2; simp [matchEntity, specEntities, stripPrefix, specialChars]
  by_cases h3 : c = '>'
  · subst h3; simp [matchEntity, specEntities, stripPrefix, specialChars]
  by_cases h4 : c = '\x22'
  · subst h4; simp [matchEntity, specEntities, stripPrefix, specialChars]
  by_cases h5 : c = '\x27'
  · subst h5; simp [matchEntity, specEntities, stripPrefix, specialChars]
  have h1' : ¬ '&' = c := fun h => h1 h.symm
  simp [h1, h2, h3, h4, h5, h1', matchEntity, specEntities, stripPrefix, specialChars]

theorem specEscapeChar_plain (c : Char) (hc : c ∉ specialChars) : specEscapeChar c = [c] := by
  simp only [specialChars, List.mem_cons, List.mem_singleton, List.not_mem_nil, or_false,
    not_or] at hc
  obtain ⟨h1, h2, h3, h4, h5⟩ := hc
  simp [specEscapeChar, h1, h2, h3, h4, h5]

theorem specEscapeChar_special (c : Char) (hc : c ∈ specialChars) :
    ∃ e ∈ specEntities, e.2 = c ∧ specEscapeChar c = e.1 ∧
      ∃ tail, e.1 = '&' :: tail ∧ '&' ∉ tail := by
  simp only [specialChars, List.mem_cons, List.mem_singleton, List.not_mem_nil, or_false] at hc
  rcases hc with rfl | rfl | rfl | rfl | rfl
  · exact ⟨("&amp;".data, '&'), by decide, rfl, by decide, "amp;".data, rfl, by decide⟩
  · exact ⟨("&lt;".data, '<'), by decide, rfl, by decide, "lt;".data, rfl, by decide⟩
  · exact ⟨("&gt;".data, '>'), by decide, rfl, by decide, "gt;".data, rfl, by decide⟩
  · exact ⟨("&quot;".data, '\x22'), by decide, rfl, by decide, "quot;".data, rfl, by decide⟩
  · exact ⟨("&#039;".data, '\x27'), by decide, rfl, by decide, "#039;".data, rfl, by decide⟩

theorem specEscapeChar_length (c : Char) : 1 ≤ (specEscapeChar c).length := by
  by_cases hc : c ∈ specialChars
  · obtain ⟨e, -, -, h, tail, ht, -⟩ := specEscapeChar_special c hc
    rw [h, ht]
    simp
  · rw [specEscapeChar_plain c hc]
    simp

theorem specEscapeChar_safe (c x : Char) (hx : x ∈ specEscapeChar c) :
    x ∉ ['<', '>', '\x22', '\x27'] := by
  by_cases hc : c ∈ specialChars
  · simp only [specialChars, List.mem_cons, List.mem_singleton, List.not_mem_nil, or_false] at hc
    rcases hc with rfl | rfl | rfl | rfl | rfl <;> revert x <;> decide
  · rw [specEscapeChar_plain c hc, List.mem_singleton] at hx
    subst hx
    intro h
    apply hc
    simp only [specialChars, List.mem_cons, List.mem_singleton, List.not_mem_nil, or_false] at h ⊢
    tauto

theorem escape_head (x : Char) :
    replaceAll '\x27' "&#039;" (replaceAll '\x22' "&quot;" (replaceAll '>' "&gt;"
      (replaceAll '<' "&lt;" (if x = '&' then "&amp;".data else [x])))) = specEscapeChar x := by
  by_cases h1 : x = '&'
  · subst h1; decide
  by_cases h2 : x = '<'
  · subst h2; decide
  by_cases h3 : x = '>'
  · subst h3; decide
  by_cases h4 : x = '\x22'
  · subst h4; decide
  by_cases h5 : x = '\x27'
  · subst h5; decide
  simp [replaceAll, specEscapeChar, h1, h2, h3, h4, h5]

/-- The five replacements of `escapeHtml`, made one after the other, replace
every character by its entity. -/
theorem escapeHtml_flatMap (s : String) :
    (escapeHtml s).data = s.data.flatMap specEscapeChar := by
  unfold escapeHtml
  simp only
  induction s.data with
  | nil => rfl
  | cons x l ih =>
    rw [replaceAll_cons, replaceAll_append, replaceAll_append, replaceAll_append,
      replaceAll_append, escape_head, ih, List.flatMap_cons]

theorem amp_split (tail : List Char) (h : '&' ∉ tail) :
    ∀ (pre post rest : List Char), pre ++ '&' :: post = tail ++ rest →
      ∃ pre', pre = tail ++ pre' ∧ pre' ++ '&' :: post = rest := by
  induction tail with
  | nil =>
    intro pre post rest he
    exact ⟨pre, rfl, he⟩
  | cons t tail ih =>
    intro pre post rest he
    cases pre with
    | nil =>
      simp only [List.nil_append, List.cons_append, List.cons.injEq] at he
      exact absurd he.1.symm (fun h' => h (by simp [h']))
    | cons x pre =>
      simp only [List.cons_append, List.cons.injEq] at he
      obtain ⟨pre', h1, h2⟩ := ih (fun h' => h (List.mem_cons_of_mem _ h')) pre post rest he.2
      exact ⟨pre', by rw [he.1, h1]; rfl, h2⟩

/-- Every `&` of an escaped string starts one of the five entities. -/
theorem escape_amp (l : List Char) :
    ∀ (pre post : List Char), l.flatMap specEscapeChar = pre ++ '&' :: post →
      ∃ e ∈ specEntities, e.1 <+: '&' :: post := by
  induction l with
  | nil =>
    intro pre post he
    simp at he
  | cons c l ih =>
    intro pre post he
    rw [List.flatMap_cons] at he
    by_cases hc : c ∈ specialChars
    · obtain ⟨e, hmem, -, hesc, tail, htail, hno⟩ := specEscapeChar_special c hc
      rw [hesc, htail] at he
      cases pre with
      | nil =>
        simp only [List.nil_append, List.cons_append, List.cons.injEq, true_and] at he
        refine ⟨e, hmem, ?_⟩
        rw [htail, ← he]
        exact ⟨l.flatMap specEscapeChar, by simp⟩
      | cons x pre =>
        simp only [List.cons_append, List.cons.injEq] at he
        obtain ⟨pre', -, h2⟩ := amp_split tail hno pre post _ he.2.symm
        exact ih pre' post h2.symm
    · rw [specEscapeChar_plain c hc] at he
      have hne : '&' ∉ [c] := by
        intro h
        rw [List.mem_singleton] at h
        exact hc (by rw [← h]; decide)
      obtain ⟨pre', -, h2⟩ := amp_split [c] hne pre post _ he.symm
      exact ih pre' post h2.symm

theorem specUnescapeAux_escape (l : List Char) :
    ∀ fuel, (l.flatMap specEscapeChar).length ≤ fuel →
      specUnescapeAux fuel (l.flatMap specEscapeChar) = l := by
  induction l with
  | nil =>
    intro fuel _
    cases fuel <;> rfl
  | cons c l ih =>
    intro fuel hfuel
    rw [List.flatMap_cons] at hfuel ⊢
    rw [List.length_append] at hfuel
    have hlen := specEscapeChar_length c
    obtain ⟨f, rfl⟩ : ∃ f, fuel = f + 1 := ⟨fuel - 1, by omega⟩
    by_cases hc : c ∈ specialChars
    · obtain ⟨e, -, -, hesc, tail, htail, -⟩ := specEscapeChar_special c hc
      have hm := matchEntity_escape c (l.flatMap specEscapeChar)
      rw [if_pos hc] at hm
      rw [hesc, htail] at hm ⊢
      rw [List.cons_append] at hm ⊢
      rw [specUnescapeAux, hm]
      simp only
      rw [ih f (by omega)]
    · have hm := matchEntity_escape c (l.flatMap specEscapeChar)
      rw [if_neg hc] at hm
      rw [specEscapeChar_plain c hc] at hm ⊢
      rw [List.singleton_append] at hm ⊢
      rw [specUnescapeAux, hm]
      simp only
      rw [ih f (by omega)]
/-! ## HTML escaping: claim C20 -/

/-- C20. For every string `s`: `escapeHtml(s)` contains none of the characters
`<`, `>`, the double quote and the apostrophe; every `&` in it starts one of
the five entities `&amp;`, `&lt;`, `&gt;`, `&quot;`, `&#039;`; replacing the
entities back by their characters gives `s`, so that two strings with the same
escaping are equal; and a string without any of the five special characters is
returned unchanged. -/
theorem escapeHtml_safe (s : String) :
    (∀ c ∈ (escapeHtml s).data, c ∉ ['<', '>', '\x22', '\x27']) ∧
    (∀ pre post, (escapeHtml s).data = pre ++ '&' :: post →
      ∃ e ∈ specEntities, e.1 <+: '&' :: post) ∧
    specUnescape (escapeHtml s).data = s.data ∧
    (∀ t : String, escapeHtml s = escapeHtml t → s = t) ∧
    ((∀ c ∈ s.data, c ∉ specialChars) → escapeHtml s = s) := by
  have hflat := escapeHtml_flatMap s
  have hround : ∀ u : String, specUnescape (escapeHtml u).data = u.data := by
    intro u
    rw [escapeHtml_flatMap u, specUnescape]
    exact specUnescapeAux_escape u.data _ (Nat.le_refl _)
  refine ⟨?_, ?_, hround s, ?_, ?_⟩
  · intro c hc
    rw [hflat, List.mem_flatMap] at hc
    obtain ⟨x, -, hx⟩ := hc
    exact specEscapeChar_safe x c hx
  · intro pre post he
    rw [hflat] at he
    exact escape_amp s.data pre post he
  · intro t he
    have h1 := hround s
    rw [he, hround t] at h1
    exact String.ext h1.symm
  · intro hplain
    apply String.ext
    rw [hflat]
    have : ∀ l : List Char, (∀ c ∈ l, c ∉ specialChars) → l.flatMap specEscapeChar = l := by
      intro l
      induction l with
      | nil => intro _; rfl
      | cons x l ih =>
        intro h
        rw [List.flatMap_cons, specEscapeChar_plain x (h x (by simp)),
          ih (fun c hc => h c (List.mem_cons_of_mem _ hc))]
        rfl
    exact this s.data hplain

/-- Witness of C20 at a string with the five special characters, and at a
string without any of them. -/
theorem escapeHtml_safe_witness :
    escapeHtml "a<b & \x22c\x22 \x27d\x27>" =
      "a&lt;b &amp; &quot;c&quot; &#039;d&#039;&gt;" ∧
    specUnescape (escapeHtml "a<b & \x22c\x22 \x27d\x27>").data =
      "a<b & \x22c\x22 \x27d\x27>".data ∧
    (∀ c ∈ "primary/500".data, c ∉ specialChars) ∧
    escapeHtml "primary/500" = "primary/500" :=
  ⟨by decide, (escapeHtml_safe "a<b & \x22c\x22 \x27d\x27>").2.2.1, by decide,
    (escapeHtml_safe "primary/500").2.2.2.2 (by decide)⟩

end Visualine
